import Mathlib

/-!
# RaytracerTP: intersection, shading and the pixel loop

Shallow embedding of vec3.h, structures.h, intersect.h, pigment.h, shading.h,
loader.h and the pixel loop of main.cpp.

Numbers.  The C++ code computes in double.  The embedding is parametric in a
linearly ordered field K standing for the finite doubles, with the library
function sqrt passed as a parameter; rounding and overflow are outside the
model.  A value that may hold an infinity or NaN has type Dbl K: the two
infinities that the code writes explicitly
(std::numeric_limits<double>::infinity()), and the quotients by 2a and 2aq of
the sphere and quadric code, whose divisor is zero for finite scene data (a ray
along the axis of a paraboloid, any ray against a plane written as a quadric).
These quotients are taken with Dbl.div, which gives an infinity or NaN where
IEEE 754 does, and the t they produce is carried through the CSG sweep and
findClosestHit as the code carries it.  The other quotients are taken in K,
where x / 0 = 0; a zero divisor there is outside the model.  Conversions from
double to an integer type (floor, the casts to int and to unsigned char) need K
to be a FloorRing.

Library code.  std::sort is not part of the repository; it is passed as a
parameter, and IsStdSort states what the C++ standard promises about it on keys
that are not NaN.  pow and the random source are parameters too: rand n is the
value of (double)rand() at the n-th call of the run and RAND_MAX is the library
constant.

Output parameters.  A C++ function bool f(.., HitInfo &hit) becomes a function
taking the incoming record and returning the flag paired with the outgoing
record.  getAllIntersections(ray, obj, hits) returns the list of crossings it
appends to hits.

Execution state.  The shading code is threaded through a record Exec holding
the number of rand() calls made so far and, as a ghost field, the depth
arguments of the traceRay calls made so far.  A read of a std::vector outside
its range has no defined behaviour in C++; the model makes it explicit, so
shade and traceRay return an Option, none standing for such a read.  The
generation of the camera ray of one sample (main.cpp, lines 54 to 88) is a
parameter of the pixel loop.

Files.  The loader reads a scene file through operator>>.  The model takes the
file as the list of its whitespace-separated tokens, each already converted
(an integer literal, another decimal literal, or a word), and follows the runs
in which every extraction succeeds: an extraction that finds no token of the
right kind gives none.  A file that cannot be opened is the argument none.  The
texture files are reached through the parameter openFile.  The recursion of
parseObject over nested CSG nodes is bounded by the number of tokens left.
-/

namespace Raytracer

/-! ## Doubles: the two infinities and NaN -/

/-- A double that may hold minus infinity, a finite value, plus infinity or NaN.
The order of Dbl K puts NaN above plus infinity.  For a y that is not NaN, x < y
and x <= y are then the comparisons of the two doubles, false when x is NaN.  In
the definitions below the operand on the greater side of a comparison of doubles
is never NaN: it is a finite value, or closestHit.t or closestT, which start at
plus infinity and only take a t that passed the comparison, or a slab bound,
which is an infinity or a quotient by a non-zero divisor. -/
inductive Dbl (K : Type) where
  | ninf : Dbl K
  | fin (x : K) : Dbl K
  | inf : Dbl K
  | nan : Dbl K
  deriving DecidableEq

/-- Order embedding of Dbl into the order completion used by Mathlib. -/
def Dbl.toCompletion {K : Type} : Dbl K → WithTop (WithBot (WithTop K))
  | .ninf => ((⊥ : WithBot (WithTop K)) : WithTop (WithBot (WithTop K)))
  | .fin x => (((x : WithTop K) : WithBot (WithTop K)) : WithTop (WithBot (WithTop K)))
  | .inf => (((⊤ : WithTop K) : WithBot (WithTop K)) : WithTop (WithBot (WithTop K)))
  | .nan => ⊤

instance Dbl.instLinearOrder {K : Type} [LinearOrder K] : LinearOrder (Dbl K) :=
  LinearOrder.lift' Dbl.toCompletion (by
    intro a b h
    cases a <;> cases b <;> simp only [Dbl.toCompletion] at h <;>
      first
        | rfl
        | exact absurd h WithTop.coe_ne_top
        | exact absurd h WithTop.top_ne_coe
        | (rw [WithTop.coe_inj] at h
           first
             | exact absurd h WithBot.bot_ne_coe
             | exact absurd h WithBot.coe_ne_bot
             | (rw [WithBot.coe_inj] at h
                first
                  | exact absurd h WithTop.coe_ne_top
                  | exact absurd h WithTop.top_ne_coe
                  | (rw [WithTop.coe_inj] at h; rw [h]))))

/-- The quotient x / y of two finite doubles where y may be zero, as IEEE 754
gives it: a non-zero x over zero is an infinity and zero over zero is NaN.  The
sign of a zero is not modelled: a zero divisor is taken as +0, which 2.0 * a is
for a sum a of squares, and which 2.0 * aq is unless every term of aq is -0. -/
def Dbl.div {K : Type} [LinearOrderedField K] (x y : K) : Dbl K :=
  if y = 0 then (if 0 < x then .inf else if x < 0 then .ninf else .nan) else .fin (x / y)

/-! ## vec3.h -/

/-- The class Vec3 of vec3.h. -/
structure Vec3 (K : Type) where
  x : K
  y : K
  z : K
  deriving DecidableEq

namespace Vec3

variable {K : Type} [LinearOrderedField K]

/-- Vec3::operator+ -/
def add (u v : Vec3 K) : Vec3 K := ⟨u.x + v.x, u.y + v.y, u.z + v.z⟩

/-- Vec3::operator- -/
def sub (u v : Vec3 K) : Vec3 K := ⟨u.x - v.x, u.y - v.y, u.z - v.z⟩

/-- Vec3::operator*(double) -/
def scale (u : Vec3 K) (t : K) : Vec3 K := ⟨u.x * t, u.y * t, u.z * t⟩

/-- Vec3::operator/(double) -/
def divide (u : Vec3 K) (t : K) : Vec3 K := ⟨u.x / t, u.y / t, u.z / t⟩

/-- Vec3::operator*(const Vec3 &), componentwise. -/
def mul (u v : Vec3 K) : Vec3 K := ⟨u.x * v.x, u.y * v.y, u.z * v.z⟩

/-- Vec3::dot -/
def dot (u v : Vec3 K) : K := u.x * v.x + u.y * v.y + u.z * v.z

/-- Vec3::cross -/
def cross (u v : Vec3 K) : Vec3 K :=
  ⟨u.y * v.z - u.z * v.y, u.z * v.x - u.x * v.z, u.x * v.y - u.y * v.x⟩

/-- Vec3::length -/
def length (sqrt : K → K) (u : Vec3 K) : K := sqrt (u.x * u.x + u.y * u.y + u.z * u.z)

/-- Vec3::normalize -/
def normalize (sqrt : K → K) (u : Vec3 K) : Vec3 K :=
  let len := u.length sqrt
  if len > 0 then ⟨u.x / len, u.y / len, u.z / len⟩ else ⟨0, 0, 0⟩

/-- Vec3::clamp, with std::fmax and std::fmin. -/
def clamp (u : Vec3 K) (lo hi : K) : Vec3 K :=
  ⟨max lo (min hi u.x), max lo (min hi u.y), max lo (min hi u.z)⟩

end Vec3

/-! ## structures.h -/

/-- The struct Ray; the fields hold what the constructor stored. -/
structure Ray (K : Type) where
  origin : Vec3 K
  direction : Vec3 K

/-- The constructor Ray(o, d), which normalizes the direction. -/
def Ray.ctor {K : Type} [LinearOrderedField K] (sqrt : K → K) (o d : Vec3 K) : Ray K :=
  ⟨o, d.normalize sqrt⟩

/-- Ray::at (at is a reserved word of Lean). -/
def Ray.at_ {K : Type} [LinearOrderedField K] (ray : Ray K) (t : K) : Vec3 K :=
  ray.origin.add (ray.direction.scale t)

/-- The struct Plane; the fields hold what the constructor stored. -/
structure Plane (K : Type) where
  a : K
  b : K
  c : K
  d : K

/-- The constructor Plane(a, b, c, d). -/
def Plane.ctor {K : Type} [LinearOrderedField K] (sqrt : K → K) (a b c d : K) : Plane K :=
  let len := sqrt (a * a + b * b + c * c)
  if len > 0 then ⟨a / len, b / len, c / len, d / len⟩ else ⟨a, b, c, d⟩

/-- Plane::normal -/
def Plane.normal {K : Type} (p : Plane K) : Vec3 K := ⟨p.a, p.b, p.c⟩

/-- Plane::distance -/
def Plane.distance {K : Type} [LinearOrderedField K] (pl : Plane K) (p : Vec3 K) : K :=
  pl.a * p.x + pl.b * p.y + pl.c * p.z + pl.d

/-- The enum ObjectType. -/
inductive ObjectType where
  | SPHERE
  | POLYHEDRON
  | QUADRIC
  | CSG
  deriving DecidableEq

/-- The enum CSGOperation. -/
inductive CSGOperation where
  | CSG_UNION
  | CSG_DIFFERENCE
  deriving DecidableEq

/-- The struct Object: one record carrying the fields of all four kinds. -/
inductive Object (K : Type) where
  | mk (type : ObjectType) (pigmentIdx finishIdx : Int)
      (center : Vec3 K) (radius : K)
      (faces : List (Plane K))
      (A B C D E F G H I J : K)
      (csgChildren : List (Object K)) (csgOperations : List CSGOperation) : Object K

namespace Object

variable {K : Type}

/-- Field type. -/
def type : Object K → ObjectType
  | .mk ty _ _ _ _ _ _ _ _ _ _ _ _ _ _ _ _ _ => ty

/-- Field pigmentIdx. -/
def pigmentIdx : Object K → Int
  | .mk _ p _ _ _ _ _ _ _ _ _ _ _ _ _ _ _ _ => p

/-- Field finishIdx. -/
def finishIdx : Object K → Int
  | .mk _ _ f _ _ _ _ _ _ _ _ _ _ _ _ _ _ _ => f

/-- Field center. -/
def center : Object K → Vec3 K
  | .mk _ _ _ c _ _ _ _ _ _ _ _ _ _ _ _ _ _ => c

/-- Field radius. -/
def radius : Object K → K
  | .mk _ _ _ _ r _ _ _ _ _ _ _ _ _ _ _ _ _ => r

/-- Field faces. -/
def faces : Object K → List (Plane K)
  | .mk _ _ _ _ _ fs _ _ _ _ _ _ _ _ _ _ _ _ => fs

/-- Field A. -/
def A : Object K → K
  | .mk _ _ _ _ _ _ a _ _ _ _ _ _ _ _ _ _ _ => a

/-- Field B. -/
def B : Object K → K
  | .mk _ _ _ _ _ _ _ b _ _ _ _ _ _ _ _ _ _ => b

/-- Field C. -/
def C : Object K → K
  | .mk _ _ _ _ _ _ _ _ c _ _ _ _ _ _ _ _ _ => c

/-- Field D. -/
def D : Object K → K
  | .mk _ _ _ _ _ _ _ _ _ d _ _ _ _ _ _ _ _ => d

/-- Field E. -/
def E : Object K → K
  | .mk _ _ _ _ _ _ _ _ _ _ e _ _ _ _ _ _ _ => e

/-- Field F. -/
def F : Object K → K
  | .mk _ _ _ _ _ _ _ _ _ _ _ f _ _ _ _ _ _ => f

/-- Field G. -/
def G : Object K → K
  | .mk _ _ _ _ _ _ _ _ _ _ _ _ g _ _ _ _ _ => g

/-- Field H. -/
def H : Object K → K
  | .mk _ _ _ _ _ _ _ _ _ _ _ _ _ h _ _ _ _ => h

/-- Field I. -/
def I : Object K → K
  | .mk _ _ _ _ _ _ _ _ _ _ _ _ _ _ i _ _ _ => i

/-- Field J. -/
def J : Object K → K
  | .mk _ _ _ _ _ _ _ _ _ _ _ _ _ _ _ j _ _ => j

/-- Field csgChildren. -/
def csgChildren : Object K → List (Object K)
  | .mk _ _ _ _ _ _ _ _ _ _ _ _ _ _ _ _ ch _ => ch

/-- Field csgOperations. -/
def csgOperations : Object K → List CSGOperation
  | .mk _ _ _ _ _ _ _ _ _ _ _ _ _ _ _ _ _ ops => ops

/-- The default constructor Object(). -/
def ctor [Zero K] : Object K :=
  .mk .SPHERE 0 0 ⟨0, 0, 0⟩ 0 [] 0 0 0 0 0 0 0 0 0 0 [] []

end Object

/-- The struct HitInfo. -/
structure HitInfo (K : Type) where
  hit : Bool
  t : Dbl K
  point : Vec3 K
  normal : Vec3 K
  objectIdx : Int

/-- The default constructor HitInfo(): hit(false), t(1e10), objectIdx(-1). -/
def HitInfo.ctor {K : Type} [LinearOrderedField K] : HitInfo K :=
  ⟨false, .fin 10000000000, ⟨0, 0, 0⟩, ⟨0, 0, 0⟩, -1⟩

/-- The enum PigmentType. -/
inductive PigmentType where
  | SOLID
  | CHECKER
  | TEXMAP
  deriving DecidableEq

/-- The struct Pigment; the arrays p0[4] and p1[4] are functions on Fin 4. -/
structure Pigment (K : Type) where
  type : PigmentType
  color1 : Vec3 K
  color2 : Vec3 K
  scale : K
  texturePath : String
  p0 : Fin 4 → K
  p1 : Fin 4 → K
  textureData : List (Vec3 K)
  textureWidth : Int
  textureHeight : Int

/-- The default constructor Pigment(). -/
def Pigment.ctor {K : Type} [LinearOrderedField K] : Pigment K :=
  ⟨.SOLID, ⟨1, 1, 1⟩, ⟨0, 0, 0⟩, 1, "", fun _ => 0, fun _ => 0, [], 0, 0⟩

/-- The struct Finish. -/
structure Finish (K : Type) where
  ka : K
  kd : K
  ks : K
  alpha : K
  kr : K
  kt : K
  ior : K

/-- The default constructor Finish(). -/
def Finish.ctor {K : Type} [LinearOrderedField K] : Finish K :=
  ⟨0, 0, 0, 1, 0, 0, 1⟩

/-- The struct Light. -/
structure Light (K : Type) where
  position : Vec3 K
  color : Vec3 K
  attenuation : Vec3 K

/-- The struct Scene. -/
structure Scene (K : Type) where
  eye : Vec3 K
  lookAt : Vec3 K
  up : Vec3 K
  fovy : K
  lights : List (Light K)
  pigments : List (Pigment K)
  finishes : List (Finish K)
  objects : List (Object K)

/-! ## intersect.h -/

section Intersect

variable {K : Type} [LinearOrderedField K]

/-- The function intersectSphere.  The divisor 2.0 * a is zero for a ray of
zero direction; t is then not finite and the function still returns true.  For
such a t every component of ray.at(t) is NaN, which Vec3 K cannot hold: the
model leaves the field point as it was and writes the normal (0, 0, 0), which
normalize returns for a vector whose length is NaN.  findClosestHit, the only
caller, drops a record whose t is not finite: its test hit.t < closestHit.t
fails. -/
def intersectSphere (sqrt : K → K) (ray : Ray K) (sphere : Object K) (hit : HitInfo K) :
    Bool × HitInfo K :=
  let oc := ray.origin.sub sphere.center
  let a := ray.direction.dot ray.direction
  let b := 2 * oc.dot ray.direction
  let c := oc.dot oc - sphere.radius * sphere.radius
  let discriminant := b * b - 4 * a * c
  if discriminant < 0 then (false, hit)
  else
    let t1 := Dbl.div (-b - sqrt discriminant) (2 * a)
    let t2 := Dbl.div (-b + sqrt discriminant) (2 * a)
    let t := t1
    let t := if t < Dbl.fin (1 / 1000) then t2 else t
    if t < Dbl.fin (1 / 1000) then (false, hit)
    else
      match t with
      | .fin t =>
        let point := ray.at_ t
        (true, { hit with
          hit := true, t := .fin t, point := point,
          normal := (point.sub sphere.center).normalize sqrt })
      | t => (true, { hit with hit := true, t := t, normal := ⟨0, 0, 0⟩ })

/-- The loop variables of the slab clipping: tNear, tFar, nearNormal, farNormal. -/
structure Slab (K : Type) where
  tNear : Dbl K
  tFar : Dbl K
  nearNormal : Vec3 K
  farNormal : Vec3 K

/-- The for loop of intersectPolyhedron; none is the early return false. -/
def intersectPolyhedronLoop (ray : Ray K) : List (Plane K) → Slab K → Option (Slab K)
  | [], s => some s
  | plane :: rest, s =>
    let n := plane.normal
    let denom := n.dot ray.direction
    let dist := -plane.distance ray.origin / denom
    if |denom| < 1 / 10000000000 then
      if plane.distance ray.origin > 0 then none
      else intersectPolyhedronLoop ray rest s
    else
      let s :=
        if denom < 0 then
          if Dbl.fin dist > s.tNear then { s with tNear := .fin dist, nearNormal := n } else s
        else
          if Dbl.fin dist < s.tFar then { s with tFar := .fin dist, farNormal := n.scale (-1) }
          else s
      if s.tNear > s.tFar then none
      else intersectPolyhedronLoop ray rest s

/-- The function intersectPolyhedron.  After the two guards tNear is finite
(minus infinity is below 0.001, plus infinity is above 1e10). -/
def intersectPolyhedron (sqrt : K → K) (ray : Ray K) (poly : Object K) (hit : HitInfo K) :
    Bool × HitInfo K :=
  match intersectPolyhedronLoop ray poly.faces ⟨.ninf, .inf, ⟨0, 0, 0⟩, ⟨0, 0, 0⟩⟩ with
  | none => (false, hit)
  | some s =>
    let s := if s.tNear < Dbl.fin (1 / 1000) then
      { s with tNear := s.tFar, nearNormal := s.farNormal } else s
    match s.tNear with
    | .fin tNear =>
      if tNear < 1 / 1000 ∨ tNear > 10000000000 then (false, hit)
      else
        (true, { hit with
          hit := true, t := .fin tNear, point := ray.at_ tNear,
          normal := s.nearNormal.normalize sqrt })
    | _ => (false, hit)

/-- The coefficient aq of t^2 in intersectQuadric. -/
def quadricA (d : Vec3 K) (quad : Object K) : K :=
  quad.A * d.x * d.x + quad.B * d.y * d.y + quad.C * d.z * d.z +
    quad.D * d.x * d.y + quad.E * d.x * d.z + quad.F * d.y * d.z

/-- The coefficient bq of t in intersectQuadric. -/
def quadricB (o d : Vec3 K) (quad : Object K) : K :=
  2 * quad.A * o.x * d.x + 2 * quad.B * o.y * d.y +
    2 * quad.C * o.z * d.z + quad.D * (o.x * d.y + o.y * d.x) +
    quad.E * (o.x * d.z + o.z * d.x) +
    quad.F * (o.y * d.z + o.z * d.y) + quad.G * d.x + quad.H * d.y +
    quad.I * d.z

/-- The constant term cq in intersectQuadric. -/
def quadricC (o : Vec3 K) (quad : Object K) : K :=
  quad.A * o.x * o.x + quad.B * o.y * o.y + quad.C * o.z * o.z +
    quad.D * o.x * o.y + quad.E * o.x * o.z + quad.F * o.y * o.z +
    quad.G * o.x + quad.H * o.y + quad.I * o.z + quad.J

/-- The gradient vector that intersectQuadric normalizes into the normal. -/
def quadricGradient (quad : Object K) (p : Vec3 K) : Vec3 K :=
  ⟨2 * quad.A * p.x + quad.D * p.y + quad.E * p.z + quad.G,
   2 * quad.B * p.y + quad.D * p.x + quad.F * p.z + quad.H,
   2 * quad.C * p.z + quad.E * p.x + quad.F * p.y + quad.I⟩

/-- The function intersectQuadric.  The divisor 2.0 * aq is zero where aq is:
t1 is then minus infinity or NaN, t ends as NaN, NaN < 0.001 is false and the
function returns true with hit.t = NaN.  For a t that is not finite ray.at(t)
has a NaN component, which Vec3 K cannot hold: the model leaves the field point
as it was and writes the normal (0, 0, 0), which normalize returns for a vector
whose length is NaN.  findClosestHit, the only caller, drops a record whose t is
not finite: its test hit.t < closestHit.t fails. -/
def intersectQuadric (sqrt : K → K) (ray : Ray K) (quad : Object K) (hit : HitInfo K) :
    Bool × HitInfo K :=
  let o := ray.origin
  let d := ray.direction
  let aq := quadricA d quad
  let bq := quadricB o d quad
  let cq := quadricC o quad
  let discriminant := bq * bq - 4 * aq * cq
  if discriminant < 0 then (false, hit)
  else
    let sqrt_disc := sqrt discriminant
    let t1 := Dbl.div (-bq - sqrt_disc) (2 * aq)
    let t2 := Dbl.div (-bq + sqrt_disc) (2 * aq)
    let t := t1
    let t := if t < Dbl.fin (1 / 1000) then t2 else t
    if t < Dbl.fin (1 / 1000) then (false, hit)
    else
      match t with
      | .fin t =>
        let p := ray.at_ t
        (true, { hit with
          hit := true, t := .fin t, point := p,
          normal := (quadricGradient quad p).normalize sqrt })
      | t => (true, { hit with hit := true, t := t, normal := ⟨0, 0, 0⟩ })

/-- The struct CSGIntersection. -/
structure CSGIntersection (K : Type) where
  t : Dbl K
  normal : Vec3 K
  childIdx : Int

/-- What the C++ standard promises of std::sort under operator< of
CSGIntersection (t < other.t) on keys that are not NaN: the result is a
permutation of the input in which no element is less than an earlier one.  The
order of elements of equal t is left open.  Against a NaN key operator< is false
both ways, and the standard promises an order only if all the other keys are
equal; IsStdSort reads t < other.t in the order of Dbl, so it asks for the NaN
keys to come last, which a run of std::sort need not do (insertionSortByLess
below is such a run). -/
def IsStdSort (sort : List (CSGIntersection K) → List (CSGIntersection K)) : Prop :=
  ∀ l, (sort l).Perm l ∧ (sort l).Pairwise (fun h1 h2 => ¬ h2.t < h1.t)

/-- The normal pushed with a crossing at t, given the normal at a finite t.  At
a t that is not finite the vector handed to normalize has a NaN component (see
sphereIntersections and quadricIntersections), its length is NaN, the test
len > 0 fails and normalize returns (0, 0, 0). -/
def crossingNormal (t : Dbl K) (normalAt : K → Vec3 K) : Vec3 K :=
  match t with
  | .fin t => normalAt t
  | _ => ⟨0, 0, 0⟩

/-- The SPHERE branch of getAllIntersections.  The divisor 2.0 * a is zero for a
ray of zero direction; t1 and t2 are then not finite and ray.at(t) is NaN in
every component (0 * t is NaN). -/
def sphereIntersections (sqrt : K → K) (ray : Ray K) (center : Vec3 K) (radius : K) :
    List (CSGIntersection K) :=
  let oc := ray.origin.sub center
  let a := ray.direction.dot ray.direction
  let b := 2 * oc.dot ray.direction
  let c := oc.dot oc - radius * radius
  let discriminant := b * b - 4 * a * c
  if discriminant ≥ 0 then
    let sqrt_disc := sqrt discriminant
    let t1 := Dbl.div (-b - sqrt_disc) (2 * a)
    let t2 := Dbl.div (-b + sqrt_disc) (2 * a)
    [⟨t1, crossingNormal t1 (fun t => ((ray.at_ t).sub center).normalize sqrt), -1⟩,
     ⟨t2, crossingNormal t2 (fun t => ((ray.at_ t).sub center).normalize sqrt), -1⟩]
  else []

/-- The for loop of the POLYHEDRON branch of getAllIntersections; none is the
break with hit = false. -/
def polyhedronIntersectionsLoop (ray : Ray K) : List (Plane K) → Slab K → Option (Slab K)
  | [], s => some s
  | plane :: rest, s =>
    let n := plane.normal
    let denom := n.dot ray.direction
    let dist := -plane.distance ray.origin / denom
    if |denom| < 1 / 10000000000 then
      if plane.distance ray.origin > 0 then none
      else polyhedronIntersectionsLoop ray rest s
    else
      let s :=
        if denom < 0 then
          if Dbl.fin dist > s.tNear then { s with tNear := .fin dist, nearNormal := n } else s
        else
          if Dbl.fin dist < s.tFar then { s with tFar := .fin dist, farNormal := n } else s
      polyhedronIntersectionsLoop ray rest s

/-- The POLYHEDRON branch of getAllIntersections. -/
def polyhedronIntersections (sqrt : K → K) (ray : Ray K) (faces : List (Plane K)) :
    List (CSGIntersection K) :=
  match polyhedronIntersectionsLoop ray faces ⟨.ninf, .inf, ⟨0, 0, 0⟩, ⟨0, 0, 0⟩⟩ with
  | none => []
  | some s =>
    if s.tNear ≤ s.tFar then
      [⟨s.tNear, s.nearNormal.normalize sqrt, -1⟩, ⟨s.tFar, s.farNormal.normalize sqrt, -1⟩]
    else []

/-- The QUADRIC branch of getAllIntersections.  The divisor 2.0 * aq is zero
where aq is; t1 and t2 are then each an infinity or NaN.  At an infinite t a
component of ray.at(t) is infinite, or NaN where the direction component is 0,
and a row of the gradient is NaN: by a zero coefficient times an infinity, or by
infinities of opposite sign, one of which occurs since the terms of aq cancel. -/
def quadricIntersections (sqrt : K → K) (ray : Ray K) (obj : Object K) :
    List (CSGIntersection K) :=
  let o := ray.origin
  let d := ray.direction
  let aq := quadricA d obj
  let bq := quadricB o d obj
  let cq := quadricC o obj
  let discriminant := bq * bq - 4 * aq * cq
  if discriminant ≥ 0 then
    let sqrt_disc := sqrt discriminant
    let t1 := Dbl.div (-bq - sqrt_disc) (2 * aq)
    let t2 := Dbl.div (-bq + sqrt_disc) (2 * aq)
    let getNormal := fun (t : Dbl K) =>
      crossingNormal t (fun t => (quadricGradient obj (ray.at_ t)).normalize sqrt)
    [⟨t1, getNormal t1, -1⟩, ⟨t2, getNormal t2, -1⟩]
  else []

/-- The body of the inner loop of the CSG sweep, updating (inPositive,
inNegative) for child i.  An index beyond csgOperations (undefined behaviour in
C++) sets neither flag. -/
def csgFlagsStep (ops : List CSGOperation) (inside : List Bool) (flags : Bool × Bool)
    (i : Nat) : Bool × Bool :=
  if inside.getD i false then
    match ops[i]? with
    | some .CSG_UNION => (true, flags.2)
    | some .CSG_DIFFERENCE => (flags.1, true)
    | none => flags
  else flags

/-- The inner loop of the CSG sweep over i = 0 .. csgChildren.size() - 1,
computing (inPositive, inNegative). -/
def csgFlags (n : Nat) (ops : List CSGOperation) (inside : List Bool) : Bool × Bool :=
  (List.range n).foldl (csgFlagsStep ops inside) (false, false)

/-- The toggle of one sweep step: inside[hit.childIdx] = !inside[hit.childIdx]. -/
def csgToggle (inside : List Bool) (hit : CSGIntersection K) : List Bool :=
  inside.set hit.childIdx.toNat (!inside.getD hit.childIdx.toNat false)

/-- The composite membership of one sweep step: inPositive && !inNegative. -/
def csgIsInside (n : Nat) (ops : List CSGOperation) (inside : List Bool) : Bool :=
  (csgFlags n ops inside).1 && !(csgFlags n ops inside).2

/-- The sweep loop of the CSG branch over the sorted child crossings, carrying
the vector inside and the flag wasInside; returns the crossings pushed. -/
def csgSweep (n : Nat) (ops : List CSGOperation) :
    List (CSGIntersection K) → List Bool → Bool → List (CSGIntersection K)
  | [], _, _ => []
  | hit :: rest, inside, wasInside =>
    let inside := csgToggle inside hit
    let isInside := csgIsInside n ops inside
    if isInside != wasInside then
      let newHit : CSGIntersection K :=
        if ops[hit.childIdx.toNat]? = some .CSG_DIFFERENCE then
          { hit with normal := hit.normal.scale (-1) }
        else hit
      newHit :: csgSweep n ops rest inside isInside
    else csgSweep n ops rest inside wasInside

mutual
/-- The function getAllIntersections: the crossings appended to hits. -/
def getAllIntersections (sqrt : K → K)
    (sort : List (CSGIntersection K) → List (CSGIntersection K)) (ray : Ray K) :
    Object K → List (CSGIntersection K)
  | .mk type pigmentIdx finishIdx center radius faces A B C D E F G H I J
      csgChildren csgOperations =>
    match type with
    | .SPHERE => sphereIntersections sqrt ray center radius
    | .POLYHEDRON => polyhedronIntersections sqrt ray faces
    | .QUADRIC =>
      quadricIntersections sqrt ray
        (.mk type pigmentIdx finishIdx center radius faces A B C D E F G H I J
          csgChildren csgOperations)
    | .CSG =>
      let allChildHits := getAllChildHits sqrt sort ray csgChildren 0
      let allChildHits := sort allChildHits
      csgSweep csgChildren.length csgOperations allChildHits
        (List.replicate csgChildren.length false) false
/-- The first loop of the CSG branch, from child index i on: the crossings of
each child, tagged with the index of the child. -/
def getAllChildHits (sqrt : K → K)
    (sort : List (CSGIntersection K) → List (CSGIntersection K)) (ray : Ray K) :
    List (Object K) → Nat → List (CSGIntersection K)
  | [], _ => []
  | child :: rest, i =>
    (getAllIntersections sqrt sort ray child).map (fun h => { h with childIdx := (i : Int) })
      ++ getAllChildHits sqrt sort ray rest (i + 1)
end

/-- The loop variables of intersectCSG: closestT, found and the record hit. -/
structure CSGScan (K : Type) where
  closestT : Dbl K
  found : Bool
  hit : HitInfo K

/-- The for loop of intersectCSG.  A crossing that passes the test
h.t > 0.001 && h.t < closestT has a finite t. -/
def intersectCSGLoop (ray : Ray K) : List (CSGIntersection K) → CSGScan K → CSGScan K
  | [], s => s
  | h :: rest, s =>
    match h.t with
    | .fin t =>
      if t > 1 / 1000 ∧ Dbl.fin t < s.closestT then
        intersectCSGLoop ray rest
          ⟨.fin t, true,
            { s.hit with t := .fin t, normal := h.normal, point := ray.at_ t, hit := true }⟩
      else intersectCSGLoop ray rest s
    | _ => intersectCSGLoop ray rest s

/-- The function intersectCSG. -/
def intersectCSG (sqrt : K → K)
    (sort : List (CSGIntersection K) → List (CSGIntersection K))
    (ray : Ray K) (csg : Object K) (hit : HitInfo K) : Bool × HitInfo K :=
  let hits := getAllIntersections sqrt sort ray csg
  let s := intersectCSGLoop ray hits ⟨.inf, false, hit⟩
  (s.found, s.hit)

/-- The for loop of findClosestHit from index i on. -/
def findClosestHitLoop (sqrt : K → K)
    (sort : List (CSGIntersection K) → List (CSGIntersection K)) (ray : Ray K) :
    List (Object K) → Nat → HitInfo K → HitInfo K
  | [], _, closestHit => closestHit
  | obj :: rest, i, closestHit =>
    let hit : HitInfo K := HitInfo.ctor
    let r :=
      match obj.type with
      | .SPHERE => intersectSphere sqrt ray obj hit
      | .POLYHEDRON => intersectPolyhedron sqrt ray obj hit
      | .QUADRIC => intersectQuadric sqrt ray obj hit
      | .CSG => intersectCSG sqrt sort ray obj hit
    let intersected := r.1
    let hit := r.2
    if intersected ∧ hit.t < closestHit.t then
      findClosestHitLoop sqrt sort ray rest (i + 1) { hit with objectIdx := (i : Int) }
    else findClosestHitLoop sqrt sort ray rest (i + 1) closestHit

/-- The function findClosestHit. -/
def findClosestHit (sqrt : K → K)
    (sort : List (CSGIntersection K) → List (CSGIntersection K))
    (ray : Ray K) (scene : Scene K) : HitInfo K :=
  findClosestHitLoop sqrt sort ray scene.objects 0 { (HitInfo.ctor : HitInfo K) with t := .inf }

/-- The discriminant b * b - 4 * a * c that intersectSphere and the SPHERE
branch of getAllIntersections compute. -/
def sphereDiscriminant (ray : Ray K) (center : Vec3 K) (radius : K) : K :=
  let oc := ray.origin.sub center
  let a := ray.direction.dot ray.direction
  let b := 2 * oc.dot ray.direction
  let c := oc.dot oc - radius * radius
  b * b - 4 * a * c

/-- A sphere object with the given centre and radius, the other fields as
Object() leaves them. -/
def sphereObject (center : Vec3 K) (radius : K) : Object K :=
  .mk .SPHERE 0 0 center radius [] 0 0 0 0 0 0 0 0 0 0 [] []

/-- A quadric object with the given ten coefficients. -/
def quadricObject (A B C D E F G H I J : K) : Object K :=
  .mk .QUADRIC 0 0 ⟨0, 0, 0⟩ 0 [] A B C D E F G H I J [] []

/-- A CSG object with the given children and operations. -/
def csgObject (children : List (Object K)) (ops : List CSGOperation) : Object K :=
  .mk .CSG 0 0 ⟨0, 0, 0⟩ 0 [] 0 0 0 0 0 0 0 0 0 0 children ops

/-- A scene holding the given objects, with the camera of Scene(). -/
def sceneOf (objects : List (Object K)) : Scene K :=
  ⟨⟨0, 0, 0⟩, ⟨0, 0, -1⟩, ⟨0, 1, 0⟩, 40, [], [], [], objects⟩

/-- What the embedding assumes of the library function sqrt: on a non-negative
argument it returns the non-negative square root. -/
def IsSqrt (sqrt : K → K) : Prop :=
  ∀ x, 0 ≤ x → 0 ≤ sqrt x ∧ sqrt x * sqrt x = x

/-- A sort that meets IsStdSort: insertion sort under t, which leaves crossings
of equal t in the order they were pushed (what the insertion sort run by
std::sort on short ranges does). -/
def insertionSortByT (l : List (CSGIntersection K)) : List (CSGIntersection K) :=
  l.insertionSort (fun h1 h2 => h1.t ≤ h2.t)

/-- The operator< of CSGIntersection as the doubles compare: t < other.t, false
when either t is NaN. -/
def CSGIntersection.less (h1 h2 : CSGIntersection K) : Prop :=
  h1.t ≠ Dbl.nan ∧ h2.t ≠ Dbl.nan ∧ h1.t < h2.t

instance CSGIntersection.decidableLess (h1 h2 : CSGIntersection K) :
    Decidable (CSGIntersection.less h1 h2) := by
  unfold CSGIntersection.less
  exact inferInstance

/-- Insertion sort under operator< with NaN keys compared as the doubles
compare: a crossing moves ahead of the crossings that are greater than it.  On
keys without NaN it is insertionSortByT; keys that operator< does not tell apart
stay in the order they were pushed. -/
def insertionSortByLess (l : List (CSGIntersection K)) : List (CSGIntersection K) :=
  l.insertionSort (fun h1 h2 => ¬ CSGIntersection.less h2 h1)

/-- The quadric written in the comment of intersectQuadric:
Ax^2 + By^2 + Cz^2 + Dxy + Exz + Fyz + Gx + Hy + Iz + J. -/
def quadricImplicit (quad : Object K) (p : Vec3 K) : K :=
  quad.A * p.x ^ 2 + quad.B * p.y ^ 2 + quad.C * p.z ^ 2 + quad.D * p.x * p.y +
    quad.E * p.x * p.z + quad.F * p.y * p.z + quad.G * p.x + quad.H * p.y +
    quad.I * p.z + quad.J

/-- The dispatch on the object type inside the loop of findClosestHit. -/
def solveObject (sqrt : K → K)
    (sort : List (CSGIntersection K) → List (CSGIntersection K)) (ray : Ray K)
    (obj : Object K) (hit : HitInfo K) : Bool × HitInfo K :=
  match obj.type with
  | .SPHERE => intersectSphere sqrt ray obj hit
  | .POLYHEDRON => intersectPolyhedron sqrt ray obj hit
  | .QUADRIC => intersectQuadric sqrt ray obj hit
  | .CSG => intersectCSG sqrt sort ray obj hit

/-- A polyhedron object with the given faces. -/
def polyhedronObject (faces : List (Plane K)) : Object K :=
  .mk .POLYHEDRON 0 0 ⟨0, 0, 0⟩ 0 faces 0 0 0 0 0 0 0 0 0 0 [] []

/-- What the scan of intersectCSG leaves in r when run over hits from state s:
either no crossing is finite, above 0.001 and below closestT, and the state is
kept; or the state ends on the first crossing of the least such t. -/
def CSGScanResult (ray : Ray K) (hits : List (CSGIntersection K)) (s r : CSGScan K) : Prop :=
  (r = s ∧ ∀ h ∈ hits, ∀ x : K, h.t = Dbl.fin x → 1 / 1000 < x → s.closestT ≤ Dbl.fin x) ∨
  ∃ (l1 : List (CSGIntersection K)) (h : CSGIntersection K) (l2 : List (CSGIntersection K))
    (t : K), hits = l1 ++ h :: l2 ∧ h.t = Dbl.fin t ∧ 1 / 1000 < t ∧
    Dbl.fin t < s.closestT ∧
    (∀ h' ∈ hits, ∀ x : K, h'.t = Dbl.fin x → 1 / 1000 < x → t ≤ x) ∧
    (∀ h' ∈ l1, h'.t ≠ Dbl.fin t) ∧
    r = ⟨Dbl.fin t, true,
      { s.hit with t := Dbl.fin t, normal := h.normal, point := ray.at_ t, hit := true }⟩

/-- What the loop of findClosestHit leaves in r when run over objs from index k
with closestHit = cur: either no object is hit nearer than cur, and cur is
kept; or r is the record of the first object attaining the least hit distance. -/
def ClosestResult (sqrt : K → K)
    (sort : List (CSGIntersection K) → List (CSGIntersection K)) (ray : Ray K)
    (objs : List (Object K)) (k : Nat) (cur r : HitInfo K) : Prop :=
  (r = cur ∧ ∀ obj ∈ objs, (solveObject sqrt sort ray obj HitInfo.ctor).1 = true →
      cur.t ≤ (solveObject sqrt sort ray obj HitInfo.ctor).2.t) ∨
  ∃ (i : Nat) (obj : Object K), objs[i]? = some obj ∧
    (solveObject sqrt sort ray obj HitInfo.ctor).1 = true ∧
    (solveObject sqrt sort ray obj HitInfo.ctor).2.t < cur.t ∧
    r = { (solveObject sqrt sort ray obj HitInfo.ctor).2 with objectIdx := ((k + i : Nat) : Int) } ∧
    (∀ (j : Nat) (obj' : Object K), objs[j]? = some obj' →
      (solveObject sqrt sort ray obj' HitInfo.ctor).1 = true →
      (solveObject sqrt sort ray obj HitInfo.ctor).2.t ≤
        (solveObject sqrt sort ray obj' HitInfo.ctor).2.t) ∧
    (∀ (j : Nat) (obj' : Object K), j < i → objs[j]? = some obj' →
      (solveObject sqrt sort ray obj' HitInfo.ctor).1 = true →
      (solveObject sqrt sort ray obj HitInfo.ctor).2.t <
        (solveObject sqrt sort ray obj' HitInfo.ctor).2.t)

/-! ## pigment.h -/

/-- The conversion (int)x of a double: truncation toward zero.  Values outside
the range of int (undefined behaviour in C++) are kept as they are. -/
def castInt [FloorRing K] (x : K) : Int :=
  if 0 ≤ x then ⌊x⌋ else ⌈x⌉

/-- The function getPigmentColor; the operator % of C++ is Int.tmod. -/
def getPigmentColor [FloorRing K] (pigment : Pigment K) (point : Vec3 K) : Vec3 K :=
  match pigment.type with
  | .SOLID => pigment.color1
  | .CHECKER =>
    let xi : Int := ⌊point.x / pigment.scale⌋
    let yi : Int := ⌊point.y / pigment.scale⌋
    let zi : Int := ⌊point.z / pigment.scale⌋
    if (xi + yi + zi).tmod 2 = 0 then pigment.color1 else pigment.color2
  | .TEXMAP =>
    let px := point.x
    let py := point.y
    let pz := point.z
    let pw : K := 1
    let s := pigment.p0 0 * px + pigment.p0 1 * py + pigment.p0 2 * pz + pigment.p0 3 * pw
    let r := pigment.p1 0 * px + pigment.p1 1 * py + pigment.p1 2 * pz + pigment.p1 3 * pw
    let s := s - (⌊s⌋ : K)
    let r := r - (⌊r⌋ : K)
    if pigment.textureWidth > 0 ∧ pigment.textureHeight > 0 ∧
        pigment.textureData.length > 0 then
      let u := (castInt (s * (pigment.textureWidth : K))).tmod pigment.textureWidth
      let v := (castInt (r * (pigment.textureHeight : K))).tmod pigment.textureHeight
      let u := if u < 0 then u + pigment.textureWidth else u
      let v := if v < 0 then v + pigment.textureHeight else v
      let idx := v * pigment.textureWidth + u
      if idx ≥ 0 ∧ idx < (pigment.textureData.length : Int) then
        pigment.textureData.getD idx.toNat pigment.color1
      else pigment.color1
    else pigment.color1

/-! ## shading.h -/

/-- The constant MAX_DEPTH. -/
def MAX_DEPTH : Int := 5

/-- The execution state threaded through the shading code.  randCalls counts the
calls of rand() made so far, so that the next call returns entry randCalls of
the random stream.  traceDepths is a ghost field, not in the source: the depth
argument of every traceRay call made so far, in order. -/
structure Exec where
  randCalls : Nat
  traceDepths : List Int

/-- The expression ((double)rand() / RAND_MAX) * 2.0 - 1.0, where rand n is the
value of (double)rand() at call number n. -/
def randSigned (rand : Nat → K) (RAND_MAX : K) (st : Exec) : K × Exec :=
  (rand st.randCalls / RAND_MAX * 2 - 1, { st with randCalls := st.randCalls + 1 })

/-- Three draws r1, r2, r3 in a row, as Vec3(r1, r2, r3). -/
def randVec3 (rand : Nat → K) (RAND_MAX : K) (st : Exec) : Vec3 K × Exec :=
  let r1 := randSigned rand RAND_MAX st
  let r2 := randSigned rand RAND_MAX r1.2
  let r3 := randSigned rand RAND_MAX r2.2
  (⟨r1.1, r2.1, r3.1⟩, r3.2)

/-- The read v[i] of a std::vector at an int index; none stands for an index out
of range, which is undefined behaviour in C++. -/
def vectorAt {α : Type} (v : List α) (i : Int) : Option α :=
  if 0 ≤ i then v[i.toNat]? else none

/-- The function reflect. -/
def reflect (sqrt : K → K) (ray : Ray K) (point normal : Vec3 K) : Ray K :=
  let reflectDir := ray.direction.sub ((normal.scale 2).scale (ray.direction.dot normal))
  Ray.ctor sqrt (point.add (normal.scale (1 / 1000))) reflectDir

/-- The tail of refract, from eta on, once cosi, etai, etat and n are settled. -/
def refractWith (sqrt : K → K) (I : Vec3 K) (cosi etai etat : K) (n : Vec3 K)
    (refracted : Vec3 K) : Bool × Vec3 K :=
  let eta := etai / etat
  let k := 1 - eta * eta * (1 - cosi * cosi)
  if k < 0 then (false, refracted)
  else (true, ((I.scale eta).add (n.scale (eta * cosi - sqrt k))).normalize sqrt)

/-- The function refract. -/
def refract (sqrt : K → K) (ray : Ray K) (normal : Vec3 K) (ior : K) (refracted : Vec3 K) :
    Bool × Vec3 K :=
  let I := ray.direction.normalize sqrt
  let N := normal.normalize sqrt
  let cosi := I.dot N
  if cosi < 0 then refractWith sqrt I (-cosi) 1 ior N refracted
  else refractWith sqrt I cosi ior 1 (N.scale (-1)) refracted

/-- The body of the loop of shade over the lights from index 1 on. -/
def shadeLight [FloorRing K] (sqrt : K → K)
    (sort : List (CSGIntersection K) → List (CSGIntersection K)) (pow : K → K → K)
    (rand : Nat → K) (RAND_MAX : K) (hit : HitInfo K) (scene : Scene K) (ray : Ray K)
    (baseColor : Vec3 K) (finish : Finish K) (light : Light K) (color : Vec3 K) (st : Exec) :
    Vec3 K × Exec :=
  let lightDir := (light.position.sub hit.point).normalize sqrt
  let lightDist := (light.position.sub hit.point).length sqrt
  let bias : K := 1 / 1000
  let cosAngle := |hit.normal.dot lightDir|
  let bias := if cosAngle < 1 / 10 then 1 / 100 else bias
  let shadowOrigin := hit.point.add (hit.normal.scale bias)
  let lightRadius : K := 1 / 2
  let offset := randVec3 rand RAND_MAX st
  let st := offset.2
  let samplePos := light.position.add (offset.1.scale lightRadius)
  let shadowLightDir := (samplePos.sub shadowOrigin).normalize sqrt
  let shadowLightDist := (samplePos.sub shadowOrigin).length sqrt
  let shadowRay := Ray.ctor sqrt shadowOrigin shadowLightDir
  let shadowHit := findClosestHit sqrt sort shadowRay scene
  let inShadow : Prop :=
    shadowHit.hit = true ∧ shadowHit.t < Dbl.fin (shadowLightDist - 1 / 10000)
  if ¬ inShadow then
    let denominator := light.attenuation.x + light.attenuation.y * lightDist +
      light.attenuation.z * lightDist * lightDist
    let attenuation := 1 / denominator
    let diff := max 0 (hit.normal.dot lightDir)
    let diffuse := (((baseColor.mul light.color).scale finish.kd).scale diff).scale attenuation
    let viewDir := (ray.origin.sub hit.point).normalize sqrt
    let halfVec := (lightDir.add viewDir).normalize sqrt
    let spec := pow (max 0 (hit.normal.dot halfVec)) finish.alpha
    let specular := ((light.color.scale finish.ks).scale spec).scale attenuation
    ((color.add diffuse).add specular, st)
  else (color, st)

/-- The loop of shade over the lights from index 1 on. -/
def shadeLights [FloorRing K] (sqrt : K → K)
    (sort : List (CSGIntersection K) → List (CSGIntersection K)) (pow : K → K → K)
    (rand : Nat → K) (RAND_MAX : K) (hit : HitInfo K) (scene : Scene K) (ray : Ray K)
    (baseColor : Vec3 K) (finish : Finish K) :
    List (Light K) → Vec3 K → Exec → Vec3 K × Exec
  | [], color, st => (color, st)
  | light :: rest, color, st =>
    let r := shadeLight sqrt sort pow rand RAND_MAX hit scene ray baseColor finish light color st
    shadeLights sqrt sort pow rand RAND_MAX hit scene ray baseColor finish rest r.1 r.2

/-- The part of shade before the reflection: the three table reads, the pigment
colour, the ambient term and the loop over the lights.  Returns the finish, the
colour so far and the state; none when a read is out of range. -/
def shadeLocal [FloorRing K] (sqrt : K → K)
    (sort : List (CSGIntersection K) → List (CSGIntersection K)) (pow : K → K → K)
    (rand : Nat → K) (RAND_MAX : K) (hit : HitInfo K) (scene : Scene K) (ray : Ray K)
    (st : Exec) : Option (Finish K × Vec3 K × Exec) :=
  match vectorAt scene.objects hit.objectIdx with
  | none => none
  | some obj =>
    match vectorAt scene.pigments obj.pigmentIdx with
    | none => none
    | some pigment =>
      match vectorAt scene.finishes obj.finishIdx with
      | none => none
      | some finish =>
        let baseColor := getPigmentColor pigment hit.point
        match scene.lights[0]? with
        | none => none
        | some light0 =>
          let color := (baseColor.mul light0.color).scale finish.ka
          let r := shadeLights sqrt sort pow rand RAND_MAX hit scene ray baseColor finish
            (scene.lights.drop 1) color st
          some (finish, r.1, r.2)

/-- The reflected ray of shade, with its glossy perturbation. -/
def reflectedRay (sqrt : K → K) (rand : Nat → K) (RAND_MAX : K) (hit : HitInfo K)
    (ray : Ray K) (finish : Finish K) (st : Exec) : Ray K × Exec :=
  let reflectedRay := reflect sqrt ray hit.point hit.normal
  let roughness := if finish.alpha > 1 / 1000 then 1 / finish.alpha else 1
  let jitter := randVec3 rand RAND_MAX st
  let perturbedDir :=
    (reflectedRay.direction.add (jitter.1.scale roughness)).normalize sqrt
  let perturbedDir :=
    if perturbedDir.dot hit.normal < 0 then reflectedRay.direction else perturbedDir
  ({ reflectedRay with direction := perturbedDir }, jitter.2)

/-- The refracted ray of shade, with its glossy perturbation; none when refract
returns false (total internal reflection), in which case rand() is not called. -/
def refractedRay (sqrt : K → K) (rand : Nat → K) (RAND_MAX : K) (hit : HitInfo K)
    (ray : Ray K) (finish : Finish K) (st : Exec) : Option (Ray K × Exec) :=
  let r := refract sqrt ray hit.normal finish.ior ⟨0, 0, 0⟩
  if r.1 = true then
    let refractedDir := r.2
    let offset := refractedDir.scale (1 / 1000)
    let refractedRay := Ray.ctor sqrt (hit.point.add offset) refractedDir
    let roughness := if finish.alpha > 1 / 1000 then 5 / finish.alpha else 1
    let jitter := randVec3 rand RAND_MAX st
    some ({ refractedRay with
      direction := (refractedRay.direction.add (jitter.1.scale roughness)).normalize sqrt },
      jitter.2)
  else none

mutual
/-- The function traceRay.  The result is none when shade reads a table out of
range.  The first line records the call in the ghost field traceDepths. -/
def traceRay [FloorRing K] (sqrt : K → K)
    (sort : List (CSGIntersection K) → List (CSGIntersection K)) (pow : K → K → K)
    (rand : Nat → K) (RAND_MAX : K) (ray : Ray K) (scene : Scene K) (depth : Int)
    (st : Exec) : Option (Vec3 K × Exec) :=
  let st : Exec := { st with traceDepths := st.traceDepths ++ [depth] }
  if depth > MAX_DEPTH then some (⟨0, 0, 0⟩, st)
  else
    let hit := findClosestHit sqrt sort ray scene
    if hit.hit = true then shade sqrt sort pow rand RAND_MAX hit scene ray depth st
    else some (⟨0, 0, 0⟩, st)
termination_by 2 * (MAX_DEPTH + 1 - depth).toNat + 1
decreasing_by omega
/-- The function shade.  The result is none when a table is read out of range. -/
def shade [FloorRing K] (sqrt : K → K)
    (sort : List (CSGIntersection K) → List (CSGIntersection K)) (pow : K → K → K)
    (rand : Nat → K) (RAND_MAX : K) (hit : HitInfo K) (scene : Scene K) (ray : Ray K)
    (depth : Int) (st : Exec) : Option (Vec3 K × Exec) :=
  match shadeLocal sqrt sort pow rand RAND_MAX hit scene ray st with
  | none => none
  | some (finish, color, st) =>
    let afterReflection : Option (Vec3 K × Exec) :=
      if _h : finish.kr > 0 ∧ depth < MAX_DEPTH then
        let rr := reflectedRay sqrt rand RAND_MAX hit ray finish st
        match traceRay sqrt sort pow rand RAND_MAX rr.1 scene (depth + 1) rr.2 with
        | none => none
        | some (reflectedColor, st) => some (color.add (reflectedColor.scale finish.kr), st)
      else some (color, st)
    match afterReflection with
    | none => none
    | some (color, st) =>
      let afterRefraction : Option (Vec3 K × Exec) :=
        if _h : finish.kt > 0 ∧ depth < MAX_DEPTH then
          match refractedRay sqrt rand RAND_MAX hit ray finish st with
          | none => some (color, st)
          | some (rr, st) =>
            match traceRay sqrt sort pow rand RAND_MAX rr scene (depth + 1) st with
            | none => none
            | some (refractedColor, st) =>
              some (color.add (refractedColor.scale finish.kt), st)
        else some (color, st)
      match afterRefraction with
      | none => none
      | some (color, st) => some (color.clamp 0 1, st)
termination_by 2 * (MAX_DEPTH + 1 - depth).toNat
decreasing_by
  all_goals simp only [MAX_DEPTH] at *
  all_goals omega
end

/-! ## main.cpp: the pixel loop of renderScene -/

/-- The global SAMPLES, which is never assigned after its initialization. -/
def SAMPLES : Int := 16

/-- The conversion (unsigned char)x of a double: truncation toward zero.  For a
truncated value outside 0..255 (undefined behaviour in C++) the model keeps the
truncated value. -/
def castUChar [FloorRing K] (x : K) : Int :=
  castInt x

/-- The supersampling loop of renderScene with n samples still to take.  The ray
generation of one sample (jitter, camera and depth of field, which only draw
from rand() and build a Ray) is the parameter cameraRay. -/
def sampleLoop [FloorRing K] (sqrt : K → K)
    (sort : List (CSGIntersection K) → List (CSGIntersection K)) (pow : K → K → K)
    (rand : Nat → K) (RAND_MAX : K) (cameraRay : Exec → Ray K × Exec) (scene : Scene K) :
    Nat → Vec3 K → Exec → Option (Vec3 K × Exec)
  | 0, pixelColor, st => some (pixelColor, st)
  | n + 1, pixelColor, st =>
    let ray := cameraRay st
    match traceRay sqrt sort pow rand RAND_MAX ray.1 scene 0 ray.2 with
    | none => none
    | some (c, st) =>
      sampleLoop sqrt sort pow rand RAND_MAX cameraRay scene n (pixelColor.add c) st

/-- The end of the pixel body of renderScene: the average of the samples and the
three bytes stored in the frame buffer. -/
def storePixel [FloorRing K] (pixelColor : Vec3 K) : Int × Int × Int :=
  let pixelColor := pixelColor.divide (SAMPLES : K)
  (castUChar (pixelColor.x * 255), castUChar (pixelColor.y * 255),
    castUChar (pixelColor.z * 255))

/-- The body of the pixel loop of renderScene: the three bytes stored for one
pixel, and the state after it. -/
def renderPixel [FloorRing K] (sqrt : K → K)
    (sort : List (CSGIntersection K) → List (CSGIntersection K)) (pow : K → K → K)
    (rand : Nat → K) (RAND_MAX : K) (cameraRay : Exec → Ray K × Exec) (scene : Scene K)
    (st : Exec) : Option ((Int × Int × Int) × Exec) :=
  match sampleLoop sqrt sort pow rand RAND_MAX cameraRay scene SAMPLES.toNat ⟨0, 0, 0⟩ st with
  | none => none
  | some (pixelColor, st) => some (storePixel pixelColor, st)

/-! ## Specification-side definitions for the shading claims -/

/-- The body of shade with the recursive call traceRay(., scene, depth + 1)
replaced by the parameter trace; shade_eq_shadeWith relates the two. -/
def shadeWith [FloorRing K] (sqrt : K → K)
    (sort : List (CSGIntersection K) → List (CSGIntersection K)) (pow : K → K → K)
    (rand : Nat → K) (RAND_MAX : K) (hit : HitInfo K) (scene : Scene K) (ray : Ray K)
    (depth : Int) (st : Exec) (trace : Ray K → Exec → Option (Vec3 K × Exec)) :
    Option (Vec3 K × Exec) :=
  match shadeLocal sqrt sort pow rand RAND_MAX hit scene ray st with
  | none => none
  | some (finish, color, st) =>
    let afterReflection : Option (Vec3 K × Exec) :=
      if finish.kr > 0 ∧ depth < MAX_DEPTH then
        let rr := reflectedRay sqrt rand RAND_MAX hit ray finish st
        match trace rr.1 rr.2 with
        | none => none
        | some (reflectedColor, st) => some (color.add (reflectedColor.scale finish.kr), st)
      else some (color, st)
    match afterReflection with
    | none => none
    | some (color, st) =>
      let afterRefraction : Option (Vec3 K × Exec) :=
        if finish.kt > 0 ∧ depth < MAX_DEPTH then
          match refractedRay sqrt rand RAND_MAX hit ray finish st with
          | none => some (color, st)
          | some (rr, st) =>
            match trace rr st with
            | none => none
            | some (refractedColor, st) =>
              some (color.add (refractedColor.scale finish.kt), st)
        else some (color, st)
      match afterRefraction with
      | none => none
      | some (color, st) => some (color.clamp 0 1, st)

/-- The scene invariants under which no table is read out of range: at least one
light, and the pigment and finish index of every top-level object in range. -/
def SceneOk (scene : Scene K) : Prop :=
  scene.lights ≠ [] ∧
  ∀ obj ∈ scene.objects,
    (0 ≤ obj.pigmentIdx ∧ obj.pigmentIdx < (scene.pigments.length : Int)) ∧
    (0 ≤ obj.finishIdx ∧ obj.finishIdx < (scene.finishes.length : Int))

/-- Every channel of the colour lies in [0, 1]. -/
def Vec3.InUnit (c : Vec3 K) : Prop :=
  (0 ≤ c.x ∧ c.x ≤ 1) ∧ (0 ≤ c.y ∧ c.y ≤ 1) ∧ (0 ≤ c.z ∧ c.z ≤ 1)

/-- The rounding round(x) of the C library for x >= 0: to the nearest integer,
halves upward. -/
def roundNonneg [FloorRing K] (x : K) : Int :=
  ⌊x + 1 / 2⌋

/-- The scene of one unit sphere at (0,0,-5) with a solid pigment and a finish
that only has an ambient coefficient, under one light of colour (1,1,1). -/
def ambientScene (color : Vec3 K) (ka : K) : Scene K :=
  ⟨⟨0, 0, 0⟩, ⟨0, 0, -1⟩, ⟨0, 1, 0⟩, 40,
    [⟨⟨0, 0, 0⟩, ⟨1, 1, 1⟩, ⟨1, 0, 0⟩⟩],
    [{ (Pigment.ctor : Pigment K) with color1 := color }],
    [{ (Finish.ctor : Finish K) with ka := ka }],
    [sphereObject ⟨0, 0, -5⟩ 1]⟩

/-- A camera that sends every sample down the axis from the origin, drawing
nothing from rand(). -/
def axisCamera (st : Exec) : Ray K × Exec :=
  (⟨⟨0, 0, 0⟩, ⟨0, 0, -1⟩⟩, st)

/-! ## loader.h -/

/-- The default constructor Scene(). -/
def Scene.ctor : Scene K :=
  ⟨⟨0, 0, 0⟩, ⟨0, 0, -1⟩, ⟨0, 1, 0⟩, 40, [], [], [], []⟩

/-- A texture file that could be opened, as loadPPM reads it: the magic word, the
three header numbers and the (r, g, b) triples of the pixels in file order. -/
structure PPMFile where
  magic : String
  textureWidth : Int
  textureHeight : Int
  maxval : Int
  pixels : List (Int × Int × Int)

/-- The function loadPPM.  The file system is the parameter openFile: none stands
for a file that cannot be opened.  The two exits with false come before the
first write to pigment.  A pixel missing from the file is read as (0, 0, 0), and
a negative textureWidth * textureHeight as the size 0. -/
def loadPPM (openFile : String → Option PPMFile) (filename : String) (pigment : Pigment K) :
    Bool × Pigment K :=
  match openFile filename with
  | none => (false, pigment)
  | some file =>
    if file.magic ≠ "P3" ∧ file.magic ≠ "P6" then (false, pigment)
    else
      let n := (file.textureWidth * file.textureHeight).toNat
      let textureData : List (Vec3 K) := (List.range n).map (fun i =>
        let rgb := file.pixels.getD i (0, 0, 0)
        ⟨(rgb.1 : K) / (file.maxval : K), (rgb.2.1 : K) / (file.maxval : K),
          (rgb.2.2 : K) / (file.maxval : K)⟩)
      let pigment := { pigment with textureWidth := file.textureWidth }
      let pigment := { pigment with textureHeight := file.textureHeight }
      (true, { pigment with textureData := textureData })

/-- One whitespace-separated token of a scene file, already converted: an integer
literal, another decimal literal, or any other word. -/
inductive Token (K : Type) where
  | int (n : Int)
  | real (x : K)
  | word (s : String)

/-- The extraction file >> n into an int: the value and the rest of the stream.
The model follows the runs in which every extraction succeeds; none stands for
an extraction that fails. -/
def extractInt : List (Token K) → Option (Int × List (Token K))
  | .int n :: rest => some (n, rest)
  | _ => none

/-- The extraction file >> x into a double. -/
def extractDouble : List (Token K) → Option (K × List (Token K))
  | .int n :: rest => some ((n : K), rest)
  | .real x :: rest => some (x, rest)
  | _ => none

/-- The extraction file >> s into a std::string. -/
def extractString : List (Token K) → Option (String × List (Token K))
  | .word s :: rest => some (s, rest)
  | _ => none

/-- Three extractions in a row: file >> v.x >> v.y >> v.z. -/
def extractVec3 (file : List (Token K)) : Option (Vec3 K × List (Token K)) :=
  match extractDouble file with
  | none => none
  | some (x, file) =>
    match extractDouble file with
    | none => none
    | some (y, file) =>
      match extractDouble file with
      | none => none
      | some (z, file) => some (⟨x, y, z⟩, file)

/-- Four extractions in a row into an array double[4]. -/
def extractArray4 (file : List (Token K)) : Option ((Fin 4 → K) × List (Token K)) :=
  match extractDouble file with
  | none => none
  | some (a0, file) =>
    match extractDouble file with
    | none => none
    | some (a1, file) =>
      match extractDouble file with
      | none => none
      | some (a2, file) =>
        match extractDouble file with
        | none => none
        | some (a3, file) => some (![a0, a1, a2, a3], file)

namespace Object

/-- The two assignments made by file >> obj.pigmentIdx >> obj.finishIdx. -/
def setIndices : Object K → Int → Int → Object K
  | .mk ty _ _ c r fs A B C D E F G H I J ch ops, p, f =>
    .mk ty p f c r fs A B C D E F G H I J ch ops

/-- The assignment obj.type = ty. -/
def setType : Object K → ObjectType → Object K
  | .mk _ p f c r fs A B C D E F G H I J ch ops, ty =>
    .mk ty p f c r fs A B C D E F G H I J ch ops

/-- The assignments to obj.center and obj.radius. -/
def setSphere : Object K → Vec3 K → K → Object K
  | .mk ty p f _ _ fs A B C D E F G H I J ch ops, c, r =>
    .mk ty p f c r fs A B C D E F G H I J ch ops

/-- The call obj.faces.push_back(plane). -/
def pushFace : Object K → Plane K → Object K
  | .mk ty p f c r fs A B C D E F G H I J ch ops, plane =>
    .mk ty p f c r (fs ++ [plane]) A B C D E F G H I J ch ops

/-- The assignments to the ten coefficients obj.A .. obj.J. -/
def setQuadric : Object K → K → K → K → K → K → K → K → K → K → K → Object K
  | .mk ty p f c r fs _ _ _ _ _ _ _ _ _ _ ch ops, A, B, C, D, E, F, G, H, I, J =>
    .mk ty p f c r fs A B C D E F G H I J ch ops

/-- The call obj.csgOperations.push_back(op). -/
def pushOperation : Object K → CSGOperation → Object K
  | .mk ty p f c r fs A B C D E F G H I J ch ops, op =>
    .mk ty p f c r fs A B C D E F G H I J ch (ops ++ [op])

/-- The call obj.csgChildren.push_back(child). -/
def pushChild : Object K → Object K → Object K
  | .mk ty p f c r fs A B C D E F G H I J ch ops, child =>
    .mk ty p f c r fs A B C D E F G H I J (ch ++ [child]) ops

end Object

/-- The loop of parseObject over the faces of a polyhedron, with n faces still to
read. -/
def parseFaces (sqrt : K → K) :
    Nat → List (Token K) → Object K → Option (Object K × List (Token K))
  | 0, file, obj => some (obj, file)
  | n + 1, file, obj =>
    match extractDouble file with
    | none => none
    | some (a, file) =>
      match extractDouble file with
      | none => none
      | some (b, file) =>
        match extractDouble file with
        | none => none
        | some (c, file) =>
          match extractDouble file with
          | none => none
          | some (d, file) => parseFaces sqrt n file (obj.pushFace (Plane.ctor sqrt a b c d))

/-- The ten extractions of the quadric branch of parseObject. -/
def parseQuadric (file : List (Token K)) (obj : Object K) :
    Option (Object K × List (Token K)) :=
  match extractVec3 file with
  | none => none
  | some (squares, file) =>
    match extractVec3 file with
    | none => none
    | some (products, file) =>
      match extractVec3 file with
      | none => none
      | some (linear, file) =>
        match extractDouble file with
        | none => none
        | some (j, file) =>
          some (obj.setQuadric squares.x squares.y squares.z products.x products.y products.z
            linear.x linear.y linear.z j, file)

/-- The loop of parseObject over the children of a CSG node, with n children
still to read; parseChild is the recursive call parseObject(file, child). -/
def parseChildren
    (parseChild : List (Token K) → Object K → Option (Object K × List (Token K))) :
    Nat → List (Token K) → Object K → Option (Object K × List (Token K))
  | 0, file, obj => some (obj, file)
  | n + 1, file, obj =>
    match extractString file with
    | none => none
    | some (opStr, file) =>
      let obj :=
        if opStr = "+" then obj.pushOperation .CSG_UNION
        else if opStr = "-" then obj.pushOperation .CSG_DIFFERENCE
        else obj
      match parseChild file Object.ctor with
      | none => none
      | some (child, file) => parseChildren parseChild n file (obj.pushChild child)

/-- The function parseObject, which always returns true: the object read and the
rest of the stream.  The first argument bounds the nesting of CSG nodes; the
result is none when it is exhausted, which cannot happen once the bound exceeds
the number of tokens left (parseObject_fuel). -/
def parseObject (sqrt : K → K) :
    Nat → List (Token K) → Object K → Option (Object K × List (Token K))
  | 0, _, _ => none
  | fuel + 1, file, obj =>
    match extractInt file with
    | none => none
    | some (pigmentIdx, file) =>
      match extractInt file with
      | none => none
      | some (finishIdx, file) =>
        let obj := obj.setIndices pigmentIdx finishIdx
        match extractString file with
        | none => none
        | some (objType, file) =>
          if objType = "sphere" then
            match extractVec3 file with
            | none => none
            | some (center, file) =>
              match extractDouble file with
              | none => none
              | some (radius, file) =>
                some ((obj.setType .SPHERE).setSphere center radius, file)
          else if objType = "polyhedron" then
            match extractInt file with
            | none => none
            | some (numFaces, file) =>
              parseFaces sqrt numFaces.toNat file (obj.setType .POLYHEDRON)
          else if objType = "quadric" then
            parseQuadric file (obj.setType .QUADRIC)
          else if objType = "csg" then
            match extractInt file with
            | none => none
            | some (numChildren, file) =>
              parseChildren (fun file child => parseObject sqrt fuel file child)
                numChildren.toNat file (obj.setType .CSG)
          else some (obj, file)

/-- The loop of loadScene over the lights, with n lights still to read. -/
def loadLights : Nat → List (Token K) → Scene K → Option (Scene K × List (Token K))
  | 0, file, scene => some (scene, file)
  | n + 1, file, scene =>
    match extractVec3 file with
    | none => none
    | some (pos, file) =>
      match extractVec3 file with
      | none => none
      | some (color, file) =>
        match extractVec3 file with
        | none => none
        | some (atten, file) =>
          loadLights n file { scene with lights := scene.lights ++ [⟨pos, color, atten⟩] }

/-- The body of the loop of loadScene over the pigments: the pigment pushed.  A
texture that loadPPM cannot load only draws a warning. -/
def loadPigment (openFile : String → Option PPMFile) (file : List (Token K)) :
    Option (Pigment K × List (Token K)) :=
  let pig : Pigment K := Pigment.ctor
  match extractString file with
  | none => none
  | some (type, file) =>
    if type = "solid" then
      match extractVec3 file with
      | none => none
      | some (color1, file) => some ({ pig with type := .SOLID, color1 := color1 }, file)
    else if type = "checker" then
      match extractVec3 file with
      | none => none
      | some (color1, file) =>
        match extractVec3 file with
        | none => none
        | some (color2, file) =>
          match extractDouble file with
          | none => none
          | some (scale, file) =>
            let pig := { pig with type := .CHECKER, color1 := color1, color2 := color2 }
            some ({ pig with scale := scale }, file)
    else if type = "texmap" then
      match extractString file with
      | none => none
      | some (texturePath, file) =>
        match extractArray4 file with
        | none => none
        | some (p0, file) =>
          match extractArray4 file with
          | none => none
          | some (p1, file) =>
            let pig := { pig with type := .TEXMAP, texturePath := texturePath, p0 := p0, p1 := p1 }
            some ((loadPPM openFile pig.texturePath pig).2, file)
    else some (pig, file)

/-- The loop of loadScene over the pigments, with n pigments still to read. -/
def loadPigments (openFile : String → Option PPMFile) :
    Nat → List (Token K) → Scene K → Option (Scene K × List (Token K))
  | 0, file, scene => some (scene, file)
  | n + 1, file, scene =>
    match loadPigment openFile file with
    | none => none
    | some (pig, file) =>
      loadPigments openFile n file { scene with pigments := scene.pigments ++ [pig] }

/-- The loop of loadScene over the finishes, with n finishes still to read. -/
def loadFinishes : Nat → List (Token K) → Scene K → Option (Scene K × List (Token K))
  | 0, file, scene => some (scene, file)
  | n + 1, file, scene =>
    match extractVec3 file with
    | none => none
    | some (kads, file) =>
      match extractDouble file with
      | none => none
      | some (alpha, file) =>
        match extractVec3 file with
        | none => none
        | some (rti, file) =>
          let finish : Finish K := ⟨kads.x, kads.y, kads.z, alpha, rti.x, rti.y, rti.z⟩
          loadFinishes n file { scene with finishes := scene.finishes ++ [finish] }

/-- The loop of loadScene over the objects, with n objects still to read.  No
nesting of CSG nodes can be deeper than the number of tokens left. -/
def loadObjects (sqrt : K → K) :
    Nat → List (Token K) → Scene K → Option (Scene K × List (Token K))
  | 0, file, scene => some (scene, file)
  | n + 1, file, scene =>
    match parseObject sqrt (file.length + 1) file Object.ctor with
    | none => none
    | some (obj, file) =>
      loadObjects sqrt n file { scene with objects := scene.objects ++ [obj] }

/-- The function loadScene.  The argument file is the scene file as a token
stream, none when it cannot be opened.  The result is the flag returned and
the scene left in the reference parameter; none when an extraction fails. -/
def loadScene (sqrt : K → K) (openFile : String → Option PPMFile)
    (file : Option (List (Token K))) (scene : Scene K) : Option (Bool × Scene K) :=
  match file with
  | none => some (false, scene)
  | some file =>
    match extractVec3 file with
    | none => none
    | some (eye, file) =>
      match extractVec3 file with
      | none => none
      | some (lookAt, file) =>
        match extractVec3 file with
        | none => none
        | some (up, file) =>
          match extractDouble file with
          | none => none
          | some (fovy, file) =>
            let scene := { scene with eye := eye, lookAt := lookAt, up := up, fovy := fovy }
            match extractInt file with
            | none => none
            | some (numLights, file) =>
              match loadLights numLights.toNat file scene with
              | none => none
              | some (scene, file) =>
                match extractInt file with
                | none => none
                | some (numPigments, file) =>
                  match loadPigments openFile numPigments.toNat file scene with
                  | none => none
                  | some (scene, file) =>
                    match extractInt file with
                    | none => none
                    | some (numFinishes, file) =>
                      match loadFinishes numFinishes.toNat file scene with
                      | none => none
                      | some (scene, file) =>
                        match extractInt file with
                        | none => none
                        | some (numObjects, file) =>
                          match loadObjects sqrt numObjects.toNat file scene with
                          | none => none
                          | some (scene, _) => some (true, scene)

/-- A scene file of one light, one solid pigment, one finish and one unit sphere
at (0,0,-5) whose pigment index is 7. -/
def badIndexFile : List (Token K) :=
  [.int 0, .int 0, .int 0, .int 0, .int 0, .int (-1), .int 0, .int 1, .int 0, .int 40,
   .int 1, .int 0, .int 0, .int 0, .int 1, .int 1, .int 1, .int 1, .int 0, .int 0,
   .int 1, .word "solid", .int 1, .int 1, .int 1,
   .int 1, .int 1, .int 0, .int 0, .int 1, .int 0, .int 0, .int 1,
   .int 1, .int 7, .int 0, .word "sphere", .int 0, .int 0, .int (-5), .int 1]

/-! ## Specification-side definitions for the index claims -/

mutual
/-- Every CSG node of the tree has as many operations as children. -/
def Object.opsMatch : Object K → Bool
  | .mk type _ _ _ _ _ _ _ _ _ _ _ _ _ _ _ csgChildren csgOperations =>
    match type with
    | .CSG => decide (csgOperations.length = csgChildren.length) && Object.opsMatchAll csgChildren
    | _ => true
/-- Every CSG node of every tree of the list has as many operations as children. -/
def Object.opsMatchAll : List (Object K) → Bool
  | [] => true
  | child :: rest => child.opsMatch && Object.opsMatchAll rest
end

/-- The index reads of the sweep loop of getAllIntersections are in range, from
the state (inside, wasInside) on: inside[hit.childIdx] at the toggle; inside[i]
for every i below n, and csgOperations[i] where inside[i] holds; and
csgOperations[hit.childIdx] where the membership flips. -/
def csgSweepInRange (n : Nat) (ops : List CSGOperation) :
    List (CSGIntersection K) → List Bool → Bool → Prop
  | [], _, _ => True
  | hit :: rest, inside, wasInside =>
    (0 ≤ hit.childIdx ∧ hit.childIdx.toNat < inside.length) ∧
    (∀ i, i < n → i < (csgToggle inside hit).length ∧
      ((csgToggle inside hit).getD i false = true → i < ops.length)) ∧
    ((csgIsInside n ops (csgToggle inside hit) != wasInside) = true →
      hit.childIdx.toNat < ops.length) ∧
    csgSweepInRange n ops rest (csgToggle inside hit)
      (if (csgIsInside n ops (csgToggle inside hit) != wasInside) = true then
        csgIsInside n ops (csgToggle inside hit) else wasInside)

mutual
/-- The index reads made by getAllIntersections(ray, obj, hits) are in range: for
a CSG node those of the calls for its children and those of its sweep. -/
def getAllIntersectionsInRange (sqrt : K → K)
    (sort : List (CSGIntersection K) → List (CSGIntersection K)) (ray : Ray K) :
    Object K → Prop
  | .mk type _ _ _ _ _ _ _ _ _ _ _ _ _ _ _ csgChildren csgOperations =>
    match type with
    | .CSG =>
      getAllChildHitsInRange sqrt sort ray csgChildren ∧
      csgSweepInRange csgChildren.length csgOperations
        (sort (getAllChildHits sqrt sort ray csgChildren 0))
        (List.replicate csgChildren.length false) false
    | _ => True
/-- The index reads made by getAllIntersections for every object of the list are
in range. -/
def getAllChildHitsInRange (sqrt : K → K)
    (sort : List (CSGIntersection K) → List (CSGIntersection K)) (ray : Ray K) :
    List (Object K) → Prop
  | [] => True
  | child :: rest =>
    getAllIntersectionsInRange sqrt sort ray child ∧ getAllChildHitsInRange sqrt sort ray rest
end

/-! ## Specification-side definitions for the polyhedron and refraction claims -/

/-- What the loop of intersectPolyhedron leaves in s' when run over faces from the
state s without returning false: the interval [tNear, tFar] has shrunk and is
not empty; every face parallel to the ray has the origin on its inner side,
every face entered lies at or before tNear, every face left at or after tFar;
and tNear, tFar and their normals are those of s or come from a face. -/
def SlabResult (ray : Ray K) (faces : List (Plane K)) (s s' : Slab K) : Prop :=
  s'.tNear ≤ s'.tFar ∧ s.tNear ≤ s'.tNear ∧ s'.tFar ≤ s.tFar ∧
  (∀ p ∈ faces,
    (|p.normal.dot ray.direction| < 1 / 10000000000 → p.distance ray.origin ≤ 0) ∧
    (¬ |p.normal.dot ray.direction| < 1 / 10000000000 → p.normal.dot ray.direction < 0 →
      Dbl.fin (-p.distance ray.origin / p.normal.dot ray.direction) ≤ s'.tNear) ∧
    (¬ |p.normal.dot ray.direction| < 1 / 10000000000 → ¬ p.normal.dot ray.direction < 0 →
      s'.tFar ≤ Dbl.fin (-p.distance ray.origin / p.normal.dot ray.direction))) ∧
  ((s'.tNear = s.tNear ∧ s'.nearNormal = s.nearNormal) ∨
    ∃ p ∈ faces, ¬ |p.normal.dot ray.direction| < 1 / 10000000000 ∧
      p.normal.dot ray.direction < 0 ∧
      s'.tNear = Dbl.fin (-p.distance ray.origin / p.normal.dot ray.direction) ∧
      s'.nearNormal = p.normal) ∧
  ((s'.tFar = s.tFar ∧ s'.farNormal = s.farNormal) ∨
    ∃ p ∈ faces, ¬ |p.normal.dot ray.direction| < 1 / 10000000000 ∧
      ¬ p.normal.dot ray.direction < 0 ∧
      s'.tFar = Dbl.fin (-p.distance ray.origin / p.normal.dot ray.direction) ∧
      s'.farNormal = p.normal.scale (-1))

/-- The update of tNear, tFar and their normals that the loop of
intersectPolyhedron makes for a face not parallel to the ray. -/
def slabUpdate (ray : Ray K) (plane : Plane K) (s : Slab K) : Slab K :=
  let n := plane.normal
  let denom := n.dot ray.direction
  let dist := -plane.distance ray.origin / denom
  if denom < 0 then
    if Dbl.fin dist > s.tNear then { s with tNear := .fin dist, nearNormal := n } else s
  else
    if Dbl.fin dist < s.tFar then { s with tFar := .fin dist, farNormal := n.scale (-1) }
    else s

/-- The ratio eta of Snell's law as refract settles it: 1 / ior when I . N < 0
(entering) and ior otherwise (exiting), for I and N the normalized incident
direction and normal. -/
def snellEta (sqrt : K → K) (ray : Ray K) (normal : Vec3 K) (ior : K) : K :=
  if (ray.direction.normalize sqrt).dot (normal.normalize sqrt) < 0 then 1 / ior else ior

/-- The quantity k = 1 - eta^2 * (1 - (I . N)^2) of Snell's law. -/
def snellK (sqrt : K → K) (ray : Ray K) (normal : Vec3 K) (ior : K) : K :=
  1 - snellEta sqrt ray normal ior * snellEta sqrt ray normal ior *
    (1 - (ray.direction.normalize sqrt).dot (normal.normalize sqrt) *
      (ray.direction.normalize sqrt).dot (normal.normalize sqrt))

/-! ## Basic facts -/

set_option linter.unusedSectionVars false

theorem Dbl.fin_lt_fin {a b : K} : Dbl.fin a < Dbl.fin b ↔ a < b := by
  show Dbl.toCompletion (Dbl.fin a) < Dbl.toCompletion (Dbl.fin b) ↔ _
  simp [Dbl.toCompletion]

theorem Dbl.fin_le_fin {a b : K} : Dbl.fin a ≤ Dbl.fin b ↔ a ≤ b := by
  show Dbl.toCompletion (Dbl.fin a) ≤ Dbl.toCompletion (Dbl.fin b) ↔ _
  simp [Dbl.toCompletion]

theorem Dbl.fin_lt_inf {a : K} : Dbl.fin a < Dbl.inf := by
  show Dbl.toCompletion (Dbl.fin a) < Dbl.toCompletion Dbl.inf
  exact WithTop.coe_lt_coe.mpr (WithBot.coe_lt_coe.mpr (WithTop.coe_lt_top a))

theorem Dbl.ninf_lt_fin {a : K} : Dbl.ninf < Dbl.fin a := by
  show Dbl.toCompletion Dbl.ninf < Dbl.toCompletion (Dbl.fin a)
  exact WithTop.coe_lt_coe.mpr (WithBot.bot_lt_coe _)

theorem Dbl.le_inf (x : Dbl K) (hx : x ≠ Dbl.nan) : x ≤ Dbl.inf := by
  show Dbl.toCompletion x ≤ Dbl.toCompletion Dbl.inf
  cases x <;> simp [Dbl.toCompletion] at hx ⊢

theorem Dbl.ninf_le (x : Dbl K) : Dbl.ninf ≤ x := by
  show Dbl.toCompletion Dbl.ninf ≤ Dbl.toCompletion x
  cases x <;> simp [Dbl.toCompletion]

theorem Dbl.le_nan (x : Dbl K) : x ≤ Dbl.nan := by
  show Dbl.toCompletion x ≤ Dbl.toCompletion Dbl.nan
  simp [Dbl.toCompletion]

/-- NaN is below no double. -/
theorem Dbl.not_nan_lt (x : Dbl K) : ¬ Dbl.nan < x := not_lt.mpr (Dbl.le_nan x)

theorem Dbl.inf_lt_nan : (Dbl.inf : Dbl K) < Dbl.nan := by
  show Dbl.toCompletion (Dbl.inf : Dbl K) < Dbl.toCompletion (Dbl.nan : Dbl K)
  exact WithTop.coe_lt_top _

theorem Dbl.fin_lt_nan {a : K} : Dbl.fin a < Dbl.nan := lt_trans Dbl.fin_lt_inf Dbl.inf_lt_nan

theorem Dbl.fin_le_inf {a : K} : Dbl.fin a ≤ Dbl.inf := le_of_lt Dbl.fin_lt_inf

theorem Dbl.not_inf_lt_fin {a : K} : ¬ Dbl.inf < Dbl.fin a :=
  not_lt.mpr (le_of_lt Dbl.fin_lt_inf)

theorem Dbl.not_fin_lt_ninf {a : K} : ¬ Dbl.fin a < Dbl.ninf := not_lt.mpr (Dbl.ninf_le _)

/-- A quotient by a non-zero divisor is the finite quotient. -/
theorem Dbl.div_of_ne (x : K) {y : K} (hy : y ≠ 0) : Dbl.div x y = Dbl.fin (x / y) := by
  simp [Dbl.div, hy]

/-- A double is below plus infinity iff it is minus infinity or finite. -/
theorem Dbl.lt_inf_iff (x : Dbl K) : x < Dbl.inf ↔ x = Dbl.ninf ∨ ∃ a : K, x = Dbl.fin a := by
  cases x with
  | ninf => exact ⟨fun _ => Or.inl rfl, fun _ => lt_trans (Dbl.ninf_lt_fin (a := 0)) Dbl.fin_lt_inf⟩
  | fin a => exact ⟨fun _ => Or.inr ⟨a, rfl⟩, fun _ => Dbl.fin_lt_inf⟩
  | inf => exact ⟨fun h => absurd h (lt_irrefl _), fun h => by rcases h with h | ⟨a, h⟩ <;> cases h⟩
  | nan => exact ⟨fun h => absurd h (Dbl.not_nan_lt _), fun h => by rcases h with h | ⟨a, h⟩ <;> cases h⟩

theorem IsSqrt.nonneg {sqrt : K → K} (hs : IsSqrt sqrt) {x : K} (hx : 0 ≤ x) : 0 ≤ sqrt x :=
  (hs x hx).1

theorem IsSqrt.mul_self {sqrt : K → K} (hs : IsSqrt sqrt) {x : K} (hx : 0 ≤ x) :
    sqrt x * sqrt x = x :=
  (hs x hx).2

/-- The square root of a square of a non-negative number. -/
theorem IsSqrt.sqrt_mul_self {sqrt : K → K} (hs : IsSqrt sqrt) {y : K} (hy : 0 ≤ y) :
    sqrt (y * y) = y := by
  have h0 : 0 ≤ y * y := mul_nonneg hy hy
  have h1 := hs.nonneg h0
  have h2 := hs.mul_self h0
  nlinarith [mul_nonneg h1 hy]

/-- The square root of a number given as a square. -/
theorem IsSqrt.sqrt_eq {sqrt : K → K} (hs : IsSqrt sqrt) {x y : K} (hy : 0 ≤ y)
    (hxy : x = y * y) : sqrt x = y := by
  rw [hxy]; exact hs.sqrt_mul_self hy

theorem isSqrt_real : IsSqrt Real.sqrt := by
  intro x hx
  exact ⟨Real.sqrt_nonneg x, Real.mul_self_sqrt hx⟩

theorem isStdSort_insertionSortByT : IsStdSort (insertionSortByT (K := K)) := by
  intro l
  haveI : IsTotal (CSGIntersection K) (fun h1 h2 => h1.t ≤ h2.t) :=
    ⟨fun a b => le_total a.t b.t⟩
  haveI : IsTrans (CSGIntersection K) (fun h1 h2 => h1.t ≤ h2.t) :=
    ⟨fun a b c hab hbc => le_trans hab hbc⟩
  refine ⟨List.perm_insertionSort _ l, ?_⟩
  have h := List.sorted_insertionSort (fun (h1 h2 : CSGIntersection K) => h1.t ≤ h2.t) l
  exact List.Pairwise.imp (fun {a b} hab => not_lt.mpr hab) h

theorem orderedInsert_congr {α : Type} (r s : α → α → Prop) [DecidableRel r] [DecidableRel s]
    (a : α) (l : List α) (h : ∀ b ∈ l, r a b ↔ s a b) :
    l.orderedInsert r a = l.orderedInsert s a := by
  induction l with
  | nil => rfl
  | cons b l ih =>
    have hb := h b (List.mem_cons_self _ _)
    have ih' := ih (fun c hc => h c (List.mem_cons_of_mem _ hc))
    simp only [List.orderedInsert]
    by_cases hr : r a b
    · rw [if_pos hr, if_pos (hb.mp hr)]
    · rw [if_neg hr, if_neg (fun hs => hr (hb.mpr hs)), ih']

/-- On keys without NaN the sort under operator< is the sort under the order of t. -/
theorem insertionSortByLess_eq (l : List (CSGIntersection K)) (h : ∀ x ∈ l, x.t ≠ Dbl.nan) :
    insertionSortByLess l = insertionSortByT l := by
  induction l with
  | nil => rfl
  | cons a l ih =>
    have ih' := ih (fun x hx => h x (List.mem_cons_of_mem _ hx))
    simp only [insertionSortByLess, insertionSortByT, List.insertionSort] at ih' ⊢
    rw [ih']
    apply orderedInsert_congr
    intro b hb
    have hbl : b ∈ l := (List.perm_insertionSort _ l).subset hb
    have ha := h a (List.mem_cons_self _ _)
    have hb' := h b (List.mem_cons_of_mem _ hbl)
    simp only [CSGIntersection.less, not_and, not_lt]
    exact ⟨fun hh => hh hb' ha, fun hh _ _ => hh⟩

/-! ## Quadratic roots and vectors -/

theorem dot_self_pos (v : Vec3 K) (h : v ≠ ⟨0, 0, 0⟩) : 0 < v.dot v := by
  rcases v with ⟨x, y, z⟩
  simp only [Vec3.dot]
  by_contra hn
  have hx : x * x = 0 := by nlinarith [mul_self_nonneg x, mul_self_nonneg y, mul_self_nonneg z]
  have hy : y * y = 0 := by nlinarith [mul_self_nonneg x, mul_self_nonneg y, mul_self_nonneg z]
  have hz : z * z = 0 := by nlinarith [mul_self_nonneg x, mul_self_nonneg y, mul_self_nonneg z]
  apply h
  rw [mul_self_eq_zero] at hx hy hz
  rw [hx, hy, hz]

/-- The two values t1, t2 computed from a, b and s = sqrt(b^2 - 4ac) are roots. -/
theorem quadratic_root_of {a b c s t : K} (ha : a ≠ 0) (hs : s * s = b * b - 4 * a * c)
    (ht : 2 * a * t = -b - s) : a * t ^ 2 + b * t + c = 0 := by
  have h4 : a * (a * t ^ 2 + b * t + c) = 0 := by
    linear_combination ((2 * a * t + b - s) / 4) * ht + (1 / 4) * hs
  rcases mul_eq_zero.mp h4 with h | h
  · exact absurd h ha
  · exact h

/-- The two values t1, t2 computed from a, b and s = sqrt(b^2 - 4ac) are roots. -/
theorem quadratic_roots {a b c s : K} (ha : a ≠ 0) (hs : s * s = b * b - 4 * a * c) :
    a * ((-b - s) / (2 * a)) ^ 2 + b * ((-b - s) / (2 * a)) + c = 0 ∧
    a * ((-b + s) / (2 * a)) ^ 2 + b * ((-b + s) / (2 * a)) + c = 0 := by
  constructor
  · exact quadratic_root_of ha hs (by field_simp)
  · refine quadratic_root_of (s := -s) ha (by rw [neg_mul_neg]; exact hs) (by field_simp)

/-- The constructor Ray(o, d) leaves the unit direction (0, 0, -1) as it is. -/
theorem ray_ctor_down (sqrt : K → K) (hs : IsSqrt sqrt) (o : Vec3 K) :
    Ray.ctor sqrt o ⟨0, 0, -1⟩ = ⟨o, ⟨0, 0, -1⟩⟩ := by
  have h1 : sqrt (1 : K) = 1 := hs.sqrt_eq (by norm_num) (by norm_num)
  simp [Ray.ctor, Vec3.normalize, Vec3.length, h1]

theorem normalize_two_mul (sqrt : K → K) (hs : IsSqrt sqrt) (x y z : K) :
    Vec3.normalize sqrt (⟨2 * x, 2 * y, 2 * z⟩ : Vec3 K) = Vec3.normalize sqrt ⟨x, y, z⟩ := by
  have h0 : 0 ≤ x * x + y * y + z * z := by
    nlinarith [mul_self_nonneg x, mul_self_nonneg y, mul_self_nonneg z]
  have hl : sqrt (2 * x * (2 * x) + 2 * y * (2 * y) + 2 * z * (2 * z))
      = 2 * sqrt (x * x + y * y + z * z) := by
    apply hs.sqrt_eq (by linarith [hs.nonneg h0])
    linear_combination (-4 : K) * hs.mul_self h0
  simp only [Vec3.normalize, Vec3.length, hl]
  by_cases hp : 0 < sqrt (x * x + y * y + z * z)
  · have hp2 : 0 < 2 * sqrt (x * x + y * y + z * z) := by linarith
    rw [if_pos hp, if_pos hp2]
    have hne := ne_of_gt hp
    congr 1 <;> field_simp <;> ring
  · have hp2 : ¬ 0 < 2 * sqrt (x * x + y * y + z * z) := by linarith
    rw [if_neg hp, if_neg hp2]

/-- Where the divisor 2a is not zero intersectSphere computes with finite t. -/
theorem intersectSphere_of_ne (sqrt : K → K) (ray : Ray K) (sphere : Object K)
    (hit : HitInfo K) (ha : ray.direction.dot ray.direction ≠ 0) :
    intersectSphere sqrt ray sphere hit =
      (let oc := ray.origin.sub sphere.center
       let a := ray.direction.dot ray.direction
       let b := 2 * oc.dot ray.direction
       let c := oc.dot oc - sphere.radius * sphere.radius
       let discriminant := b * b - 4 * a * c
       if discriminant < 0 then (false, hit)
       else
         let t1 := (-b - sqrt discriminant) / (2 * a)
         let t2 := (-b + sqrt discriminant) / (2 * a)
         let t := if t1 < 1 / 1000 then t2 else t1
         if t < 1 / 1000 then (false, hit)
         else
           (true, { hit with
             hit := true, t := .fin t, point := ray.at_ t,
             normal := ((ray.at_ t).sub sphere.center).normalize sqrt })) := by
  have h2 : 2 * ray.direction.dot ray.direction ≠ 0 := mul_ne_zero two_ne_zero ha
  simp only [intersectSphere, Dbl.div_of_ne _ h2, ← apply_ite Dbl.fin, Dbl.fin_lt_fin]

/-- Where the divisor 2aq is not zero intersectQuadric computes with finite t. -/
theorem intersectQuadric_of_ne (sqrt : K → K) (ray : Ray K) (quad : Object K)
    (hit : HitInfo K) (ha : quadricA ray.direction quad ≠ 0) :
    intersectQuadric sqrt ray quad hit =
      (let aq := quadricA ray.direction quad
       let bq := quadricB ray.origin ray.direction quad
       let cq := quadricC ray.origin quad
       let discriminant := bq * bq - 4 * aq * cq
       if discriminant < 0 then (false, hit)
       else
         let t1 := (-bq - sqrt discriminant) / (2 * aq)
         let t2 := (-bq + sqrt discriminant) / (2 * aq)
         let t := if t1 < 1 / 1000 then t2 else t1
         if t < 1 / 1000 then (false, hit)
         else
           (true, { hit with
             hit := true, t := .fin t, point := ray.at_ t,
             normal := (quadricGradient quad (ray.at_ t)).normalize sqrt })) := by
  have h2 : 2 * quadricA ray.direction quad ≠ 0 := mul_ne_zero two_ne_zero ha
  simp only [intersectQuadric, Dbl.div_of_ne _ h2, ← apply_ite Dbl.fin, Dbl.fin_lt_fin]

/-- Where aq is zero intersectQuadric returns true with hit.t = NaN and the
normal (0, 0, 0), whatever the ray and the other coefficients. -/
theorem intersectQuadric_of_zero (sqrt : K → K) (hs : IsSqrt sqrt) (ray : Ray K)
    (quad : Object K) (hit : HitInfo K) (ha : quadricA ray.direction quad = 0) :
    (intersectQuadric sqrt ray quad hit).1 = true ∧
    (intersectQuadric sqrt ray quad hit).2.hit = true ∧
    (intersectQuadric sqrt ray quad hit).2.t = Dbl.nan ∧
    (intersectQuadric sqrt ray quad hit).2.normal = ⟨0, 0, 0⟩ := by
  have hdisc : quadricB ray.origin ray.direction quad * quadricB ray.origin ray.direction quad -
      4 * quadricA ray.direction quad * quadricC ray.origin quad =
      quadricB ray.origin ray.direction quad * quadricB ray.origin ray.direction quad := by
    rw [ha]; ring
  have hnn : ¬ quadricB ray.origin ray.direction quad * quadricB ray.origin ray.direction quad
      < 0 := not_lt.mpr (mul_self_nonneg _)
  have key : intersectQuadric sqrt ray quad hit =
      (true, { hit with hit := true, t := Dbl.nan, normal := ⟨0, 0, 0⟩ }) := by
    simp only [intersectQuadric, hdisc, if_neg hnn, ha, mul_zero, Dbl.div, if_true]
    rcases le_or_lt (quadricB ray.origin ray.direction quad) 0 with hb | hb
    · have hsq : sqrt (quadricB ray.origin ray.direction quad *
          quadricB ray.origin ray.direction quad) = -quadricB ray.origin ray.direction quad :=
        hs.sqrt_eq (by linarith) (by ring)
      simp [hsq, Dbl.not_nan_lt, mul_self_nonneg]
    · have hsq : sqrt (quadricB ray.origin ray.direction quad *
          quadricB ray.origin ray.direction quad) = quadricB ray.origin ray.direction quad :=
        hs.sqrt_eq (le_of_lt hb) rfl
      have h1 : ¬ (0 < -quadricB ray.origin ray.direction quad -
          quadricB ray.origin ray.direction quad) := by linarith
      have h2 : -quadricB ray.origin ray.direction quad -
          quadricB ray.origin ray.direction quad < 0 := by linarith
      simp [hsq, h1, h2, Dbl.ninf_lt_fin, Dbl.not_nan_lt, mul_self_nonneg]
  rw [key]
  exact ⟨rfl, rfl, rfl, rfl⟩

/-- Where the divisor 2a is not zero the SPHERE branch pushes two finite crossings. -/
theorem sphereIntersections_of_ne (sqrt : K → K) (ray : Ray K) (center : Vec3 K) (radius : K)
    (ha : ray.direction.dot ray.direction ≠ 0) :
    sphereIntersections sqrt ray center radius =
      (let oc := ray.origin.sub center
       let a := ray.direction.dot ray.direction
       let b := 2 * oc.dot ray.direction
       let c := oc.dot oc - radius * radius
       let discriminant := b * b - 4 * a * c
       if discriminant ≥ 0 then
         let t1 := (-b - sqrt discriminant) / (2 * a)
         let t2 := (-b + sqrt discriminant) / (2 * a)
         [⟨.fin t1, ((ray.at_ t1).sub center).normalize sqrt, -1⟩,
          ⟨.fin t2, ((ray.at_ t2).sub center).normalize sqrt, -1⟩]
       else []) := by
  have h2 : 2 * ray.direction.dot ray.direction ≠ 0 := mul_ne_zero two_ne_zero ha
  simp only [sphereIntersections, Dbl.div_of_ne _ h2, crossingNormal]

/-- Where the divisor 2aq is not zero the QUADRIC branch pushes two finite crossings. -/
theorem quadricIntersections_of_ne (sqrt : K → K) (ray : Ray K) (obj : Object K)
    (ha : quadricA ray.direction obj ≠ 0) :
    quadricIntersections sqrt ray obj =
      (let aq := quadricA ray.direction obj
       let bq := quadricB ray.origin ray.direction obj
       let cq := quadricC ray.origin obj
       let discriminant := bq * bq - 4 * aq * cq
       if discriminant ≥ 0 then
         let t1 := (-bq - sqrt discriminant) / (2 * aq)
         let t2 := (-bq + sqrt discriminant) / (2 * aq)
         [⟨.fin t1, (quadricGradient obj (ray.at_ t1)).normalize sqrt, -1⟩,
          ⟨.fin t2, (quadricGradient obj (ray.at_ t2)).normalize sqrt, -1⟩]
       else []) := by
  have h2 : 2 * quadricA ray.direction obj ≠ 0 := mul_ne_zero two_ne_zero ha
  simp only [quadricIntersections, Dbl.div_of_ne _ h2, crossingNormal]

/-- A ray of zero direction has a discriminant of zero against every sphere. -/
theorem sphereDiscriminant_of_dir_zero (ray : Ray K) (center : Vec3 K) (radius : K)
    (ha : ray.direction.dot ray.direction = 0) :
    sphereDiscriminant ray center radius = 0 := by
  have hd : ray.direction = ⟨0, 0, 0⟩ := by
    by_contra hne
    exact absurd ha (ne_of_gt (dot_self_pos _ hne))
  simp only [sphereDiscriminant, hd, Vec3.dot]
  ring

theorem quadric_substitution (quad : Object K) (ray : Ray K) (t : K) :
    quadricImplicit quad (ray.at_ t) =
      quadricA ray.direction quad * t ^ 2 + quadricB ray.origin ray.direction quad * t
        + quadricC ray.origin quad := by
  simp only [quadricImplicit, quadricA, quadricB, quadricC, Ray.at_, Vec3.add, Vec3.scale]
  ring

/-! ## The CSG sweep -/

theorem csgSweep_cons (n : Nat) (ops : List CSGOperation) (hit : CSGIntersection K)
    (rest : List (CSGIntersection K)) (inside : List Bool) (wasInside : Bool) :
    csgSweep n ops (hit :: rest) inside wasInside =
      if csgIsInside n ops (csgToggle inside hit) != wasInside then
        (if ops[hit.childIdx.toNat]? = some .CSG_DIFFERENCE then
            { hit with normal := hit.normal.scale (-1) } else hit) ::
          csgSweep n ops rest (csgToggle inside hit) (csgIsInside n ops (csgToggle inside hit))
      else csgSweep n ops rest (csgToggle inside hit) wasInside := by
  simp only [csgSweep]

theorem csgFlags_foldl_fst (ops : List CSGOperation) (inside : List Bool) (l : List Nat)
    (init : Bool × Bool) :
    (l.foldl (csgFlagsStep ops inside) init).1 = true ↔
      init.1 = true ∨ ∃ i ∈ l, inside.getD i false = true ∧ ops[i]? = some .CSG_UNION := by
  induction l generalizing init with
  | nil => simp
  | cons j l ih =>
    rw [List.foldl_cons, ih]
    simp only [List.mem_cons, exists_eq_or_imp, csgFlagsStep]
    by_cases hj : inside.getD j false = true
    · rw [if_pos hj]
      rw [List.getD_eq_getElem?_getD] at hj
      rcases hop : ops[j]? with _ | op
      · simp [hj]
      · cases op <;> simp [hj]
    · rw [if_neg hj]
      rw [List.getD_eq_getElem?_getD] at hj
      simp [hj]

theorem csgFlags_foldl_snd (ops : List CSGOperation) (inside : List Bool) (l : List Nat)
    (init : Bool × Bool) :
    (l.foldl (csgFlagsStep ops inside) init).2 = true ↔
      init.2 = true ∨ ∃ i ∈ l, inside.getD i false = true ∧ ops[i]? = some .CSG_DIFFERENCE := by
  induction l generalizing init with
  | nil => simp
  | cons j l ih =>
    rw [List.foldl_cons, ih]
    simp only [List.mem_cons, exists_eq_or_imp, csgFlagsStep]
    by_cases hj : inside.getD j false = true
    · rw [if_pos hj]
      rw [List.getD_eq_getElem?_getD] at hj
      rcases hop : ops[j]? with _ | op
      · simp [hj]
      · cases op <;> simp [hj]
    · rw [if_neg hj]
      rw [List.getD_eq_getElem?_getD] at hj
      simp [hj]

theorem csgIsInside_iff (n : Nat) (ops : List CSGOperation) (inside : List Bool) :
    csgIsInside n ops inside = true ↔
      (∃ i, i < n ∧ inside.getD i false = true ∧ ops[i]? = some .CSG_UNION) ∧
      ¬ ∃ i, i < n ∧ inside.getD i false = true ∧ ops[i]? = some .CSG_DIFFERENCE := by
  unfold csgIsInside csgFlags
  rw [Bool.and_eq_true, Bool.not_eq_true', ← Bool.not_eq_true, csgFlags_foldl_fst,
    csgFlags_foldl_snd]
  simp [List.mem_range]

theorem csgToggle_length (inside : List Bool) (hit : CSGIntersection K) :
    (csgToggle inside hit).length = inside.length := by
  simp [csgToggle]

theorem csgToggle_getD (inside : List Bool) (hit : CSGIntersection K) (i : Nat)
    (hi : i < inside.length) :
    (csgToggle inside hit).getD i false =
      (inside.getD i false != decide (hit.childIdx.toNat = i)) := by
  simp only [csgToggle, List.getD_eq_getElem?_getD, List.getElem?_set]
  by_cases h : hit.childIdx.toNat = i
  · subst h
    simp [hi]
  · simp [h]

theorem csgToggles_getD (evs : List (CSGIntersection K)) (inside : List Bool) (i : Nat)
    (hi : i < inside.length) :
    (evs.foldl csgToggle inside).getD i false =
      (inside.getD i false !=
        decide (Odd (evs.countP (fun e => decide (e.childIdx.toNat = i))))) := by
  induction evs generalizing inside with
  | nil => simp
  | cons e rest ih =>
    rw [List.foldl_cons, ih _ (by rw [csgToggle_length]; exact hi), csgToggle_getD _ _ _ hi,
      List.countP_cons]
    by_cases h : e.childIdx.toNat = i
    · have hpar : Odd (List.countP (fun e => decide (e.childIdx.toNat = i)) rest + 1) ↔
          ¬ Odd (List.countP (fun e => decide (e.childIdx.toNat = i)) rest) := Nat.odd_add_one
      simp only [h, decide_True, if_true]
      by_cases ho : Odd (List.countP (fun e => decide (e.childIdx.toNat = i)) rest)
      · have ho2 : ¬ Odd (List.countP (fun e => decide (e.childIdx.toNat = i)) rest + 1) :=
          fun hh => (hpar.mp hh) ho
        simp only [ho, ho2, decide_True, decide_False]
        cases inside.getD i false <;> rfl
      · have ho2 := hpar.mpr ho
        simp only [ho, ho2, decide_True, decide_False]
        cases inside.getD i false <;> rfl
    · simp [h]

theorem csgIsInside_replicate (n : Nat) (ops : List CSGOperation) :
    csgIsInside n ops (List.replicate n false) = false := by
  rw [← Bool.not_eq_true, csgIsInside_iff]
  rintro ⟨⟨i, hi, h, -⟩, -⟩
  simp [List.getD_eq_getElem?_getD, List.getElem?_replicate, hi] at h

/-- Every crossing pushed by the sweep carries the t of one of the swept crossings. -/
theorem csgSweep_t_mem (n : Nat) (ops : List CSGOperation) (evs : List (CSGIntersection K))
    (inside : List Bool) (wasInside : Bool) :
    ∀ h ∈ csgSweep n ops evs inside wasInside, ∃ e ∈ evs, h.t = e.t := by
  induction evs generalizing inside wasInside with
  | nil => intro h hh; simp [csgSweep] at hh
  | cons e rest ih =>
    intro h hh
    rw [csgSweep_cons] at hh
    split_ifs at hh with h1 h2
    · rcases List.mem_cons.mp hh with rfl | hh
      · exact ⟨_, List.mem_cons_self _ _, rfl⟩
      · obtain ⟨e', he', ht⟩ := ih _ _ h hh
        exact ⟨e', List.mem_cons_of_mem _ he', ht⟩
    · rcases List.mem_cons.mp hh with rfl | hh
      · exact ⟨_, List.mem_cons_self _ _, rfl⟩
      · obtain ⟨e', he', ht⟩ := ih _ _ h hh
        exact ⟨e', List.mem_cons_of_mem _ he', ht⟩
    · obtain ⟨e', he', ht⟩ := ih _ _ h hh
      exact ⟨e', List.mem_cons_of_mem _ he', ht⟩

/-- Parity of the crossings pushed below t: it is the membership reached after
toggling the swept crossings below t. -/
theorem csgSweep_parity (n : Nat) (ops : List CSGOperation) (t : Dbl K)
    (evs : List (CSGIntersection K)) (inside : List Bool) (wasInside : Bool)
    (hsorted : evs.Pairwise (fun h1 h2 => ¬ h2.t < h1.t))
    (hwas : wasInside = csgIsInside n ops inside) :
    Odd ((csgSweep n ops evs inside wasInside).countP (fun h => decide (h.t < t))) ↔
      csgIsInside n ops ((evs.filter (fun h => decide (h.t < t))).foldl csgToggle inside)
        ≠ wasInside := by
  induction evs generalizing inside wasInside with
  | nil => simp [csgSweep, hwas]
  | cons e rest ih =>
    rw [List.pairwise_cons] at hsorted
    by_cases hp : e.t < t
    · rw [List.filter_cons_of_pos (by simpa using hp), List.foldl_cons, csgSweep_cons]
      by_cases hflip : csgIsInside n ops (csgToggle inside e) = wasInside
      · rw [if_neg (by simpa using hflip)]
        exact ih _ _ hsorted.2 hflip.symm
      · rw [if_pos (by simpa using hflip)]
        have hpn : (fun (h : CSGIntersection K) => decide (h.t < t))
            (if ops[e.childIdx.toNat]? = some CSGOperation.CSG_DIFFERENCE then
              { e with normal := e.normal.scale (-1) } else e) = true := by
          split_ifs <;> simpa using hp
        rw [List.countP_cons, if_pos hpn, Nat.odd_add_one, ih _ _ hsorted.2 rfl, not_not]
        constructor
        · intro h; rw [h]; exact hflip
        · intro h
          revert h hflip
          cases csgIsInside n ops (List.foldl csgToggle (csgToggle inside e)
            (List.filter (fun h => decide (h.t < t)) rest)) <;>
          cases csgIsInside n ops (csgToggle inside e) <;> cases wasInside <;> simp
    · have hrest : ∀ r ∈ rest, ¬ r.t < t := fun r hr hlt =>
        hp (lt_of_le_of_lt (not_lt.mp (hsorted.1 r hr)) hlt)
      have hfil : (e :: rest).filter (fun h => decide (h.t < t)) = [] := by
        rw [List.filter_eq_nil_iff]
        intro a ha
        rcases List.mem_cons.mp ha with rfl | ha
        · simpa using hp
        · simpa using hrest a ha
      have hcount : (csgSweep n ops (e :: rest) inside wasInside).countP
          (fun h => decide (h.t < t)) = 0 := by
        rw [List.countP_eq_zero]
        intro h hh
        obtain ⟨e', he', ht⟩ := csgSweep_t_mem n ops _ _ _ h hh
        rw [ht]
        rcases List.mem_cons.mp he' with rfl | he'
        · simpa using hp
        · simpa using hrest e' he'
      rw [hfil, hcount, List.foldl_nil]
      simp [hwas]

/-- The crossings of child i among the tagged crossings of all children. -/
theorem getAllChildHits_countP (sqrt : K → K)
    (sort : List (CSGIntersection K) → List (CSGIntersection K)) (ray : Ray K) (t : Dbl K)
    (children : List (Object K)) (k i : Nat) :
    (getAllChildHits sqrt sort ray children k).countP
        (fun h => decide (h.childIdx.toNat = i) && decide (h.t < t)) =
      if k ≤ i then
        match children[i - k]? with
        | some child => (getAllIntersections sqrt sort ray child).countP
            (fun h => decide (h.t < t))
        | none => 0
      else 0 := by
  induction children generalizing k with
  | nil => simp [getAllChildHits]
  | cons c cs ih =>
    rw [getAllChildHits, List.countP_append, List.countP_map, ih]
    by_cases hk : k = i
    · subst hk
      simp [Function.comp_def]
    · have h0 : List.countP ((fun (h : CSGIntersection K) =>
          decide (h.childIdx.toNat = i) && decide (h.t < t)) ∘
          fun h => { h with childIdx := (k : Int) }) (getAllIntersections sqrt sort ray c) = 0 := by
        rw [List.countP_eq_zero]
        intro a _
        simp [hk]
      rw [h0, zero_add]
      by_cases hle : k ≤ i
      · have hlt : k + 1 ≤ i := Nat.lt_of_le_of_ne hle hk
        rw [if_pos hle, if_pos hlt]
        have : i - k = (i - (k + 1)) + 1 := by omega
        rw [this, List.getElem?_cons_succ]
      · have hlt : ¬ k + 1 ≤ i := by omega
        rw [if_neg hle, if_neg hlt]

theorem getAllIntersections_csg (sqrt : K → K)
    (sort : List (CSGIntersection K) → List (CSGIntersection K)) (ray : Ray K)
    (node : Object K) (hty : node.type = .CSG) :
    getAllIntersections sqrt sort ray node =
      csgSweep node.csgChildren.length node.csgOperations
        (sort (getAllChildHits sqrt sort ray node.csgChildren 0))
        (List.replicate node.csgChildren.length false) false := by
  rcases node with ⟨ty, pi, fi, c, r, fs, A, B, C, D, E, F, G, H, I, J, ch, ops⟩
  simp only [Object.type] at hty
  subst hty
  simp only [getAllIntersections, Object.csgChildren, Object.csgOperations]

/-- Parity of the crossings a CSG node reports below t, in terms of the parities
of its children. -/
theorem getAllIntersections_csg_parity (sqrt : K → K)
    (sort : List (CSGIntersection K) → List (CSGIntersection K)) (hsort : IsStdSort sort)
    (ray : Ray K) (node : Object K) (hty : node.type = .CSG) (t : Dbl K) :
    Odd ((getAllIntersections sqrt sort ray node).countP (fun h => decide (h.t < t))) ↔
      ((∃ (i : Nat) (child : Object K), node.csgChildren[i]? = some child ∧
          node.csgOperations[i]? = some CSGOperation.CSG_UNION ∧
          Odd ((getAllIntersections sqrt sort ray child).countP (fun h => decide (h.t < t)))) ∧
       ¬ ∃ (i : Nat) (child : Object K), node.csgChildren[i]? = some child ∧
          node.csgOperations[i]? = some CSGOperation.CSG_DIFFERENCE ∧
          Odd ((getAllIntersections sqrt sort ray child).countP (fun h => decide (h.t < t)))) := by
  have hins : ∀ i, i < node.csgChildren.length →
      (((sort (getAllChildHits sqrt sort ray node.csgChildren 0)).filter
        (fun h => decide (h.t < t))).foldl csgToggle
          (List.replicate node.csgChildren.length false)).getD i false =
      decide (Odd ((getAllIntersections sqrt sort ray (node.csgChildren.getD i node)).countP
        (fun h => decide (h.t < t)))) := by
    intro i hi
    rw [csgToggles_getD _ _ _ (by simpa using hi), List.countP_filter,
      ((hsort _).1.countP_eq _), getAllChildHits_countP]
    simp [List.getD_eq_getElem?_getD, List.getElem?_replicate, hi]
  rw [getAllIntersections_csg sqrt sort ray node hty,
    csgSweep_parity _ _ t _ _ _ (hsort _).2 (csgIsInside_replicate _ _).symm]
  rw [ne_eq, Bool.not_eq_false, csgIsInside_iff]
  constructor
  · rintro ⟨⟨i, hi, hin, hop⟩, hno⟩
    refine ⟨⟨i, node.csgChildren[i], List.getElem?_eq_getElem hi, hop, ?_⟩, ?_⟩
    · rw [hins i hi] at hin
      simpa [List.getD_eq_getElem?_getD, List.getElem?_eq_getElem hi] using hin
    · rintro ⟨j, child, hj, hop, hodd⟩
      have hjlt : j < node.csgChildren.length := by
        by_contra hcon
        rw [List.getElem?_eq_none (not_lt.mp hcon)] at hj
        exact absurd hj (by simp)
      apply hno
      refine ⟨j, hjlt, ?_, hop⟩
      rw [hins j hjlt]
      simpa [List.getD_eq_getElem?_getD, hj] using hodd
  · rintro ⟨⟨i, child, hi, hop, hodd⟩, hno⟩
    have hilt : i < node.csgChildren.length := by
      by_contra hcon
      rw [List.getElem?_eq_none (not_lt.mp hcon)] at hi
      exact absurd hi (by simp)
    refine ⟨⟨i, hilt, ?_, hop⟩, ?_⟩
    · rw [hins i hilt]
      simpa [List.getD_eq_getElem?_getD, hi] using hodd
    · rintro ⟨j, hj, hin, hop⟩
      apply hno
      refine ⟨j, node.csgChildren[j], List.getElem?_eq_getElem hj, hop, ?_⟩
      rw [hins j hj] at hin
      simpa [List.getD_eq_getElem?_getD, List.getElem?_eq_getElem hj] using hin

/-- The scan of intersectCSG either keeps its state or ends on a crossing of the
list whose t is finite and above 0.001. -/
theorem intersectCSGLoop_spec (ray : Ray K) (hits : List (CSGIntersection K)) (s : CSGScan K) :
    intersectCSGLoop ray hits s = s ∨
    ((intersectCSGLoop ray hits s).found = true ∧
      ∃ h ∈ hits, ∃ x : K, h.t = Dbl.fin x ∧ 1 / 1000 < x ∧
        (intersectCSGLoop ray hits s).hit.t = Dbl.fin x) := by
  induction hits generalizing s with
  | nil => left; rfl
  | cons h rest ih =>
    rcases ht : h.t with _ | x | _ | _
    · simp only [intersectCSGLoop, ht]
      rcases ih s with h1 | ⟨h1, e, he, y, hy⟩
      · left; exact h1
      · right; exact ⟨h1, e, List.mem_cons_of_mem _ he, y, hy⟩
    · simp only [intersectCSGLoop, ht]
      split_ifs with hc
      · rcases ih ⟨Dbl.fin x, true,
          { s.hit with t := Dbl.fin x, normal := h.normal, point := ray.at_ x, hit := true }⟩
          with h1 | ⟨h1, e, he, y, hy⟩
        · right
          rw [h1]
          exact ⟨rfl, h, List.mem_cons_self _ _, x, ht, hc.1, rfl⟩
        · right; exact ⟨h1, e, List.mem_cons_of_mem _ he, y, hy⟩
      · rcases ih s with h1 | ⟨h1, e, he, y, hy⟩
        · left; exact h1
        · right; exact ⟨h1, e, List.mem_cons_of_mem _ he, y, hy⟩
    · simp only [intersectCSGLoop, ht]
      rcases ih s with h1 | ⟨h1, e, he, y, hy⟩
      · left; exact h1
      · right; exact ⟨h1, e, List.mem_cons_of_mem _ he, y, hy⟩
    · simp only [intersectCSGLoop, ht]
      rcases ih s with h1 | ⟨h1, e, he, y, hy⟩
      · left; exact h1
      · right; exact ⟨h1, e, List.mem_cons_of_mem _ he, y, hy⟩

/-- Every tagged child crossing carries the t of a crossing of some child. -/
theorem getAllChildHits_t_mem (sqrt : K → K)
    (sort : List (CSGIntersection K) → List (CSGIntersection K)) (ray : Ray K)
    (children : List (Object K)) (k : Nat) :
    ∀ h ∈ getAllChildHits sqrt sort ray children k,
      ∃ child ∈ children, ∃ h' ∈ getAllIntersections sqrt sort ray child, h.t = h'.t := by
  induction children generalizing k with
  | nil => intro h hh; simp [getAllChildHits] at hh
  | cons c cs ih =>
    intro h hh
    rw [getAllChildHits, List.mem_append] at hh
    rcases hh with hh | hh
    · obtain ⟨h', hh', rfl⟩ := List.mem_map.mp hh
      exact ⟨c, List.mem_cons_self _ _, h', hh', rfl⟩
    · obtain ⟨child, hc, h', hh', ht⟩ := ih _ h hh
      exact ⟨child, List.mem_cons_of_mem _ hc, h', hh', ht⟩

/-- Every crossing a CSG node reports carries the t of a crossing of some child. -/
theorem getAllIntersections_csg_t_mem (sqrt : K → K)
    (sort : List (CSGIntersection K) → List (CSGIntersection K)) (hsort : IsStdSort sort)
    (ray : Ray K) (node : Object K) (hty : node.type = .CSG) :
    ∀ h ∈ getAllIntersections sqrt sort ray node,
      ∃ child ∈ node.csgChildren, ∃ h' ∈ getAllIntersections sqrt sort ray child,
        h.t = h'.t := by
  intro h hh
  rw [getAllIntersections_csg sqrt sort ray node hty] at hh
  obtain ⟨e, he, ht⟩ := csgSweep_t_mem _ _ _ _ _ h hh
  obtain ⟨child, hc, h', hh', ht'⟩ :=
    getAllChildHits_t_mem sqrt sort ray _ 0 e ((hsort _).1.mem_iff.mp he)
  exact ⟨child, hc, h', hh', ht.trans ht'⟩

theorem getAllIntersections_sphere (sqrt : K → K)
    (sort : List (CSGIntersection K) → List (CSGIntersection K)) (ray : Ray K)
    (sphere : Object K) (hty : sphere.type = .SPHERE) :
    getAllIntersections sqrt sort ray sphere =
      sphereIntersections sqrt ray sphere.center sphere.radius := by
  rcases sphere with ⟨ty, pi, fi, c, r, fs, A, B, C, D, E, F, G, H, I, J, ch, ops⟩
  simp only [Object.type] at hty
  subst hty
  simp only [getAllIntersections, Object.center, Object.radius]

/-- A std::sort of two crossings already in order leaves them in place, when
crossings of equal t are equal. -/
theorem isStdSort_pair (sort : List (CSGIntersection K) → List (CSGIntersection K))
    (hsort : IsStdSort sort) (x y : CSGIntersection K) (hxy : x.t ≤ y.t)
    (heq : x.t = y.t → x = y) : sort [x, y] = [x, y] := by
  obtain ⟨hperm, hsorted⟩ := hsort [x, y]
  have hlen := hperm.length_eq
  rcases hl : sort [x, y] with _ | ⟨a, _ | ⟨b, _ | ⟨c, l⟩⟩⟩
  · rw [hl] at hlen; simp at hlen
  · rw [hl] at hlen; simp at hlen
  · rw [hl] at hperm hsorted
    have ha : a = x ∨ a = y := by
      have := hperm.subset (List.mem_cons_self a [b])
      simpa using this
    have hb : b = x ∨ b = y := by
      have := hperm.subset (List.mem_cons_of_mem a (List.mem_cons_self b []))
      simpa using this
    have hx : x = a ∨ x = b := by
      have := hperm.symm.subset (List.mem_cons_self x [y])
      simpa using this
    have hy : y = a ∨ y = b := by
      have := hperm.symm.subset (List.mem_cons_of_mem x (List.mem_cons_self y []))
      simpa using this
    have hab : ¬ b.t < a.t := by
      rw [List.pairwise_cons] at hsorted
      exact hsorted.1 b (List.mem_cons_self _ _)
    rcases ha with rfl | rfl <;> rcases hb with rfl | rfl
    · rcases hy with rfl | rfl <;> rfl
    · rfl
    · have : b = a := heq (le_antisymm hxy (not_lt.mp hab))
      rw [this]
    · rcases hx with rfl | rfl <;> rfl
  · rw [hl] at hlen; simp at hlen

/-- The sweep over the two crossings of one of two Union children pushes both. -/
theorem csgSweep_union_pair (x y : CSGIntersection K) (i : Nat) (hi : i < 2)
    (hx : x.childIdx = (i : Int)) (hy : y.childIdx = (i : Int)) :
    csgSweep 2 [CSGOperation.CSG_UNION, CSGOperation.CSG_UNION] [x, y] [false, false] false
      = [x, y] := by
  have hi1 : csgIsInside 2 [.CSG_UNION, .CSG_UNION] [true, false] = true := by decide
  have hi2 : csgIsInside 2 [.CSG_UNION, .CSG_UNION] [false, true] = true := by decide
  have hi3 : csgIsInside 2 [.CSG_UNION, .CSG_UNION] [false, false] = false := by decide
  rcases i with _ | _ | i
  · simp [csgSweep, csgToggle, hx, hy, hi1, hi3]
  · simp [csgSweep, csgToggle, hx, hy, hi2, hi3]
  · omega

theorem sphereIntersections_of_neg (sqrt : K → K) (ray : Ray K) (center : Vec3 K) (radius : K)
    (h : sphereDiscriminant ray center radius < 0) :
    sphereIntersections sqrt ray center radius = [] := by
  simp only [sphereDiscriminant] at h
  simp only [sphereIntersections]
  rw [if_neg (not_le.mpr h)]

/-- The crossings of a CSG node with two Union spheres of which only child i is met. -/
theorem getAllIntersections_union_one (sqrt : K → K) (hs : IsSqrt sqrt)
    (sort : List (CSGIntersection K) → List (CSGIntersection K)) (hsort : IsStdSort sort)
    (ray : Ray K) (node s0 s1 met : Object K) (i : Nat) (hi : i < 2)
    (hty : node.type = .CSG) (hch : node.csgChildren = [s0, s1])
    (hops : node.csgOperations = [.CSG_UNION, .CSG_UNION])
    (hmet : met.type = .SPHERE)
    (hall : getAllChildHits sqrt sort ray [s0, s1] 0 =
      (getAllIntersections sqrt sort ray met).map (fun h => { h with childIdx := (i : Int) }))
    (hpos : 0 ≤ sphereDiscriminant ray met.center met.radius)
    (hdir : ray.direction.dot ray.direction ≠ 0) :
    (getAllIntersections sqrt sort ray node).length = 2 ∧
    (getAllIntersections sqrt sort ray node).map (fun h => (h.t, h.normal)) =
      (getAllIntersections sqrt sort ray met).map (fun h => (h.t, h.normal)) ∧
    ∃ t1 t2 : K, t1 ≤ t2 ∧
      (getAllIntersections sqrt sort ray node).map (fun h => h.t) = [Dbl.fin t1, Dbl.fin t2] := by
  rw [getAllIntersections_csg sqrt sort ray node hty, hch, hops, hall,
    getAllIntersections_sphere sqrt sort ray met hmet]
  simp only [sphereDiscriminant] at hpos
  rw [sphereIntersections_of_ne sqrt ray _ _ hdir]
  simp only []
  rw [if_pos (ge_iff_le.mpr hpos)]
  simp only [List.map]
  have ha : 0 ≤ ray.direction.dot ray.direction := by
    simp only [Vec3.dot]
    nlinarith [mul_self_nonneg ray.direction.x, mul_self_nonneg ray.direction.y,
      mul_self_nonneg ray.direction.z]
  have hle : (-(2 * (ray.origin.sub met.center).dot ray.direction) -
        sqrt (2 * (ray.origin.sub met.center).dot ray.direction *
          (2 * (ray.origin.sub met.center).dot ray.direction) -
          4 * ray.direction.dot ray.direction *
            ((ray.origin.sub met.center).dot (ray.origin.sub met.center) -
              met.radius * met.radius))) / (2 * ray.direction.dot ray.direction) ≤
      (-(2 * (ray.origin.sub met.center).dot ray.direction) +
        sqrt (2 * (ray.origin.sub met.center).dot ray.direction *
          (2 * (ray.origin.sub met.center).dot ray.direction) -
          4 * ray.direction.dot ray.direction *
            ((ray.origin.sub met.center).dot (ray.origin.sub met.center) -
              met.radius * met.radius))) / (2 * ray.direction.dot ray.direction) := by
    apply div_le_div_of_nonneg_right _ (by linarith)
    linarith [hs.nonneg hpos]
  have key : ∀ x y : CSGIntersection K, x.childIdx = (i : Int) → y.childIdx = (i : Int) →
      x.t ≤ y.t → (x.t = y.t → x = y) →
      csgSweep [s0, s1].length [CSGOperation.CSG_UNION, CSGOperation.CSG_UNION] (sort [x, y])
        (List.replicate [s0, s1].length false) false = [x, y] := by
    intro x y hx hy hxy heq
    rw [isStdSort_pair sort hsort x y hxy heq]
    exact csgSweep_union_pair x y i hi hx hy
  rw [key _ _ rfl rfl (Dbl.fin_le_fin.mpr hle) ?_]
  · exact ⟨rfl, rfl, _, _, hle, rfl⟩
  · intro heq
    simp only at heq
    injection heq with heq
    simp only [heq]

/-- Where the coefficient aq is positive, a hit reported by intersectQuadric is
at a root of aq t^2 + bq t + cq that is at least 0.001, and no smaller root is. -/
theorem intersectQuadric_nearest_of_pos (sqrt : K → K) (hs : IsSqrt sqrt) (ray : Ray K)
    (quad : Object K) (hit0 : HitInfo K) (ha : 0 < quadricA ray.direction quad)
    (hhit : (intersectQuadric sqrt ray quad hit0).1 = true) :
    ∃ t : K, (intersectQuadric sqrt ray quad hit0).2.t = Dbl.fin t ∧ 1 / 1000 ≤ t ∧
      quadricA ray.direction quad * t ^ 2 + quadricB ray.origin ray.direction quad * t +
        quadricC ray.origin quad = 0 ∧
      ∀ t' : K, 1 / 1000 ≤ t' →
        quadricA ray.direction quad * t' ^ 2 + quadricB ray.origin ray.direction quad * t' +
          quadricC ray.origin quad = 0 → t ≤ t' := by
  have hroot : ∀ (s t' : K), s * s = quadricB ray.origin ray.direction quad *
        quadricB ray.origin ray.direction quad -
        4 * quadricA ray.direction quad * quadricC ray.origin quad → 0 ≤ s →
      quadricA ray.direction quad * t' ^ 2 + quadricB ray.origin ray.direction quad * t' +
          quadricC ray.origin quad = 0 →
      t' = (-quadricB ray.origin ray.direction quad - s) / (2 * quadricA ray.direction quad) ∨
      t' = (-quadricB ray.origin ray.direction quad + s) / (2 * quadricA ray.direction quad) := by
    intro s t' hss _ ht'
    have hfac : (2 * quadricA ray.direction quad * t' + quadricB ray.origin ray.direction quad + s)
        * (2 * quadricA ray.direction quad * t' + quadricB ray.origin ray.direction quad - s)
        = 0 := by
      linear_combination (4 * quadricA ray.direction quad) * ht' - hss
    have hne : (2 * quadricA ray.direction quad) ≠ 0 := by positivity
    rcases mul_eq_zero.mp hfac with h | h
    · left
      rw [eq_div_iff hne]
      linear_combination h
    · right
      rw [eq_div_iff hne]
      linear_combination h
  rw [intersectQuadric_of_ne sqrt ray quad hit0 (ne_of_gt ha)] at hhit ⊢
  simp only [] at hhit ⊢
  split_ifs at hhit ⊢ with h1 h2 h3
  · have hd := not_lt.mp h1
    have hr := quadratic_roots (c := quadricC ray.origin quad) (ne_of_gt ha) (hs.mul_self hd)
    refine ⟨_, rfl, not_lt.mp h3, hr.2, ?_⟩
    intro t' hge ht'
    rcases hroot _ t' (hs.mul_self hd) (hs.nonneg hd) ht' with h | h
    · rw [← h] at h2; linarith
    · exact le_of_eq h.symm
  · have hd := not_lt.mp h1
    have hr := quadratic_roots (c := quadricC ray.origin quad) (ne_of_gt ha) (hs.mul_self hd)
    refine ⟨_, rfl, not_lt.mp h2, hr.1, ?_⟩
    intro t' hge ht'
    rcases hroot _ t' (hs.mul_self hd) (hs.nonneg hd) ht' with h | h
    · exact le_of_eq h.symm
    · rw [h]
      apply div_le_div_of_nonneg_right _ (by linarith)
      linarith [hs.nonneg hd]

/-! ## Claims -/

/-- C1: for every sphere and every ray with non-zero direction, intersectSphere
reports no hit when the discriminant b * b - 4 * a * c is negative; otherwise t1
and t2 are the roots of a t^2 + b t + c with t1 <= t2, and it reports t1 when
t1 >= 0.001, else t2 when t2 >= 0.001, else no hit; on a hit the record holds
point = ray.at(t) and normal = normalize(point - center). -/
theorem intersectSphere_spec (sqrt : K → K) (hs : IsSqrt sqrt) (ray : Ray K)
    (sphere : Object K) (hit0 : HitInfo K) (hd : ray.direction ≠ ⟨0, 0, 0⟩) :
    let oc := ray.origin.sub sphere.center
    let a := ray.direction.dot ray.direction
    let b := 2 * oc.dot ray.direction
    let c := oc.dot oc - sphere.radius * sphere.radius
    let t1 := (-b - sqrt (b * b - 4 * a * c)) / (2 * a)
    let t2 := (-b + sqrt (b * b - 4 * a * c)) / (2 * a)
    let hitAt := fun (t : K) => ({ hit0 with
        hit := true, t := Dbl.fin t, point := ray.at_ t,
        normal := ((ray.at_ t).sub sphere.center).normalize sqrt } : HitInfo K)
    (b * b - 4 * a * c < 0 → intersectSphere sqrt ray sphere hit0 = (false, hit0)) ∧
    (0 ≤ b * b - 4 * a * c →
      a * t1 ^ 2 + b * t1 + c = 0 ∧ a * t2 ^ 2 + b * t2 + c = 0 ∧ t1 ≤ t2 ∧
      (1 / 1000 ≤ t1 → intersectSphere sqrt ray sphere hit0 = (true, hitAt t1)) ∧
      (t1 < 1 / 1000 → 1 / 1000 ≤ t2 →
        intersectSphere sqrt ray sphere hit0 = (true, hitAt t2)) ∧
      (t1 < 1 / 1000 → t2 < 1 / 1000 →
        intersectSphere sqrt ray sphere hit0 = (false, hit0))) := by
  intro oc a b c t1 t2 hitAt
  have ha : 0 < a := dot_self_pos _ hd
  refine ⟨fun hneg => ?_, fun hpos => ?_⟩
  · rw [intersectSphere_of_ne sqrt ray sphere hit0 (ne_of_gt ha)]
    simp only []
    rw [if_pos hneg]
  · have hroots := quadratic_roots (c := c) (b := b) (ne_of_gt ha) (hs.mul_self hpos)
    have hle : t1 ≤ t2 := by
      apply div_le_div_of_nonneg_right _ (by linarith)
      linarith [hs.nonneg hpos]
    refine ⟨hroots.1, hroots.2, hle, fun h1 => ?_, fun h1 h2 => ?_, fun h1 h2 => ?_⟩
    · rw [intersectSphere_of_ne sqrt ray sphere hit0 (ne_of_gt ha)]
      simp only []
      rw [if_neg (not_lt.mpr hpos), if_neg (not_lt.mpr h1), if_neg (not_lt.mpr h1)]
    · rw [intersectSphere_of_ne sqrt ray sphere hit0 (ne_of_gt ha)]
      simp only []
      rw [if_neg (not_lt.mpr hpos), if_pos h1, if_neg (not_lt.mpr h2)]
    · rw [intersectSphere_of_ne sqrt ray sphere hit0 (ne_of_gt ha)]
      simp only []
      rw [if_neg (not_lt.mpr hpos), if_pos h1, if_pos h2]

/-- Witness for C1: the hypotheses hold for the downward ray and the unit sphere at (0,0,-5), where the near root 4 is reported. -/
theorem intersectSphere_spec_witness :
    IsSqrt Real.sqrt ∧ (⟨0, 0, -1⟩ : Vec3 ℝ) ≠ ⟨0, 0, 0⟩ ∧
    intersectSphere Real.sqrt ⟨⟨0, 0, 0⟩, ⟨0, 0, -1⟩⟩ (sphereObject ⟨0, 0, -5⟩ 1) HitInfo.ctor =
      (true, ⟨true, Dbl.fin 4, ⟨0, 0, -4⟩, ⟨0, 0, 1⟩, -1⟩) := by
  have hne : (⟨0, 0, -1⟩ : Vec3 ℝ) ≠ ⟨0, 0, 0⟩ := by
    intro h
    have hz := congrArg Vec3.z h
    norm_num at hz
  have h4 : Real.sqrt 4 = 2 := isSqrt_real.sqrt_eq (by norm_num) (by norm_num)
  have h1 : Real.sqrt 1 = 1 := isSqrt_real.sqrt_eq (by norm_num) (by norm_num)
  have h := intersectSphere_spec Real.sqrt isSqrt_real ⟨⟨0, 0, 0⟩, ⟨0, 0, -1⟩⟩
    (sphereObject ⟨0, 0, -5⟩ 1) HitInfo.ctor hne
  simp only [sphereObject, Object.center, Object.radius, Vec3.sub, Vec3.dot] at h
  refine ⟨isSqrt_real, hne, ?_⟩
  have h2 := (h.2 (by norm_num)).2.2.2.1 (by norm_num [h4])
  simp only [sphereObject]
  rw [h2]
  simp only [HitInfo.ctor, Ray.at_, Vec3.add, Vec3.scale, Vec3.sub, Vec3.normalize, Vec3.length]
  norm_num [h4, h1]

/-- C2: the ray built from origin (0,0,0) and direction (0,0,-1) against a
sphere of centre (0,0,-5) and radius 1 gives hit = true, t = 4, point =
(0,0,-4), normal = (0,0,1), from intersectSphere and from findClosestHit on a
scene holding only that sphere (where objectIdx is 0). -/
theorem endToEnd_hit (sqrt : K → K) (hs : IsSqrt sqrt)
    (sort : List (CSGIntersection K) → List (CSGIntersection K))
    (sphere : Object K) (hty : sphere.type = .SPHERE)
    (hc : sphere.center = ⟨0, 0, -5⟩) (hr : sphere.radius = 1)
    (scene : Scene K) (hsc : scene.objects = [sphere]) (hit0 : HitInfo K) :
    intersectSphere sqrt (Ray.ctor sqrt ⟨0, 0, 0⟩ ⟨0, 0, -1⟩) sphere hit0 =
      (true, { hit0 with hit := true, t := Dbl.fin 4, point := ⟨0, 0, -4⟩, normal := ⟨0, 0, 1⟩ }) ∧
    findClosestHit sqrt sort (Ray.ctor sqrt ⟨0, 0, 0⟩ ⟨0, 0, -1⟩) scene =
      ⟨true, Dbl.fin 4, ⟨0, 0, -4⟩, ⟨0, 0, 1⟩, 0⟩ := by
  have h4 : sqrt (4 : K) = 2 := hs.sqrt_eq (by norm_num) (by norm_num)
  have h1 : sqrt (1 : K) = 1 := hs.sqrt_eq (by norm_num) (by norm_num)
  have hS : ∀ h : HitInfo K, intersectSphere sqrt (⟨⟨0, 0, 0⟩, ⟨0, 0, -1⟩⟩ : Ray K) sphere h =
      (true, { h with hit := true, t := Dbl.fin 4, point := ⟨0, 0, -4⟩, normal := ⟨0, 0, 1⟩ }) := by
    intro h
    simp only [intersectSphere, hc, hr, Vec3.sub, Vec3.dot, Ray.at_, Vec3.add, Vec3.scale,
      Vec3.normalize, Vec3.length, Dbl.div]
    norm_num [h4, h1, Dbl.fin_lt_fin]
  rw [ray_ctor_down sqrt hs]
  refine ⟨hS hit0, ?_⟩
  simp only [findClosestHit, hsc, findClosestHitLoop, hty, hS]
  simp [HitInfo.ctor, Dbl.fin_lt_inf]

/-- Witness for C2: the hypotheses hold over the reals with the real square root. -/
theorem endToEnd_hit_witness :
    IsSqrt Real.sqrt ∧
    (sphereObject (⟨0, 0, -5⟩ : Vec3 ℝ) 1).type = .SPHERE ∧
    (sphereObject (⟨0, 0, -5⟩ : Vec3 ℝ) 1).center = ⟨0, 0, -5⟩ ∧
    (sphereObject (⟨0, 0, -5⟩ : Vec3 ℝ) 1).radius = 1 ∧
    (sceneOf [sphereObject (⟨0, 0, -5⟩ : Vec3 ℝ) 1]).objects = [sphereObject ⟨0, 0, -5⟩ 1] ∧
    findClosestHit Real.sqrt insertionSortByT (Ray.ctor Real.sqrt ⟨0, 0, 0⟩ ⟨0, 0, -1⟩)
      (sceneOf [sphereObject (⟨0, 0, -5⟩ : Vec3 ℝ) 1]) =
      ⟨true, Dbl.fin 4, ⟨0, 0, -4⟩, ⟨0, 0, 1⟩, 0⟩ :=
  ⟨isSqrt_real, rfl, rfl, rfl, rfl,
    (endToEnd_hit Real.sqrt isSqrt_real insertionSortByT (sphereObject ⟨0, 0, -5⟩ 1) rfl rfl rfl
      (sceneOf [sphereObject ⟨0, 0, -5⟩ 1]) rfl HitInfo.ctor).2⟩

/-- C3: the ray built from origin (0,0,0) and direction (0,0,-1) against a
sphere of centre (5,5,5) and radius 1 gives no hit: intersectSphere returns
false and leaves the record alone, and findClosestHit on a scene holding only
that sphere returns hit = false. -/
theorem endToEnd_miss (sqrt : K → K) (hs : IsSqrt sqrt)
    (sort : List (CSGIntersection K) → List (CSGIntersection K))
    (sphere : Object K) (hty : sphere.type = .SPHERE)
    (hc : sphere.center = ⟨5, 5, 5⟩) (hr : sphere.radius = 1)
    (scene : Scene K) (hsc : scene.objects = [sphere]) (hit0 : HitInfo K) :
    intersectSphere sqrt (Ray.ctor sqrt ⟨0, 0, 0⟩ ⟨0, 0, -1⟩) sphere hit0 = (false, hit0) ∧
    (findClosestHit sqrt sort (Ray.ctor sqrt ⟨0, 0, 0⟩ ⟨0, 0, -1⟩) scene).hit = false := by
  have hS : ∀ h : HitInfo K, intersectSphere sqrt (⟨⟨0, 0, 0⟩, ⟨0, 0, -1⟩⟩ : Ray K) sphere h =
      (false, h) := by
    intro h
    simp only [intersectSphere, hc, hr, Vec3.sub, Vec3.dot]
    norm_num
  rw [ray_ctor_down sqrt hs]
  refine ⟨hS hit0, ?_⟩
  simp only [findClosestHit, hsc, findClosestHitLoop, hty, hS]
  simp [HitInfo.ctor]

/-- Witness for C3: the hypotheses hold over the reals with the real square root. -/
theorem endToEnd_miss_witness :
    IsSqrt Real.sqrt ∧
    (sphereObject (⟨5, 5, 5⟩ : Vec3 ℝ) 1).type = .SPHERE ∧
    (sphereObject (⟨5, 5, 5⟩ : Vec3 ℝ) 1).center = ⟨5, 5, 5⟩ ∧
    (sphereObject (⟨5, 5, 5⟩ : Vec3 ℝ) 1).radius = 1 ∧
    (sceneOf [sphereObject (⟨5, 5, 5⟩ : Vec3 ℝ) 1]).objects = [sphereObject ⟨5, 5, 5⟩ 1] ∧
    (findClosestHit Real.sqrt insertionSortByT (Ray.ctor Real.sqrt ⟨0, 0, 0⟩ ⟨0, 0, -1⟩)
      (sceneOf [sphereObject (⟨5, 5, 5⟩ : Vec3 ℝ) 1])).hit = false :=
  ⟨isSqrt_real, rfl, rfl, rfl, rfl,
    (endToEnd_miss Real.sqrt isSqrt_real insertionSortByT (sphereObject ⟨5, 5, 5⟩ 1) rfl rfl rfl
      (sceneOf [sphereObject ⟨5, 5, 5⟩ 1]) rfl HitInfo.ctor).2⟩

/-- C4: for a sphere of radius r > 0 and a ray of unit direction whose origin
lies d along the direction before the centre (centre = origin + d * direction),
getAllIntersections yields the crossings t = d - r and t = d + r in that order,
and intersectSphere reports t = d - r whenever d - r >= 0.001.  The sign of d
plays no part. -/
theorem sphere_on_axis (sqrt : K → K) (hs : IsSqrt sqrt)
    (sort : List (CSGIntersection K) → List (CSGIntersection K))
    (ray : Ray K) (sphere : Object K) (hit0 : HitInfo K) (d : K)
    (hty : sphere.type = .SPHERE) (hr : 0 < sphere.radius)
    (hunit : ray.direction.dot ray.direction = 1)
    (hcentre : sphere.center = ray.origin.add (ray.direction.scale d)) :
    (getAllIntersections sqrt sort ray sphere).map (fun h => h.t) =
      [Dbl.fin (d - sphere.radius), Dbl.fin (d + sphere.radius)] ∧
    (1 / 1000 ≤ d - sphere.radius →
      (intersectSphere sqrt ray sphere hit0).1 = true ∧
      (intersectSphere sqrt ray sphere hit0).2.hit = true ∧
      (intersectSphere sqrt ray sphere hit0).2.t = Dbl.fin (d - sphere.radius)) := by
  rcases sphere with ⟨ty, pi, fi, c, r, fs, A, B, C, D, E, F, G, H, I, J, ch, ops⟩
  simp only [Object.type, Object.radius, Object.center] at hty hr hcentre ⊢
  subst hty
  rcases ray with ⟨⟨ox, oy, oz⟩, ⟨ux, uy, uz⟩⟩
  simp only [Vec3.dot, Vec3.add, Vec3.scale] at hunit hcentre
  subst hcentre
  have hoc : (ox - (ox + ux * d)) * ux + (oy - (oy + uy * d)) * uy + (oz - (oz + uz * d)) * uz
      = -d := by
    linear_combination (-d) * hunit
  have hcc : (ox - (ox + ux * d)) * (ox - (ox + ux * d)) + (oy - (oy + uy * d)) * (oy - (oy + uy * d))
      + (oz - (oz + uz * d)) * (oz - (oz + uz * d)) = d * d := by
    linear_combination (d * d) * hunit
  have hdisc : 2 * -d * (2 * -d) - 4 * 1 * (d * d - r * r) = (2 * r) * (2 * r) := by ring
  have hsq : sqrt (2 * -d * (2 * -d) - 4 * 1 * (d * d - r * r)) = 2 * r :=
    hs.sqrt_eq (by linarith) hdisc
  have hnn : (0:K) ≤ 2 * -d * (2 * -d) - 4 * 1 * (d * d - r * r) := by
    rw [hdisc]; nlinarith
  have e1 : (-(2 * -d) - 2 * r) / (2 * 1) = d - r := by ring
  have e2 : (-(2 * -d) + 2 * r) / (2 * 1) = d + r := by ring
  have h21 : (2 : K) * 1 ≠ 0 := by norm_num
  constructor
  · simp only [getAllIntersections, sphereIntersections, Vec3.sub, Vec3.dot, hoc, hcc, hunit,
      hsq, Dbl.div_of_ne _ h21, e1, e2]
    rw [if_pos (ge_iff_le.mpr hnn)]
    simp
  · intro hge
    simp only [intersectSphere, Object.center, Object.radius, Vec3.sub, Vec3.dot, hoc, hcc,
      hunit, hsq, Dbl.div_of_ne _ h21, e1, e2]
    have hlt : ¬ Dbl.fin (d - r) < Dbl.fin (1 / 1000 : K) := by
      rw [Dbl.fin_lt_fin]; exact not_lt.mpr hge
    rw [if_neg (not_lt.mpr hnn), if_neg hlt, if_neg hlt]
    exact ⟨rfl, rfl, rfl⟩

/-- Witness for C4: the unit sphere at distance 5 straight ahead is crossed at 5 - 1 and 5 + 1. -/
theorem sphere_on_axis_witness :
    IsSqrt Real.sqrt ∧ (0 : ℝ) < (sphereObject (⟨0, 0, -5⟩ : Vec3 ℝ) 1).radius ∧
    (⟨0, 0, -1⟩ : Vec3 ℝ).dot ⟨0, 0, -1⟩ = 1 ∧
    (sphereObject (⟨0, 0, -5⟩ : Vec3 ℝ) 1).center =
      (⟨0, 0, 0⟩ : Vec3 ℝ).add ((⟨0, 0, -1⟩ : Vec3 ℝ).scale 5) ∧
    (getAllIntersections Real.sqrt insertionSortByT ⟨⟨0, 0, 0⟩, ⟨0, 0, -1⟩⟩
      (sphereObject (⟨0, 0, -5⟩ : Vec3 ℝ) 1)).map (fun h => h.t) =
      [Dbl.fin (5 - 1), Dbl.fin (5 + 1)] := by
  have hr : (0 : ℝ) < (sphereObject (⟨0, 0, -5⟩ : Vec3 ℝ) 1).radius := by
    simp [sphereObject, Object.radius]
  have hu : (⟨0, 0, -1⟩ : Vec3 ℝ).dot ⟨0, 0, -1⟩ = 1 := by simp [Vec3.dot]
  have hc : (sphereObject (⟨0, 0, -5⟩ : Vec3 ℝ) 1).center =
      (⟨0, 0, 0⟩ : Vec3 ℝ).add ((⟨0, 0, -1⟩ : Vec3 ℝ).scale 5) := by
    simp [sphereObject, Object.center, Vec3.add, Vec3.scale]
  exact ⟨isSqrt_real, hr, hu, hc,
    (sphere_on_axis Real.sqrt isSqrt_real insertionSortByT ⟨⟨0, 0, 0⟩, ⟨0, 0, -1⟩⟩
      (sphereObject ⟨0, 0, -5⟩ 1) HitInfo.ctor 5 rfl hr hu hc).1⟩

/-- C5: for every r and every ray, intersectQuadric on the quadric A = B = C = 1,
D = .. = I = 0, J = -r*r returns the same flag and the same record (t, point,
normal) as intersectSphere on the sphere of radius r centred at the origin. -/
theorem quadric_sphere_agree (sqrt : K → K) (hs : IsSqrt sqrt) (r : K) (ray : Ray K)
    (quad sphere : Object K) (hit0 : HitInfo K)
    (hA : quad.A = 1) (hB : quad.B = 1) (hC : quad.C = 1)
    (hD : quad.D = 0) (hE : quad.E = 0) (hF : quad.F = 0)
    (hG : quad.G = 0) (hH : quad.H = 0) (hI : quad.I = 0) (hJ : quad.J = -(r * r))
    (hc : sphere.center = ⟨0, 0, 0⟩) (hr : sphere.radius = r) :
    intersectQuadric sqrt ray quad hit0 = intersectSphere sqrt ray sphere hit0 := by
  rcases ray with ⟨⟨ox, oy, oz⟩, ⟨dx, dy, dz⟩⟩
  have ea : quadricA (⟨dx, dy, dz⟩ : Vec3 K) quad = dx * dx + dy * dy + dz * dz := by
    simp only [quadricA, hA, hB, hC, hD, hE, hF]; ring
  have eb : quadricB (⟨ox, oy, oz⟩ : Vec3 K) ⟨dx, dy, dz⟩ quad
      = 2 * ((ox - 0) * dx + (oy - 0) * dy + (oz - 0) * dz) := by
    simp only [quadricB, hA, hB, hC, hD, hE, hF, hG, hH, hI]; ring
  have ec : quadricC (⟨ox, oy, oz⟩ : Vec3 K) quad
      = (ox - 0) * (ox - 0) + (oy - 0) * (oy - 0) + (oz - 0) * (oz - 0) - r * r := by
    simp only [quadricC, hA, hB, hC, hD, hE, hF, hG, hH, hI, hJ]; ring
  have eg : ∀ p : Vec3 K, Vec3.normalize sqrt (quadricGradient quad p)
      = Vec3.normalize sqrt (p.sub ⟨0, 0, 0⟩) := by
    intro p
    rcases p with ⟨px, py, pz⟩
    have : quadricGradient quad (⟨px, py, pz⟩ : Vec3 K) = ⟨2 * px, 2 * py, 2 * pz⟩ := by
      simp only [quadricGradient, hA, hB, hC, hD, hE, hF, hG, hH, hI]
      congr 1 <;> ring
    rw [this, normalize_two_mul sqrt hs]
    simp [Vec3.sub]
  simp only [intersectQuadric, intersectSphere, ea, eb, ec, eg, hc, hr, Vec3.sub, Vec3.dot]

/-- Witness for C5: the sphere of radius 2 at the origin, as a quadric and as a sphere. -/
theorem quadric_sphere_agree_witness :
    IsSqrt Real.sqrt ∧
    intersectQuadric Real.sqrt ⟨⟨0, 0, 5⟩, ⟨0, 0, -1⟩⟩
      (quadricObject 1 1 1 0 0 0 0 0 0 (-(2 * 2))) HitInfo.ctor =
    intersectSphere Real.sqrt ⟨⟨0, 0, 5⟩, ⟨0, 0, -1⟩⟩ (sphereObject ⟨0, 0, 0⟩ 2) HitInfo.ctor :=
  ⟨isSqrt_real,
    quadric_sphere_agree Real.sqrt isSqrt_real 2 ⟨⟨0, 0, 5⟩, ⟨0, 0, -1⟩⟩
      (quadricObject 1 1 1 0 0 0 0 0 0 (-(2 * 2))) (sphereObject ⟨0, 0, 0⟩ 2) HitInfo.ctor
      rfl rfl rfl rfl rfl rfl rfl rfl rfl rfl rfl rfl⟩

/-- The gradient that intersectQuadric normalizes is the gradient of the
implicit function: along every line p + s v the implicit function is its value
at p, plus s times the gradient at p dotted with v, plus s^2 times the
second-degree form of v. -/
theorem quadricImplicit_expansion (quad : Object K) (p v : Vec3 K) (s : K) :
    quadricImplicit quad (p.add (v.scale s)) =
      quadricImplicit quad p + s * (quadricGradient quad p).dot v + s ^ 2 * quadricA v quad := by
  simp only [quadricImplicit, quadricGradient, quadricA, Vec3.add, Vec3.scale, Vec3.dot]
  ring

/-- Only one vector is the first-order coefficient of the implicit function at p. -/
theorem quadricGradient_unique (quad : Object K) (p g : Vec3 K)
    (hg : ∀ (v : Vec3 K) (s : K), quadricImplicit quad (p.add (v.scale s)) =
      quadricImplicit quad p + s * g.dot v + s ^ 2 * quadricA v quad) :
    g = quadricGradient quad p := by
  have key : ∀ v : Vec3 K, g.dot v = (quadricGradient quad p).dot v := by
    intro v
    have h1 := hg v 1
    rw [quadricImplicit_expansion] at h1
    linear_combination -h1
  have hx := key ⟨1, 0, 0⟩
  have hy := key ⟨0, 1, 0⟩
  have hz := key ⟨0, 0, 1⟩
  simp only [Vec3.dot, mul_one, mul_zero, add_zero, zero_add] at hx hy hz
  rcases g with ⟨gx, gy, gz⟩
  rcases hq : quadricGradient quad p with ⟨qx, qy, qz⟩
  rw [hq] at hx hy hz
  simp only at hx hy hz
  rw [hx, hy, hz]

/-- Over the reals the derivative of the implicit function along a line p + s v,
at s = 0, is the dot product of quadricGradient at p with v. -/
theorem quadricGradient_hasDerivAt (quad : Object ℝ) (p v : Vec3 ℝ) :
    HasDerivAt (fun s : ℝ => quadricImplicit quad (p.add (v.scale s)))
      ((quadricGradient quad p).dot v) 0 := by
  have h : (fun s : ℝ => quadricImplicit quad (p.add (v.scale s))) =
      fun s => quadricImplicit quad p + s * (quadricGradient quad p).dot v +
        s ^ 2 * quadricA v quad :=
    funext (quadricImplicit_expansion quad p v)
  rw [h]
  have h1 : HasDerivAt (fun s : ℝ => s * (quadricGradient quad p).dot v)
      ((quadricGradient quad p).dot v) 0 := by
    simpa using (hasDerivAt_id (0 : ℝ)).mul_const ((quadricGradient quad p).dot v)
  have h2 : HasDerivAt (fun s : ℝ => s ^ 2 * quadricA v quad) 0 0 := by
    simpa using ((hasDerivAt_id (0 : ℝ)).pow 2).mul_const (quadricA v quad)
  simpa using (h1.const_add (quadricImplicit quad p)).add h2

/-- C6: for every quadric, ray and t the implicit function at ray.at(t) equals
aq t^2 + bq t + cq with the coefficients of intersectQuadric; and whenever
intersectQuadric reports a hit with aq non-zero, the reported point lies on the
quadric and the reported normal is the normalized gradient of the implicit
function at that point.  The vector quadricGradient that the code normalizes is
that gradient: it is the one vector g for which the implicit function along
every line p + s v is its value at p plus s (g . v) plus the second-degree term
s^2 aq(v). -/
theorem quadric_hit_on_surface (sqrt : K → K) (hs : IsSqrt sqrt) (quad : Object K) (ray : Ray K)
    (hit0 : HitInfo K) (t : K) :
    quadricImplicit quad (ray.at_ t) =
      quadricA ray.direction quad * t ^ 2 + quadricB ray.origin ray.direction quad * t
        + quadricC ray.origin quad ∧
    ((intersectQuadric sqrt ray quad hit0).1 = true → quadricA ray.direction quad ≠ 0 →
      quadricImplicit quad (intersectQuadric sqrt ray quad hit0).2.point = 0 ∧
      (intersectQuadric sqrt ray quad hit0).2.normal =
        (quadricGradient quad (intersectQuadric sqrt ray quad hit0).2.point).normalize sqrt) ∧
    (∀ (p v : Vec3 K) (s : K), quadricImplicit quad (p.add (v.scale s)) =
      quadricImplicit quad p + s * (quadricGradient quad p).dot v + s ^ 2 * quadricA v quad) ∧
    (∀ (p g : Vec3 K),
      (∀ (v : Vec3 K) (s : K), quadricImplicit quad (p.add (v.scale s)) =
        quadricImplicit quad p + s * g.dot v + s ^ 2 * quadricA v quad) →
      g = quadricGradient quad p) := by
  refine ⟨quadric_substitution quad ray t, ?_, quadricImplicit_expansion quad,
    quadricGradient_unique quad⟩
  intro hhit ha
  rw [intersectQuadric_of_ne sqrt ray quad hit0 ha] at hhit ⊢
  simp only [] at hhit ⊢
  split_ifs at hhit ⊢ with h1 h2 h3
  · have hroot := (quadratic_roots (c := quadricC ray.origin quad) ha
      (hs.mul_self (not_lt.mp h1))).2
    exact ⟨by rw [quadric_substitution]; exact hroot, rfl⟩
  · have hroot := (quadratic_roots (c := quadricC ray.origin quad) ha
      (hs.mul_self (not_lt.mp h1))).1
    exact ⟨by rw [quadric_substitution]; exact hroot, rfl⟩

/-- Witness for C6: the sphere of radius 2 as a quadric, met by a ray from (0,0,5). -/
theorem quadric_hit_on_surface_witness :
    IsSqrt Real.sqrt ∧
    quadricImplicit (quadricObject 1 1 1 0 0 0 0 0 0 (-4))
      ((⟨⟨0, 0, 5⟩, ⟨0, 0, -1⟩⟩ : Ray ℝ).at_ 3) = 0 ∧
    (intersectQuadric Real.sqrt ⟨⟨0, 0, 5⟩, ⟨0, 0, -1⟩⟩
      (quadricObject 1 1 1 0 0 0 0 0 0 (-4)) HitInfo.ctor).1 = true ∧
    quadricA (⟨0, 0, -1⟩ : Vec3 ℝ) (quadricObject 1 1 1 0 0 0 0 0 0 (-4)) ≠ 0 ∧
    quadricImplicit (quadricObject 1 1 1 0 0 0 0 0 0 (-4))
      (intersectQuadric Real.sqrt ⟨⟨0, 0, 5⟩, ⟨0, 0, -1⟩⟩
        (quadricObject 1 1 1 0 0 0 0 0 0 (-4)) HitInfo.ctor).2.point = 0 := by
  have h16 : Real.sqrt 16 = 4 := isSqrt_real.sqrt_eq (by norm_num) (by norm_num)
  have h := quadric_hit_on_surface Real.sqrt isSqrt_real (quadricObject 1 1 1 0 0 0 0 0 0 (-4))
    ⟨⟨0, 0, 5⟩, ⟨0, 0, -1⟩⟩ HitInfo.ctor 3
  have hhit : (intersectQuadric Real.sqrt ⟨⟨0, 0, 5⟩, ⟨0, 0, -1⟩⟩
      (quadricObject 1 1 1 0 0 0 0 0 0 (-4)) HitInfo.ctor).1 = true := by
    simp only [intersectQuadric, quadricObject, quadricA, quadricB, quadricC,
      Object.A, Object.B, Object.C, Object.D, Object.E, Object.F, Object.G, Object.H, Object.I,
      Object.J, Dbl.div]
    norm_num [h16, Dbl.fin_lt_fin]
  have ha : quadricA (⟨0, 0, -1⟩ : Vec3 ℝ) (quadricObject 1 1 1 0 0 0 0 0 0 (-4)) ≠ 0 := by
    simp [quadricA, quadricObject, Object.A, Object.B, Object.C, Object.D, Object.E, Object.F]
  refine ⟨isSqrt_real, ?_, hhit, ha, (h.2.1 hhit ha).1⟩
  rw [h.1]
  simp only [quadricObject, quadricA, quadricB, quadricC,
    Object.A, Object.B, Object.C, Object.D, Object.E, Object.F, Object.G, Object.H, Object.I,
    Object.J]
  norm_num

/-- C7 fails on the code: for the unit sphere written with negated coefficients
(A = B = C = -1, J = 1) and the ray from (0,0,5) along (0,0,-1), aq is negative
and intersectQuadric reports t = 6 although t = 4 is a root and 4 >= 0.001. -/
theorem intersectQuadric_far_root :
    intersectQuadric Real.sqrt (Ray.ctor Real.sqrt ⟨0, 0, 5⟩ ⟨0, 0, -1⟩)
      (quadricObject (-1) (-1) (-1) 0 0 0 0 0 0 1) HitInfo.ctor =
      (true, ⟨true, Dbl.fin 6, ⟨0, 0, -1⟩, ⟨0, 0, 1⟩, -1⟩) ∧
    quadricA (⟨0, 0, -1⟩ : Vec3 ℝ) (quadricObject (-1) (-1) (-1) 0 0 0 0 0 0 1) * 4 ^ 2 +
      quadricB (⟨0, 0, 5⟩ : Vec3 ℝ) ⟨0, 0, -1⟩ (quadricObject (-1) (-1) (-1) 0 0 0 0 0 0 1) * 4 +
      quadricC (⟨0, 0, 5⟩ : Vec3 ℝ) (quadricObject (-1) (-1) (-1) 0 0 0 0 0 0 1) = 0 ∧
    (1 / 1000 : ℝ) ≤ 4 ∧ (4 : ℝ) < 6 := by
  have h4 : Real.sqrt 4 = 2 := isSqrt_real.sqrt_eq (by norm_num) (by norm_num)
  rw [ray_ctor_down Real.sqrt isSqrt_real]
  refine ⟨?_, ?_, by norm_num, by norm_num⟩
  · simp only [intersectQuadric, quadricObject, quadricA, quadricB, quadricC, quadricGradient,
      Object.A, Object.B, Object.C, Object.D, Object.E, Object.F, Object.G, Object.H, Object.I,
      Object.J, Ray.at_, Vec3.add, Vec3.scale, Vec3.normalize, Vec3.length, HitInfo.ctor, Dbl.div]
    norm_num [h4, Dbl.fin_lt_fin]
  · simp only [quadricObject, quadricA, quadricB, quadricC,
      Object.A, Object.B, Object.C, Object.D, Object.E, Object.F, Object.G, Object.H, Object.I,
      Object.J]
    norm_num

/-- The crossings the QUADRIC branch pushes for the plane z = -J written as a
quadric (I = 1, the other coefficients 0), against the ray from (0,0,-5) along
(0,0,1): aq = 0 and bq = 1, so the two quotients by 2 aq are -2 / 0 and 0 / 0,
minus infinity and NaN. -/
theorem getAllIntersections_plane_quadric
    (sort : List (CSGIntersection ℝ) → List (CSGIntersection ℝ)) (J : ℝ) :
    getAllIntersections Real.sqrt sort ⟨⟨0, 0, -5⟩, ⟨0, 0, 1⟩⟩
      (quadricObject 0 0 0 0 0 0 0 0 1 J) =
      [⟨Dbl.ninf, ⟨0, 0, 0⟩, -1⟩, ⟨Dbl.nan, ⟨0, 0, 0⟩, -1⟩] := by
  have h1 : Real.sqrt 1 = 1 := isSqrt_real.sqrt_eq (by norm_num) (by norm_num)
  simp only [quadricObject, getAllIntersections, quadricIntersections, quadricA, quadricB,
    quadricC, Object.A, Object.B, Object.C, Object.D, Object.E, Object.F, Object.G, Object.H,
    Object.I, Object.J, Dbl.div, crossingNormal]
  norm_num [h1]

/-- The four crossings of the two planes have keys that operator< does not tell
apart (each pair holds a NaN or two equal keys); the sort leaves them as pushed. -/
theorem insertionSortByLess_plane_quadrics :
    insertionSortByLess
      [(⟨Dbl.ninf, ⟨0, 0, 0⟩, 0⟩ : CSGIntersection ℝ), ⟨Dbl.nan, ⟨0, 0, 0⟩, 0⟩,
        ⟨Dbl.ninf, ⟨0, 0, 0⟩, 1⟩, ⟨Dbl.nan, ⟨0, 0, 0⟩, 1⟩] =
      [⟨Dbl.ninf, ⟨0, 0, 0⟩, 0⟩, ⟨Dbl.nan, ⟨0, 0, 0⟩, 0⟩,
        ⟨Dbl.ninf, ⟨0, 0, 0⟩, 1⟩, ⟨Dbl.nan, ⟨0, 0, 0⟩, 1⟩] := by
  simp [insertionSortByLess, List.insertionSort, List.orderedInsert, CSGIntersection.less]

/-- C8 fails on the code: for the CSG node of the Union plane z = 0 and the
Difference plane z = -1, each written as a quadric (I = 1; J = 0 and J = 1), and
the ray from (0,0,-5) along (0,0,1), aq is 0 for both children, each child pushes
the crossings minus infinity and NaN, std::sort leaves the four keys as pushed
and the node reports the crossings minus infinity and NaN.  Below t = 5, which
is the t of no child crossing, the node has one crossing, an odd number,
although the Difference child also has an odd number of crossings below 5: the
membership rule does not hold there. -/
theorem csgSweep_nan_crossings :
    (getAllIntersections Real.sqrt insertionSortByLess ⟨⟨0, 0, -5⟩, ⟨0, 0, 1⟩⟩
      (quadricObject 0 0 0 0 0 0 0 0 1 0)).map (fun h => h.t) = [Dbl.ninf, Dbl.nan] ∧
    (getAllIntersections Real.sqrt insertionSortByLess ⟨⟨0, 0, -5⟩, ⟨0, 0, 1⟩⟩
      (quadricObject 0 0 0 0 0 0 0 0 1 1)).map (fun h => h.t) = [Dbl.ninf, Dbl.nan] ∧
    (getAllIntersections Real.sqrt insertionSortByLess ⟨⟨0, 0, -5⟩, ⟨0, 0, 1⟩⟩
      (csgObject [quadricObject 0 0 0 0 0 0 0 0 1 0, quadricObject 0 0 0 0 0 0 0 0 1 1]
        [.CSG_UNION, .CSG_DIFFERENCE])).map (fun h => h.t) = [Dbl.ninf, Dbl.nan] ∧
    Odd ((getAllIntersections Real.sqrt insertionSortByLess ⟨⟨0, 0, -5⟩, ⟨0, 0, 1⟩⟩
      (csgObject [quadricObject 0 0 0 0 0 0 0 0 1 0, quadricObject 0 0 0 0 0 0 0 0 1 1]
        [.CSG_UNION, .CSG_DIFFERENCE])).countP (fun h => decide (h.t < Dbl.fin 5))) ∧
    Odd ((getAllIntersections Real.sqrt insertionSortByLess ⟨⟨0, 0, -5⟩, ⟨0, 0, 1⟩⟩
      (quadricObject 0 0 0 0 0 0 0 0 1 1)).countP (fun h => decide (h.t < Dbl.fin 5))) ∧
    quadricImplicit (quadricObject 0 0 0 0 0 0 0 0 1 0)
      ((⟨⟨0, 0, -5⟩, ⟨0, 0, 1⟩⟩ : Ray ℝ).at_ 5) = 0 ∧
    ¬ (Odd ((getAllIntersections Real.sqrt insertionSortByLess ⟨⟨0, 0, -5⟩, ⟨0, 0, 1⟩⟩
        (csgObject [quadricObject 0 0 0 0 0 0 0 0 1 0, quadricObject 0 0 0 0 0 0 0 0 1 1]
          [.CSG_UNION, .CSG_DIFFERENCE])).countP (fun h => decide (h.t < Dbl.fin 5))) ↔
      ((∃ (i : Nat) (child : Object ℝ),
          (csgObject [quadricObject 0 0 0 0 0 0 0 0 1 0, quadricObject 0 0 0 0 0 0 0 0 1 1]
            [.CSG_UNION, .CSG_DIFFERENCE]).csgChildren[i]? = some child ∧
          (csgObject [quadricObject (0 : ℝ) 0 0 0 0 0 0 0 1 0, quadricObject 0 0 0 0 0 0 0 0 1 1]
            [.CSG_UNION, .CSG_DIFFERENCE]).csgOperations[i]? = some CSGOperation.CSG_UNION ∧
          Odd ((getAllIntersections Real.sqrt insertionSortByLess ⟨⟨0, 0, -5⟩, ⟨0, 0, 1⟩⟩
            child).countP (fun h => decide (h.t < Dbl.fin 5)))) ∧
       ¬ ∃ (i : Nat) (child : Object ℝ),
          (csgObject [quadricObject 0 0 0 0 0 0 0 0 1 0, quadricObject 0 0 0 0 0 0 0 0 1 1]
            [.CSG_UNION, .CSG_DIFFERENCE]).csgChildren[i]? = some child ∧
          (csgObject [quadricObject (0 : ℝ) 0 0 0 0 0 0 0 1 0, quadricObject 0 0 0 0 0 0 0 0 1 1]
            [.CSG_UNION, .CSG_DIFFERENCE]).csgOperations[i]? =
              some CSGOperation.CSG_DIFFERENCE ∧
          Odd ((getAllIntersections Real.sqrt insertionSortByLess ⟨⟨0, 0, -5⟩, ⟨0, 0, 1⟩⟩
            child).countP (fun h => decide (h.t < Dbl.fin 5))))) := by
  have hA := getAllIntersections_plane_quadric insertionSortByLess 0
  have hB := getAllIntersections_plane_quadric insertionSortByLess 1
  have hi1 : csgIsInside 2 [.CSG_UNION, .CSG_DIFFERENCE] [true, false] = true := by decide
  have hi2 : csgIsInside 2 [.CSG_UNION, .CSG_DIFFERENCE] [true, true] = false := by decide
  have hi3 : csgIsInside 2 [.CSG_UNION, .CSG_DIFFERENCE] [false, true] = false := by decide
  have hi4 : csgIsInside 2 [.CSG_UNION, .CSG_DIFFERENCE] [false, false] = false := by decide
  have hnode : getAllIntersections Real.sqrt insertionSortByLess ⟨⟨0, 0, -5⟩, ⟨0, 0, 1⟩⟩
      (csgObject [quadricObject 0 0 0 0 0 0 0 0 1 0, quadricObject 0 0 0 0 0 0 0 0 1 1]
        [.CSG_UNION, .CSG_DIFFERENCE]) =
      [⟨Dbl.ninf, ⟨0, 0, 0⟩, 0⟩, ⟨Dbl.nan, ⟨0, 0, 0⟩, 0⟩] := by
    rw [getAllIntersections_csg Real.sqrt insertionSortByLess _
      (csgObject [quadricObject 0 0 0 0 0 0 0 0 1 0, quadricObject 0 0 0 0 0 0 0 0 1 1]
        [.CSG_UNION, .CSG_DIFFERENCE]) rfl]
    simp only [csgObject, Object.csgChildren, Object.csgOperations, getAllChildHits]
    rw [hA, hB]
    simp only [List.map, List.append_nil, List.cons_append, List.nil_append, List.length_cons,
      List.length_nil, Nat.cast_zero, Nat.cast_one, zero_add, CharP.cast_eq_zero]
    rw [insertionSortByLess_plane_quadrics]
    simp [csgSweep, csgToggle, hi1, hi2, hi3, hi4]
  have hoddN : Odd ((getAllIntersections Real.sqrt insertionSortByLess
      ⟨⟨0, 0, -5⟩, ⟨0, 0, 1⟩⟩
      (csgObject [quadricObject 0 0 0 0 0 0 0 0 1 0, quadricObject 0 0 0 0 0 0 0 0 1 1]
        [.CSG_UNION, .CSG_DIFFERENCE])).countP (fun h => decide (h.t < Dbl.fin 5))) := by
    rw [hnode]
    simp [List.countP_cons, Dbl.ninf_lt_fin, Dbl.not_nan_lt]
  have hoddB : Odd ((getAllIntersections Real.sqrt insertionSortByLess
      ⟨⟨0, 0, -5⟩, ⟨0, 0, 1⟩⟩
      (quadricObject 0 0 0 0 0 0 0 0 1 1)).countP (fun h => decide (h.t < Dbl.fin 5))) := by
    rw [hB]
    simp [List.countP_cons, Dbl.ninf_lt_fin, Dbl.not_nan_lt]
  refine ⟨by rw [hA]; rfl, by rw [hB]; rfl, by rw [hnode]; rfl, hoddN, hoddB, ?_, ?_⟩
  · simp [quadricImplicit, quadricObject, Object.A, Object.B, Object.C, Object.D, Object.E,
      Object.F, Object.G, Object.H, Object.I, Object.J, Ray.at_, Vec3.add, Vec3.scale]
  · intro hiff
    exact (hiff.mp hoddN).2 ⟨1, quadricObject 0 0 0 0 0 0 0 0 1 1, rfl, rfl, hoddB⟩

/-- C9 fails as stated: with a sort that keeps crossings of equal t in the order
pushed, the ray from (0,0,0) along (0,0,-1) against A minus B, both of radius 2
and centre (0,0,-5), is reported to hit at t = 3. -/
theorem csg_self_difference_hit :
    intersectCSG Real.sqrt insertionSortByT (Ray.ctor Real.sqrt ⟨0, 0, 0⟩ ⟨0, 0, -1⟩)
      (csgObject [sphereObject ⟨0, 0, -5⟩ 2, sphereObject ⟨0, 0, -5⟩ 2]
        [.CSG_UNION, .CSG_DIFFERENCE]) HitInfo.ctor =
      (true, ⟨true, Dbl.fin 3, ⟨0, 0, -3⟩, ⟨0, 0, 1⟩, -1⟩) := by
  have h16 : Real.sqrt 16 = 4 := isSqrt_real.sqrt_eq (by norm_num) (by norm_num)
  have h4 : Real.sqrt 4 = 2 := isSqrt_real.sqrt_eq (by norm_num) (by norm_num)
  have hA : getAllIntersections Real.sqrt insertionSortByT (⟨⟨0, 0, 0⟩, ⟨0, 0, -1⟩⟩ : Ray ℝ)
      (sphereObject ⟨0, 0, -5⟩ 2) =
      [⟨Dbl.fin 3, ⟨0, 0, 1⟩, -1⟩, ⟨Dbl.fin 7, ⟨0, 0, -1⟩, -1⟩] := by
    simp only [sphereObject, getAllIntersections, sphereIntersections, Vec3.sub, Vec3.dot,
      Ray.at_, Vec3.add, Vec3.scale, Vec3.normalize, Vec3.length, Dbl.div, crossingNormal]
    norm_num [h16, h4]
  have hsorted : insertionSortByT
      [(⟨Dbl.fin 3, ⟨0, 0, 1⟩, 0⟩ : CSGIntersection ℝ), ⟨Dbl.fin 7, ⟨0, 0, -1⟩, 0⟩,
        ⟨Dbl.fin 3, ⟨0, 0, 1⟩, 1⟩, ⟨Dbl.fin 7, ⟨0, 0, -1⟩, 1⟩] =
      [⟨Dbl.fin 3, ⟨0, 0, 1⟩, 0⟩, ⟨Dbl.fin 3, ⟨0, 0, 1⟩, 1⟩,
        ⟨Dbl.fin 7, ⟨0, 0, -1⟩, 0⟩, ⟨Dbl.fin 7, ⟨0, 0, -1⟩, 1⟩] := by
    norm_num [insertionSortByT, List.insertionSort, List.orderedInsert, Dbl.fin_le_fin]
  have hi1 : csgIsInside 2 [.CSG_UNION, .CSG_DIFFERENCE] [true, false] = true := by decide
  have hi2 : csgIsInside 2 [.CSG_UNION, .CSG_DIFFERENCE] [true, true] = false := by decide
  have hi3 : csgIsInside 2 [.CSG_UNION, .CSG_DIFFERENCE] [false, true] = false := by decide
  have hi4 : csgIsInside 2 [.CSG_UNION, .CSG_DIFFERENCE] [false, false] = false := by decide
  rw [ray_ctor_down Real.sqrt isSqrt_real]
  simp only [intersectCSG]
  rw [getAllIntersections_csg Real.sqrt insertionSortByT _
    (csgObject [sphereObject ⟨0, 0, -5⟩ 2, sphereObject ⟨0, 0, -5⟩ 2]
      [.CSG_UNION, .CSG_DIFFERENCE]) rfl]
  simp only [csgObject, Object.csgChildren, Object.csgOperations, getAllChildHits]
  rw [hA]
  simp only [List.map, List.append_nil, List.cons_append, List.nil_append, List.length_cons,
    List.length_nil, Nat.cast_zero, Nat.cast_one, zero_add, CharP.cast_eq_zero]
  rw [hsorted]
  simp [csgSweep, csgToggle, hi1, hi2, hi3, hi4, intersectCSGLoop, Dbl.fin_lt_fin,
    Dbl.fin_lt_inf, HitInfo.ctor, Ray.at_, Vec3.add, Vec3.scale]
  norm_num

/-- C9, as amended: for the CSG node of a Union sphere A of radius 2 and a
concentric Difference sphere B of radius 2, under every std::sort, intersectCSG
reports no hit for a ray whose discriminant against the sphere is negative; a
hit it reports is at a finite t above 0.001 that is one of the two crossings t1,
t2 of the sphere (so none is reported when both are at most 0.001); every
crossing the node reports lies at t1 or t2; and the crossings the node reports
enclose no interval: an even number of them lies below every t.  Here t1 and t2
are the quotients the code computes, NaN for a ray of zero direction. -/
theorem csg_self_difference (sqrt : K → K)
    (sort : List (CSGIntersection K) → List (CSGIntersection K)) (hsort : IsStdSort sort)
    (ray : Ray K) (node sphereA sphereB : Object K) (hit0 : HitInfo K)
    (hty : node.type = .CSG) (hch : node.csgChildren = [sphereA, sphereB])
    (hops : node.csgOperations = [.CSG_UNION, .CSG_DIFFERENCE])
    (hA : sphereA.type = .SPHERE) (hB : sphereB.type = .SPHERE)
    (hrA : sphereA.radius = 2) (hrB : sphereB.radius = 2)
    (hc : sphereB.center = sphereA.center) :
    let a := ray.direction.dot ray.direction
    let b := 2 * (ray.origin.sub sphereA.center).dot ray.direction
    let disc := sphereDiscriminant ray sphereA.center 2
    let t1 := Dbl.div (-b - sqrt disc) (2 * a)
    let t2 := Dbl.div (-b + sqrt disc) (2 * a)
    (disc < 0 → intersectCSG sqrt sort ray node hit0 = (false, hit0)) ∧
    ((intersectCSG sqrt sort ray node hit0).1 = true →
      ∃ x : K, (intersectCSG sqrt sort ray node hit0).2.t = Dbl.fin x ∧ 1 / 1000 < x ∧
        (Dbl.fin x = t1 ∨ Dbl.fin x = t2)) ∧
    (∀ h ∈ getAllIntersections sqrt sort ray node, 0 ≤ disc ∧ (h.t = t1 ∨ h.t = t2)) ∧
    (∀ t : Dbl K,
      Even ((getAllIntersections sqrt sort ray node).countP (fun h => decide (h.t < t)))) := by
  intro a b disc t1 t2
  have hAB : getAllIntersections sqrt sort ray sphereB = getAllIntersections sqrt sort ray sphereA := by
    rw [getAllIntersections_sphere _ _ _ _ hA, getAllIntersections_sphere _ _ _ _ hB, hc, hrA, hrB]
  have hAt : ∀ h ∈ getAllIntersections sqrt sort ray sphereA,
      0 ≤ disc ∧ (h.t = t1 ∨ h.t = t2) := by
    intro h hh
    rw [getAllIntersections_sphere _ _ _ _ hA, hrA] at hh
    simp only [sphereIntersections] at hh
    split_ifs at hh with hd
    · refine ⟨hd, ?_⟩
      rcases List.mem_cons.mp hh with rfl | hh
      · left; rfl
      · rcases List.mem_cons.mp hh with rfl | hh
        · right; rfl
        · simp at hh
    · simp at hh
  have hnode : ∀ h ∈ getAllIntersections sqrt sort ray node,
      0 ≤ disc ∧ (h.t = t1 ∨ h.t = t2) := by
    intro h hh
    obtain ⟨child, hcm, h', hh', ht⟩ := getAllIntersections_csg_t_mem sqrt sort hsort ray node hty h hh
    rw [hch] at hcm
    rw [ht]
    rcases List.mem_cons.mp hcm with rfl | hcm
    · exact hAt h' hh'
    · rcases List.mem_cons.mp hcm with rfl | hcm
      · rw [hAB] at hh'; exact hAt h' hh'
      · simp at hcm
  have hscan := intersectCSGLoop_spec ray (getAllIntersections sqrt sort ray node)
    ⟨Dbl.inf, false, hit0⟩
  refine ⟨fun hneg => ?_, fun hfound => ?_, hnode, fun t => ?_⟩
  · simp only [intersectCSG]
    rcases hscan with h1 | ⟨-, h, hh, -⟩
    · rw [h1]
    · exact absurd (hnode h hh).1 (not_le.mpr hneg)
  · simp only [intersectCSG] at hfound ⊢
    rcases hscan with h1 | ⟨-, h, hh, x, hx, hgt, hres⟩
    · rw [h1] at hfound; simp at hfound
    · rw [hres]
      refine ⟨x, rfl, hgt, ?_⟩
      rw [← hx]
      exact (hnode h hh).2
  · rw [← Nat.not_odd_iff_even, getAllIntersections_csg_parity sqrt sort hsort ray node hty t]
    rintro ⟨⟨i, child, hi, hop, hodd⟩, hno⟩
    apply hno
    rw [hch, hops] at *
    rcases i with _ | _ | i
    · refine ⟨1, sphereB, rfl, rfl, ?_⟩
      simp only [List.getElem?_cons_zero, Option.some.injEq] at hi
      rw [hAB, hi]
      exact hodd
    · simp at hop
    · simp at hop

/-- Witness for C9: the hypotheses hold for two spheres of radius 2 at (0,0,-5). -/
theorem csg_self_difference_witness :
    IsStdSort (insertionSortByT (K := ℝ)) ∧
    (sphereObject (⟨0, 0, -5⟩ : Vec3 ℝ) 2).radius = 2 ∧
    Even ((getAllIntersections Real.sqrt insertionSortByT ⟨⟨0, 0, 0⟩, ⟨0, 0, -1⟩⟩
      (csgObject [sphereObject (⟨0, 0, -5⟩ : Vec3 ℝ) 2, sphereObject ⟨0, 0, -5⟩ 2]
        [.CSG_UNION, .CSG_DIFFERENCE])).countP (fun h => decide (h.t < Dbl.fin 5))) :=
  ⟨isStdSort_insertionSortByT, rfl,
    (csg_self_difference Real.sqrt insertionSortByT isStdSort_insertionSortByT
      ⟨⟨0, 0, 0⟩, ⟨0, 0, -1⟩⟩
      (csgObject [sphereObject ⟨0, 0, -5⟩ 2, sphereObject ⟨0, 0, -5⟩ 2]
        [.CSG_UNION, .CSG_DIFFERENCE])
      (sphereObject ⟨0, 0, -5⟩ 2) (sphereObject ⟨0, 0, -5⟩ 2) HitInfo.ctor
      rfl rfl rfl rfl rfl rfl rfl rfl).2.2.2 (Dbl.fin 5)⟩

/-- C10: for a CSG node of two Union spheres and a ray whose discriminant is
non-negative against one and negative against the other, getAllIntersections on
the node yields exactly two crossings, with the t values and normals of the
crossings of the sphere that is met, the near one first. -/
theorem csg_union_single_sphere (sqrt : K → K) (hs : IsSqrt sqrt)
    (sort : List (CSGIntersection K) → List (CSGIntersection K)) (hsort : IsStdSort sort)
    (ray : Ray K) (node s0 s1 : Object K)
    (hty : node.type = .CSG) (hch : node.csgChildren = [s0, s1])
    (hops : node.csgOperations = [.CSG_UNION, .CSG_UNION])
    (h0 : s0.type = .SPHERE) (h1 : s1.type = .SPHERE) :
    (0 ≤ sphereDiscriminant ray s0.center s0.radius →
      sphereDiscriminant ray s1.center s1.radius < 0 →
      (getAllIntersections sqrt sort ray node).length = 2 ∧
      (getAllIntersections sqrt sort ray node).map (fun h => (h.t, h.normal)) =
        (getAllIntersections sqrt sort ray s0).map (fun h => (h.t, h.normal)) ∧
      ∃ t1 t2 : K, t1 ≤ t2 ∧
        (getAllIntersections sqrt sort ray node).map (fun h => h.t) =
          [Dbl.fin t1, Dbl.fin t2]) ∧
    (sphereDiscriminant ray s0.center s0.radius < 0 →
      0 ≤ sphereDiscriminant ray s1.center s1.radius →
      (getAllIntersections sqrt sort ray node).length = 2 ∧
      (getAllIntersections sqrt sort ray node).map (fun h => (h.t, h.normal)) =
        (getAllIntersections sqrt sort ray s1).map (fun h => (h.t, h.normal)) ∧
      ∃ t1 t2 : K, t1 ≤ t2 ∧
        (getAllIntersections sqrt sort ray node).map (fun h => h.t) =
          [Dbl.fin t1, Dbl.fin t2]) := by
  constructor
  · intro hpos hneg
    have hdir : ray.direction.dot ray.direction ≠ 0 := fun h0 =>
      absurd (sphereDiscriminant_of_dir_zero ray s1.center s1.radius h0) (ne_of_lt hneg)
    refine getAllIntersections_union_one sqrt hs sort hsort ray node s0 s1 s0 0 (by norm_num)
      hty hch hops h0 ?_ hpos hdir
    simp only [getAllChildHits]
    rw [getAllIntersections_sphere sqrt sort ray s1 h1, sphereIntersections_of_neg _ _ _ _ hneg]
    simp
  · intro hneg hpos
    have hdir : ray.direction.dot ray.direction ≠ 0 := fun h1 =>
      absurd (sphereDiscriminant_of_dir_zero ray s0.center s0.radius h1) (ne_of_lt hneg)
    refine getAllIntersections_union_one sqrt hs sort hsort ray node s0 s1 s1 1 (by norm_num)
      hty hch hops h1 ?_ hpos hdir
    simp only [getAllChildHits]
    rw [getAllIntersections_sphere sqrt sort ray s0 h0, sphereIntersections_of_neg _ _ _ _ hneg]
    simp

/-- Witness for C10: the downward ray meets the sphere at (0,0,-5) and misses the one at (5,5,5). -/
theorem csg_union_single_sphere_witness :
    IsSqrt Real.sqrt ∧ IsStdSort (insertionSortByT (K := ℝ)) ∧
    (0 : ℝ) ≤ sphereDiscriminant ⟨⟨0, 0, 0⟩, ⟨0, 0, -1⟩⟩ ⟨0, 0, -5⟩ 1 ∧
    sphereDiscriminant (⟨⟨0, 0, 0⟩, ⟨0, 0, -1⟩⟩ : Ray ℝ) ⟨5, 5, 5⟩ 1 < 0 ∧
    (getAllIntersections Real.sqrt insertionSortByT ⟨⟨0, 0, 0⟩, ⟨0, 0, -1⟩⟩
      (csgObject [sphereObject (⟨0, 0, -5⟩ : Vec3 ℝ) 1, sphereObject ⟨5, 5, 5⟩ 1]
        [.CSG_UNION, .CSG_UNION])).length = 2 := by
  have hp : (0 : ℝ) ≤ sphereDiscriminant ⟨⟨0, 0, 0⟩, ⟨0, 0, -1⟩⟩
      (sphereObject (⟨0, 0, -5⟩ : Vec3 ℝ) 1).center (sphereObject (⟨0, 0, -5⟩ : Vec3 ℝ) 1).radius := by
    simp only [sphereDiscriminant, sphereObject, Object.center, Object.radius, Vec3.sub, Vec3.dot]
    norm_num
  have hn : sphereDiscriminant (⟨⟨0, 0, 0⟩, ⟨0, 0, -1⟩⟩ : Ray ℝ)
      (sphereObject (⟨5, 5, 5⟩ : Vec3 ℝ) 1).center (sphereObject (⟨5, 5, 5⟩ : Vec3 ℝ) 1).radius < 0 := by
    simp only [sphereDiscriminant, sphereObject, Object.center, Object.radius, Vec3.sub, Vec3.dot]
    norm_num
  exact ⟨isSqrt_real, isStdSort_insertionSortByT, hp, hn,
    ((csg_union_single_sphere Real.sqrt isSqrt_real insertionSortByT isStdSort_insertionSortByT
      ⟨⟨0, 0, 0⟩, ⟨0, 0, -1⟩⟩
      (csgObject [sphereObject ⟨0, 0, -5⟩ 1, sphereObject ⟨5, 5, 5⟩ 1] [.CSG_UNION, .CSG_UNION])
      (sphereObject ⟨0, 0, -5⟩ 1) (sphereObject ⟨5, 5, 5⟩ 1) rfl rfl rfl rfl rfl).1 hp hn).1⟩

/-! ## Claims C11 to C20 -/

theorem CSGScanResult.skip (ray : Ray K) (h : CSGIntersection K)
    (rest : List (CSGIntersection K)) (s r : CSGScan K)
    (hrest : CSGScanResult ray rest s r)
    (hskip : ∀ x : K, h.t = Dbl.fin x → 1 / 1000 < x → s.closestT ≤ Dbl.fin x) :
    CSGScanResult ray (h :: rest) s r := by
  rcases hrest with ⟨h1, h2⟩ | ⟨l1, h0, l2, t, hl, ht, hgt, hlt, hmin, hfirst, hres⟩
  · left
    refine ⟨h1, ?_⟩
    intro h' hh' x hx hxgt
    rcases List.mem_cons.mp hh' with rfl | hh'
    · exact hskip x hx hxgt
    · exact h2 h' hh' x hx hxgt
  · right
    refine ⟨h :: l1, h0, l2, t, by rw [hl]; rfl, ht, hgt, hlt, ?_, ?_, hres⟩
    · intro h' hh' x hx hxgt
      rcases List.mem_cons.mp hh' with rfl | hh'
      · have := lt_of_lt_of_le hlt (hskip x hx hxgt)
        exact le_of_lt (Dbl.fin_lt_fin.mp this)
      · exact hmin h' hh' x hx hxgt
    · intro h' hh'
      rcases List.mem_cons.mp hh' with rfl | hh'
      · intro hcon
        exact absurd hlt (not_lt.mpr (hskip t hcon hgt))
      · exact hfirst h' hh'

theorem intersectCSGLoop_first_min (ray : Ray K) (hits : List (CSGIntersection K))
    (s : CSGScan K) : CSGScanResult ray hits s (intersectCSGLoop ray hits s) := by
  induction hits generalizing s with
  | nil => left; exact ⟨rfl, by simp⟩
  | cons h rest ih =>
    rcases ht : h.t with _ | x | _ | _
    · have heq : intersectCSGLoop ray (h :: rest) s = intersectCSGLoop ray rest s := by
        simp only [intersectCSGLoop, ht]
      rw [heq]
      exact (ih s).skip ray h rest s _ (fun x hx => by rw [ht] at hx; cases hx)
    · by_cases hc : x > 1 / 1000 ∧ Dbl.fin x < s.closestT
      · have hstep : intersectCSGLoop ray (h :: rest) s = intersectCSGLoop ray rest
            ⟨Dbl.fin x, true,
              { s.hit with t := Dbl.fin x, normal := h.normal, point := ray.at_ x, hit := true }⟩ := by
          simp only [intersectCSGLoop, ht]
          rw [if_pos hc]
        rw [hstep]
        right
        rcases ih ⟨Dbl.fin x, true,
            { s.hit with t := Dbl.fin x, normal := h.normal, point := ray.at_ x, hit := true }⟩
          with ⟨h1, h2⟩ | ⟨l1, h0, l2, t, hl, ht0, hgt, hlt, hmin, hfirst, hres⟩
        · refine ⟨[], h, rest, x, rfl, ht, hc.1, hc.2, ?_, by simp, h1⟩
          intro h' hh' y hy hygt
          rcases List.mem_cons.mp hh' with rfl | hh'
          · rw [ht] at hy; injection hy with hy; exact le_of_eq hy
          · exact Dbl.fin_le_fin.mp (h2 h' hh' y hy hygt)
        · have htx : t < x := Dbl.fin_lt_fin.mp hlt
          refine ⟨h :: l1, h0, l2, t, by rw [hl]; rfl, ht0, hgt, lt_trans hlt hc.2, ?_, ?_,
            hres⟩
          · intro h' hh' y hy hygt
            rcases List.mem_cons.mp hh' with rfl | hh'
            · rw [ht] at hy; injection hy with hy; rw [← hy]; exact le_of_lt htx
            · exact hmin h' hh' y hy hygt
          · intro h' hh'
            rcases List.mem_cons.mp hh' with rfl | hh'
            · rw [ht]; intro hcon; injection hcon with hcon
              exact absurd hcon (ne_of_gt htx)
            · exact hfirst h' hh'
      · have heq : intersectCSGLoop ray (h :: rest) s = intersectCSGLoop ray rest s := by
          simp only [intersectCSGLoop, ht]
          rw [if_neg hc]
        rw [heq]
        refine (ih s).skip ray h rest s _ ?_
        intro y hy hygt
        rw [ht] at hy; injection hy with hy
        subst hy
        exact not_lt.mp (fun hlt => hc ⟨hygt, hlt⟩)
    · have heq : intersectCSGLoop ray (h :: rest) s = intersectCSGLoop ray rest s := by
        simp only [intersectCSGLoop, ht]
      rw [heq]
      exact (ih s).skip ray h rest s _ (fun x hx => by rw [ht] at hx; cases hx)
    · have heq : intersectCSGLoop ray (h :: rest) s = intersectCSGLoop ray rest s := by
        simp only [intersectCSGLoop, ht]
      rw [heq]
      exact (ih s).skip ray h rest s _ (fun x hx => by rw [ht] at hx; cases hx)

/-- C12 fails as stated: for a CSG node whose only child is the half-space
z <= 5 (a polyhedron of one face) and the ray from (0,0,0) along (0,0,-1), the
node reports a crossing at t = +infinity, which is above 0.001, yet intersectCSG
reports no hit. -/
theorem intersectCSG_misses_infinite_crossing :
    (∃ h ∈ getAllIntersections Real.sqrt insertionSortByT
        (⟨⟨0, 0, 0⟩, ⟨0, 0, -1⟩⟩ : Ray ℝ)
        (csgObject [polyhedronObject [⟨0, 0, 1, -5⟩]] [.CSG_UNION]),
      Dbl.fin (1 / 1000) < h.t) ∧
    (intersectCSG Real.sqrt insertionSortByT (⟨⟨0, 0, 0⟩, ⟨0, 0, -1⟩⟩ : Ray ℝ)
      (csgObject [polyhedronObject [⟨0, 0, 1, -5⟩]] [.CSG_UNION]) HitInfo.ctor).1 = false := by
  have h1 : Real.sqrt 1 = 1 := isSqrt_real.sqrt_eq (by norm_num) (by norm_num)
  have h0 : Real.sqrt 0 = 0 := isSqrt_real.sqrt_eq (by norm_num) (by norm_num)
  have hP : getAllIntersections Real.sqrt insertionSortByT (⟨⟨0, 0, 0⟩, ⟨0, 0, -1⟩⟩ : Ray ℝ)
      (polyhedronObject [⟨0, 0, 1, -5⟩]) =
      [⟨Dbl.fin (-5), ⟨0, 0, 1⟩, -1⟩, ⟨Dbl.inf, ⟨0, 0, 0⟩, -1⟩] := by
    simp only [polyhedronObject, getAllIntersections, polyhedronIntersections,
      polyhedronIntersectionsLoop, Plane.normal, Plane.distance, Vec3.dot, Vec3.normalize,
      Vec3.length]
    norm_num [h1, h0, Dbl.ninf_lt_fin, Dbl.fin_le_inf, abs_of_pos]
  have hsorted : insertionSortByT
      [(⟨Dbl.fin (-5), ⟨0, 0, 1⟩, 0⟩ : CSGIntersection ℝ), ⟨Dbl.inf, ⟨0, 0, 0⟩, 0⟩] =
      [⟨Dbl.fin (-5), ⟨0, 0, 1⟩, 0⟩, ⟨Dbl.inf, ⟨0, 0, 0⟩, 0⟩] := by
    simp [insertionSortByT, List.insertionSort, List.orderedInsert, Dbl.fin_le_inf]
  have hi1 : csgIsInside 1 [.CSG_UNION] [true] = true := by decide
  have hi2 : csgIsInside 1 [.CSG_UNION] [false] = false := by decide
  have hN : getAllIntersections Real.sqrt insertionSortByT (⟨⟨0, 0, 0⟩, ⟨0, 0, -1⟩⟩ : Ray ℝ)
      (csgObject [polyhedronObject [⟨0, 0, 1, -5⟩]] [.CSG_UNION]) =
      [⟨Dbl.fin (-5), ⟨0, 0, 1⟩, 0⟩, ⟨Dbl.inf, ⟨0, 0, 0⟩, 0⟩] := by
    rw [getAllIntersections_csg Real.sqrt insertionSortByT _
      (csgObject [polyhedronObject [⟨0, 0, 1, -5⟩]] [.CSG_UNION]) rfl]
    simp only [csgObject, Object.csgChildren, Object.csgOperations, getAllChildHits]
    rw [hP]
    simp only [List.map, List.append_nil, List.cons_append, List.nil_append, List.length_cons,
      List.length_nil, Nat.cast_zero, zero_add, CharP.cast_eq_zero]
    rw [hsorted]
    simp [csgSweep, csgToggle, hi1, hi2]
  refine ⟨⟨⟨Dbl.inf, ⟨0, 0, 0⟩, 0⟩, by rw [hN]; simp, Dbl.fin_lt_inf⟩, ?_⟩
  simp only [intersectCSG]
  rw [hN]
  simp [intersectCSGLoop]
  norm_num

/-- C12, as amended: intersectCSG reports a hit iff some crossing of the list has
a finite t above 0.001; it then returns the least such t, with the normal of the
first crossing of the list at that t and point = ray.at(t), the other fields of
the record untouched; otherwise it returns false and leaves the record alone. -/
theorem intersectCSG_spec (sqrt : K → K)
    (sort : List (CSGIntersection K) → List (CSGIntersection K))
    (ray : Ray K) (csg : Object K) (hit0 : HitInfo K) :
    ((intersectCSG sqrt sort ray csg hit0).1 = true ↔
      ∃ h ∈ getAllIntersections sqrt sort ray csg, ∃ x : K, h.t = Dbl.fin x ∧ 1 / 1000 < x) ∧
    ((intersectCSG sqrt sort ray csg hit0).1 = true →
      ∃ (l1 : List (CSGIntersection K)) (h : CSGIntersection K)
        (l2 : List (CSGIntersection K)) (t : K),
        getAllIntersections sqrt sort ray csg = l1 ++ h :: l2 ∧ h.t = Dbl.fin t ∧
        1 / 1000 < t ∧
        (∀ h' ∈ getAllIntersections sqrt sort ray csg, ∀ x : K, h'.t = Dbl.fin x →
          1 / 1000 < x → t ≤ x) ∧
        (∀ h' ∈ l1, h'.t ≠ Dbl.fin t) ∧
        (intersectCSG sqrt sort ray csg hit0).2 =
          { hit0 with t := Dbl.fin t, normal := h.normal, point := ray.at_ t, hit := true }) ∧
    ((intersectCSG sqrt sort ray csg hit0).1 = false →
      intersectCSG sqrt sort ray csg hit0 = (false, hit0)) := by
  have hscan := intersectCSGLoop_first_min ray (getAllIntersections sqrt sort ray csg)
    ⟨Dbl.inf, false, hit0⟩
  simp only [intersectCSG]
  rcases hscan with ⟨h1, h2⟩ | ⟨l1, h, l2, t, hl, ht, hgt, hlt, hmin, hfirst, hres⟩
  · rw [h1]
    refine ⟨⟨fun hc => by simp at hc, ?_⟩, fun hc => by simp at hc, fun _ => rfl⟩
    rintro ⟨h, hh, x, hx, hxgt⟩
    exact absurd (h2 h hh x hx hxgt) (not_le.mpr Dbl.fin_lt_inf)
  · rw [hres]
    refine ⟨⟨fun _ => ?_, fun _ => rfl⟩, fun _ => ⟨l1, h, l2, t, hl, ht, hgt, hmin, hfirst, rfl⟩,
      fun hc => by simp at hc⟩
    exact ⟨h, by rw [hl]; simp, t, ht, hgt⟩

/-- A hit reported by intersectSphere sets hit = true and a t that is not below
0.001: a finite t of at least 0.001, or a t that is not finite. -/
theorem intersectSphere_hit (sqrt : K → K) (ray : Ray K) (obj : Object K) (hit0 : HitInfo K)
    (h : (intersectSphere sqrt ray obj hit0).1 = true) :
    (intersectSphere sqrt ray obj hit0).2.hit = true ∧
      Dbl.fin (1 / 1000) ≤ (intersectSphere sqrt ray obj hit0).2.t := by
  simp only [intersectSphere] at h ⊢
  split_ifs at h ⊢ with h1 h2 h3
  · split
    · next t heq => exact ⟨rfl, by rw [← heq]; exact not_lt.mp h3⟩
    · exact ⟨rfl, not_lt.mp h3⟩
  · split
    · next t heq => exact ⟨rfl, by rw [← heq]; exact not_lt.mp h2⟩
    · exact ⟨rfl, not_lt.mp h2⟩

/-- A hit reported by intersectQuadric sets hit = true and a t that is not below
0.001: a finite t of at least 0.001, or a t that is not finite. -/
theorem intersectQuadric_hit (sqrt : K → K) (ray : Ray K) (obj : Object K) (hit0 : HitInfo K)
    (h : (intersectQuadric sqrt ray obj hit0).1 = true) :
    (intersectQuadric sqrt ray obj hit0).2.hit = true ∧
      Dbl.fin (1 / 1000) ≤ (intersectQuadric sqrt ray obj hit0).2.t := by
  simp only [intersectQuadric] at h ⊢
  split_ifs at h ⊢ with h1 h2 h3
  · split
    · next t heq => exact ⟨rfl, by rw [← heq]; exact not_lt.mp h3⟩
    · exact ⟨rfl, not_lt.mp h3⟩
  · split
    · next t heq => exact ⟨rfl, by rw [← heq]; exact not_lt.mp h2⟩
    · exact ⟨rfl, not_lt.mp h2⟩

theorem intersectPolyhedron_hit (sqrt : K → K) (ray : Ray K) (obj : Object K)
    (hit0 : HitInfo K) (h : (intersectPolyhedron sqrt ray obj hit0).1 = true) :
    ∃ x : K, (intersectPolyhedron sqrt ray obj hit0).2.t = Dbl.fin x ∧ 1 / 1000 ≤ x ∧
      (intersectPolyhedron sqrt ray obj hit0).2.hit = true := by
  simp only [intersectPolyhedron] at h ⊢
  rcases hloop : intersectPolyhedronLoop ray obj.faces
      ⟨Dbl.ninf, Dbl.inf, ⟨0, 0, 0⟩, ⟨0, 0, 0⟩⟩ with _ | s
  · simp [hloop] at h
  · simp only [hloop] at h ⊢
    generalize (if s.tNear < Dbl.fin (1 / 1000) then
      ({ s with tNear := s.tFar, nearNormal := s.farNormal } : Slab K) else s) = s' at h ⊢
    rcases hN : s'.tNear with _ | x | _ | _
    · simp [hN] at h
    · simp only [hN] at h ⊢
      split_ifs at h ⊢ with h1
      exact ⟨_, rfl, by rw [not_or] at h1; exact not_lt.mp h1.1, rfl⟩
    · simp [hN] at h
    · simp [hN] at h

theorem intersectCSG_hit (sqrt : K → K)
    (sort : List (CSGIntersection K) → List (CSGIntersection K)) (ray : Ray K)
    (obj : Object K) (hit0 : HitInfo K) (h : (intersectCSG sqrt sort ray obj hit0).1 = true) :
    ∃ x : K, (intersectCSG sqrt sort ray obj hit0).2.t = Dbl.fin x ∧ 1 / 1000 ≤ x ∧
      (intersectCSG sqrt sort ray obj hit0).2.hit = true := by
  have hscan := intersectCSGLoop_first_min ray (getAllIntersections sqrt sort ray obj)
    ⟨Dbl.inf, false, hit0⟩
  simp only [intersectCSG] at h ⊢
  rcases hscan with ⟨h1, -⟩ | ⟨l1, h0, l2, t, -, -, hgt, -, -, -, hres⟩
  · rw [h1] at h; simp at h
  · rw [hres]
    exact ⟨t, rfl, le_of_lt hgt, rfl⟩

/-- A solver that reports a hit sets hit = true and a t that is not below 0.001:
a finite t of at least 0.001, or, from intersectSphere and intersectQuadric where
they divide by zero, a t that is not finite. -/
theorem solveObject_hit (sqrt : K → K)
    (sort : List (CSGIntersection K) → List (CSGIntersection K)) (ray : Ray K)
    (obj : Object K) (hit0 : HitInfo K) (h : (solveObject sqrt sort ray obj hit0).1 = true) :
    (solveObject sqrt sort ray obj hit0).2.hit = true ∧
      Dbl.fin (1 / 1000) ≤ (solveObject sqrt sort ray obj hit0).2.t := by
  unfold solveObject at h ⊢
  rcases hty : obj.type with _ | _ | _ | _ <;> simp only [hty] at h ⊢
  · exact intersectSphere_hit sqrt ray obj hit0 h
  · obtain ⟨x, hx, hge, hh⟩ := intersectPolyhedron_hit sqrt ray obj hit0 h
    exact ⟨hh, by rw [hx]; exact Dbl.fin_le_fin.mpr hge⟩
  · exact intersectQuadric_hit sqrt ray obj hit0 h
  · obtain ⟨x, hx, hge, hh⟩ := intersectCSG_hit sqrt sort ray obj hit0 h
    exact ⟨hh, by rw [hx]; exact Dbl.fin_le_fin.mpr hge⟩

/-- A hit that a solver reports at a t below plus infinity has a finite t of at
least 0.001. -/
theorem solveObject_hit_finite (sqrt : K → K)
    (sort : List (CSGIntersection K) → List (CSGIntersection K)) (ray : Ray K)
    (obj : Object K) (hit0 : HitInfo K) (h : (solveObject sqrt sort ray obj hit0).1 = true)
    (hlt : (solveObject sqrt sort ray obj hit0).2.t < Dbl.inf) :
    ∃ x : K, (solveObject sqrt sort ray obj hit0).2.t = Dbl.fin x ∧ 1 / 1000 ≤ x ∧
      (solveObject sqrt sort ray obj hit0).2.hit = true := by
  obtain ⟨hh, hge⟩ := solveObject_hit sqrt sort ray obj hit0 h
  rcases (Dbl.lt_inf_iff _).mp hlt with h1 | ⟨x, hx⟩
  · rw [h1] at hge
    exact absurd hge (not_le.mpr Dbl.ninf_lt_fin)
  · rw [hx] at hge
    exact ⟨x, hx, Dbl.fin_le_fin.mp hge, hh⟩

theorem findClosestHitLoop_cons (sqrt : K → K)
    (sort : List (CSGIntersection K) → List (CSGIntersection K)) (ray : Ray K)
    (obj : Object K) (rest : List (Object K)) (i : Nat) (closestHit : HitInfo K) :
    findClosestHitLoop sqrt sort ray (obj :: rest) i closestHit =
      if (solveObject sqrt sort ray obj HitInfo.ctor).1 = true ∧
          (solveObject sqrt sort ray obj HitInfo.ctor).2.t < closestHit.t then
        findClosestHitLoop sqrt sort ray rest (i + 1)
          { (solveObject sqrt sort ray obj HitInfo.ctor).2 with objectIdx := (i : Int) }
      else findClosestHitLoop sqrt sort ray rest (i + 1) closestHit := by
  rfl

theorem findClosestHitLoop_spec (sqrt : K → K)
    (sort : List (CSGIntersection K) → List (CSGIntersection K)) (ray : Ray K)
    (objs : List (Object K)) (k : Nat) (cur : HitInfo K) :
    ClosestResult sqrt sort ray objs k cur (findClosestHitLoop sqrt sort ray objs k cur) := by
  induction objs generalizing k cur with
  | nil => left; exact ⟨rfl, by simp⟩
  | cons o rest ih =>
    rw [findClosestHitLoop_cons]
    by_cases hc : (solveObject sqrt sort ray o HitInfo.ctor).1 = true ∧
        (solveObject sqrt sort ray o HitInfo.ctor).2.t < cur.t
    · rw [if_pos hc]
      right
      rcases ih (k + 1) { (solveObject sqrt sort ray o HitInfo.ctor).2 with objectIdx := (k : Int) }
        with ⟨h1, h2⟩ | ⟨i, obj, hi, hhit, hlt, hres, hmin, hfirst⟩
      · refine ⟨0, o, List.getElem?_cons_zero, hc.1, hc.2, by rw [h1]; rfl, ?_, ?_⟩
        · intro j obj' hj hhit'
          rcases j with _ | j
          · simp only [List.getElem?_cons_zero, Option.some.injEq] at hj
            rw [hj]
          · rw [List.getElem?_cons_succ] at hj
            exact h2 obj' (List.getElem?_mem hj) hhit'
        · intro j obj' hj
          exact absurd hj (Nat.not_lt_zero j)
      · refine ⟨i + 1, obj, by rw [List.getElem?_cons_succ]; exact hi, hhit,
          lt_trans hlt hc.2, ?_, ?_, ?_⟩
        · rw [hres]
          have : k + 1 + i = k + (i + 1) := by omega
          rw [this]
        · intro j obj' hj hhit'
          rcases j with _ | j
          · simp only [List.getElem?_cons_zero, Option.some.injEq] at hj
            rw [← hj]
            exact le_of_lt hlt
          · rw [List.getElem?_cons_succ] at hj
            exact hmin j obj' hj hhit'
        · intro j obj' hji hj hhit'
          rcases j with _ | j
          · simp only [List.getElem?_cons_zero, Option.some.injEq] at hj
            rw [← hj]
            exact hlt
          · rw [List.getElem?_cons_succ] at hj
            exact hfirst j obj' (by omega) hj hhit'
    · rw [if_neg hc]
      have ho : (solveObject sqrt sort ray o HitInfo.ctor).1 = true →
          cur.t ≤ (solveObject sqrt sort ray o HitInfo.ctor).2.t :=
        fun hhit => not_lt.mp (fun hlt => hc ⟨hhit, hlt⟩)
      rcases ih (k + 1) cur with ⟨h1, h2⟩ | ⟨i, obj, hi, hhit, hlt, hres, hmin, hfirst⟩
      · left
        refine ⟨h1, ?_⟩
        intro obj' hobj' hhit'
        rcases List.mem_cons.mp hobj' with rfl | hobj'
        · exact ho hhit'
        · exact h2 obj' hobj' hhit'
      · right
        refine ⟨i + 1, obj, by rw [List.getElem?_cons_succ]; exact hi, hhit, hlt, ?_, ?_, ?_⟩
        · rw [hres]
          have : k + 1 + i = k + (i + 1) := by omega
          rw [this]
        · intro j obj' hj hhit'
          rcases j with _ | j
          · simp only [List.getElem?_cons_zero, Option.some.injEq] at hj
            rw [← hj]
            exact le_of_lt (lt_of_lt_of_le hlt (ho (by rw [hj]; exact hhit')))
          · rw [List.getElem?_cons_succ] at hj
            exact hmin j obj' hj hhit'
        · intro j obj' hji hj hhit'
          rcases j with _ | j
          · simp only [List.getElem?_cons_zero, Option.some.injEq] at hj
            rw [← hj]
            exact lt_of_lt_of_le hlt (ho (by rw [hj]; exact hhit'))
          · rw [List.getElem?_cons_succ] at hj
            exact hfirst j obj' (by omega) hj hhit'

/-- The result of findClosestHit: hit = false with no solver reporting a hit at a
t below plus infinity, or the record of the first object attaining the least hit
distance, which is finite and at least 0.001. -/
theorem findClosestHit_cases (sqrt : K → K)
    (sort : List (CSGIntersection K) → List (CSGIntersection K)) (ray : Ray K)
    (scene : Scene K) :
    ((findClosestHit sqrt sort ray scene).hit = false ∧
      ∀ obj ∈ scene.objects, (solveObject sqrt sort ray obj HitInfo.ctor).1 = true →
        Dbl.inf ≤ (solveObject sqrt sort ray obj HitInfo.ctor).2.t) ∨
    ∃ (i : Nat) (obj : Object K), scene.objects[i]? = some obj ∧
      (solveObject sqrt sort ray obj HitInfo.ctor).1 = true ∧
      findClosestHit sqrt sort ray scene =
        { (solveObject sqrt sort ray obj HitInfo.ctor).2 with objectIdx := (i : Int) } ∧
      (∀ (j : Nat) (obj' : Object K), scene.objects[j]? = some obj' →
        (solveObject sqrt sort ray obj' HitInfo.ctor).1 = true →
        (solveObject sqrt sort ray obj HitInfo.ctor).2.t ≤
          (solveObject sqrt sort ray obj' HitInfo.ctor).2.t) ∧
      (∀ (j : Nat) (obj' : Object K), j < i → scene.objects[j]? = some obj' →
        (solveObject sqrt sort ray obj' HitInfo.ctor).1 = true →
        (solveObject sqrt sort ray obj HitInfo.ctor).2.t <
          (solveObject sqrt sort ray obj' HitInfo.ctor).2.t) ∧
      ∃ x : K, (solveObject sqrt sort ray obj HitInfo.ctor).2.t = Dbl.fin x ∧ 1 / 1000 ≤ x ∧
        (solveObject sqrt sort ray obj HitInfo.ctor).2.hit = true := by
  rcases findClosestHitLoop_spec sqrt sort ray scene.objects 0
      { (HitInfo.ctor : HitInfo K) with t := Dbl.inf }
    with ⟨h1, h2⟩ | ⟨i, obj, hi, hhit, hlt, hres, hmin, hfirst⟩
  · left
    exact ⟨by simp only [findClosestHit]; rw [h1]; rfl, h2⟩
  · right
    refine ⟨i, obj, hi, hhit, ?_, hmin, hfirst,
      solveObject_hit_finite sqrt sort ray obj HitInfo.ctor hhit hlt⟩
    simp only [findClosestHit]
    rw [hres, Nat.zero_add]

/-- The downward ray from the origin meets the unit sphere at (0,0,-5) at t = 4,
in every scene holding only that sphere. -/
theorem findClosestHit_unit_sphere (sqrt : K → K) (hs : IsSqrt sqrt)
    (sort : List (CSGIntersection K) → List (CSGIntersection K))
    (scene : Scene K) (hsc : scene.objects = [sphereObject ⟨0, 0, -5⟩ 1]) :
    findClosestHit sqrt sort ⟨⟨0, 0, 0⟩, ⟨0, 0, -1⟩⟩ scene =
      ⟨true, Dbl.fin 4, ⟨0, 0, -4⟩, ⟨0, 0, 1⟩, 0⟩ := by
  have h4 : sqrt (4 : K) = 2 := hs.sqrt_eq (by norm_num) (by norm_num)
  have h1 : sqrt (1 : K) = 1 := hs.sqrt_eq (by norm_num) (by norm_num)
  have hS : ∀ h : HitInfo K, intersectSphere sqrt (⟨⟨0, 0, 0⟩, ⟨0, 0, -1⟩⟩ : Ray K)
      (sphereObject ⟨0, 0, -5⟩ 1) h =
      (true, { h with hit := true, t := Dbl.fin 4, point := ⟨0, 0, -4⟩, normal := ⟨0, 0, 1⟩ }) := by
    intro h
    simp only [intersectSphere, sphereObject, Object.center, Object.radius, Vec3.sub, Vec3.dot,
      Ray.at_, Vec3.add, Vec3.scale, Vec3.normalize, Vec3.length, Dbl.div]
    norm_num [h4, h1, Dbl.fin_lt_fin]
  have hty : (sphereObject (⟨0, 0, -5⟩ : Vec3 K) 1).type = .SPHERE := rfl
  simp only [findClosestHit, hsc, findClosestHitLoop, hty, hS]
  simp [HitInfo.ctor, Dbl.fin_lt_inf]

/-- What findClosestHit returns: hit = false iff no top-level object has a solver
that reports a hit at a t below plus infinity; otherwise it returns the t, point
and normal reported by the solver of the object at objectIdx, that t is the
least hit distance over the objects whose solver reports a hit, and objectIdx is
the lowest index attaining it. -/
theorem findClosestHit_least (sqrt : K → K)
    (sort : List (CSGIntersection K) → List (CSGIntersection K)) (ray : Ray K)
    (scene : Scene K) :
    ((findClosestHit sqrt sort ray scene).hit = false ↔
      ∀ obj ∈ scene.objects, (solveObject sqrt sort ray obj HitInfo.ctor).1 = true →
        Dbl.inf ≤ (solveObject sqrt sort ray obj HitInfo.ctor).2.t) ∧
    ((findClosestHit sqrt sort ray scene).hit = true →
      ∃ (i : Nat) (obj : Object K), scene.objects[i]? = some obj ∧
        (findClosestHit sqrt sort ray scene).objectIdx = (i : Int) ∧
        (solveObject sqrt sort ray obj HitInfo.ctor).1 = true ∧
        (findClosestHit sqrt sort ray scene).t =
          (solveObject sqrt sort ray obj HitInfo.ctor).2.t ∧
        (findClosestHit sqrt sort ray scene).point =
          (solveObject sqrt sort ray obj HitInfo.ctor).2.point ∧
        (findClosestHit sqrt sort ray scene).normal =
          (solveObject sqrt sort ray obj HitInfo.ctor).2.normal ∧
        (∀ (j : Nat) (obj' : Object K), scene.objects[j]? = some obj' →
          (solveObject sqrt sort ray obj' HitInfo.ctor).1 = true →
          (findClosestHit sqrt sort ray scene).t ≤
            (solveObject sqrt sort ray obj' HitInfo.ctor).2.t) ∧
        (∀ (j : Nat) (obj' : Object K), j < i → scene.objects[j]? = some obj' →
          (solveObject sqrt sort ray obj' HitInfo.ctor).1 = true →
          (findClosestHit sqrt sort ray scene).t <
            (solveObject sqrt sort ray obj' HitInfo.ctor).2.t)) := by
  rcases findClosestHit_cases sqrt sort ray scene
    with ⟨h1, h2⟩ | ⟨i, obj, hi, hhit, hres, hmin, hfirst, x, hx, -, hh⟩
  · refine ⟨⟨fun _ => h2, fun _ => h1⟩, fun hc => ?_⟩
    rw [h1] at hc; cases hc
  · have hhit' : (findClosestHit sqrt sort ray scene).hit = true := by rw [hres]; exact hh
    refine ⟨⟨fun hc => ?_, fun hall => ?_⟩, fun _ => ?_⟩
    · rw [hhit'] at hc; cases hc
    · have := hall obj (List.getElem?_mem hi) hhit
      rw [hx] at this
      exact absurd this (not_le.mpr Dbl.fin_lt_inf)
    · refine ⟨i, obj, hi, by rw [hres], hhit, by rw [hres], by rw [hres], by rw [hres], ?_, ?_⟩
      · rw [hres]; exact hmin
      · rw [hres]; exact hfirst

/-- C13 fails on the code: for the paraboloid z = x^2 + y^2 (A = B = 1, I = -1)
and the ray from (0,0,5) along (0,0,-1), which meets the surface at t = 5, aq
is 0, intersectQuadric divides by 2 aq = 0 and returns true with hit.t = NaN;
NaN < closestHit.t is false, so findClosestHit on the scene holding only that
quadric returns hit = false although the solver of an object reports a hit:
hit = false is not equivalent to no solver reporting a hit. -/
theorem findClosestHit_drops_nan_hit :
    (solveObject Real.sqrt insertionSortByT ⟨⟨0, 0, 5⟩, ⟨0, 0, -1⟩⟩
      (quadricObject 1 1 0 0 0 0 0 0 (-1) 0) HitInfo.ctor).1 = true ∧
    (solveObject Real.sqrt insertionSortByT ⟨⟨0, 0, 5⟩, ⟨0, 0, -1⟩⟩
      (quadricObject 1 1 0 0 0 0 0 0 (-1) 0) HitInfo.ctor).2.t = Dbl.nan ∧
    (findClosestHit Real.sqrt insertionSortByT ⟨⟨0, 0, 5⟩, ⟨0, 0, -1⟩⟩
      (sceneOf [quadricObject 1 1 0 0 0 0 0 0 (-1) 0])).hit = false ∧
    quadricA (⟨0, 0, -1⟩ : Vec3 ℝ) (quadricObject 1 1 0 0 0 0 0 0 (-1) 0) = 0 ∧
    quadricImplicit (quadricObject 1 1 0 0 0 0 0 0 (-1) 0)
      ((⟨⟨0, 0, 5⟩, ⟨0, 0, -1⟩⟩ : Ray ℝ).at_ 5) = 0 ∧
    ¬ ((findClosestHit Real.sqrt insertionSortByT ⟨⟨0, 0, 5⟩, ⟨0, 0, -1⟩⟩
        (sceneOf [quadricObject 1 1 0 0 0 0 0 0 (-1) 0])).hit = false ↔
      ∀ obj ∈ (sceneOf [quadricObject (1 : ℝ) 1 0 0 0 0 0 0 (-1) 0]).objects,
        (solveObject Real.sqrt insertionSortByT ⟨⟨0, 0, 5⟩, ⟨0, 0, -1⟩⟩ obj
          HitInfo.ctor).1 = false) := by
  have h1 : Real.sqrt 1 = 1 := isSqrt_real.sqrt_eq (by norm_num) (by norm_num)
  have hQ : ∀ h : HitInfo ℝ, intersectQuadric Real.sqrt ⟨⟨0, 0, 5⟩, ⟨0, 0, -1⟩⟩
      (quadricObject 1 1 0 0 0 0 0 0 (-1) 0) h =
      (true, { h with hit := true, t := Dbl.nan, normal := ⟨0, 0, 0⟩ }) := by
    intro h
    simp only [intersectQuadric, quadricObject, quadricA, quadricB, quadricC,
      Object.A, Object.B, Object.C, Object.D, Object.E, Object.F, Object.G, Object.H, Object.I,
      Object.J, Dbl.div]
    norm_num [h1, Dbl.ninf_lt_fin, Dbl.not_nan_lt]
  have hty : (quadricObject (1 : ℝ) 1 0 0 0 0 0 0 (-1) 0).type = .QUADRIC := rfl
  have hsolve : (solveObject Real.sqrt insertionSortByT ⟨⟨0, 0, 5⟩, ⟨0, 0, -1⟩⟩
      (quadricObject 1 1 0 0 0 0 0 0 (-1) 0) HitInfo.ctor).1 = true := by
    simp only [solveObject, hty, hQ]
  have hmiss : (findClosestHit Real.sqrt insertionSortByT ⟨⟨0, 0, 5⟩, ⟨0, 0, -1⟩⟩
      (sceneOf [quadricObject 1 1 0 0 0 0 0 0 (-1) 0])).hit = false := by
    simp only [findClosestHit, sceneOf, findClosestHitLoop, hty, hQ]
    simp [HitInfo.ctor, Dbl.not_nan_lt]
  refine ⟨hsolve, ?_, hmiss, ?_, ?_, ?_⟩
  · simp only [solveObject, hty, hQ]
  · simp [quadricA, quadricObject, Object.A, Object.B, Object.C, Object.D, Object.E, Object.F]
  · simp [quadricImplicit, quadricObject, Object.A, Object.B, Object.C, Object.D, Object.E,
      Object.F, Object.G, Object.H, Object.I, Object.J, Ray.at_, Vec3.add, Vec3.scale]
  · intro hiff
    have hall := hiff.mp hmiss (quadricObject 1 1 0 0 0 0 0 0 (-1) 0) (by simp [sceneOf])
    rw [hsolve] at hall
    cases hall

/-- C14: whenever findClosestHit returns hit = true, its t is finite and at least
0.001, whichever of the four solvers produced it. -/
theorem findClosestHit_epsilon (sqrt : K → K)
    (sort : List (CSGIntersection K) → List (CSGIntersection K)) (ray : Ray K)
    (scene : Scene K) (hhit : (findClosestHit sqrt sort ray scene).hit = true) :
    ∃ x : K, (findClosestHit sqrt sort ray scene).t = Dbl.fin x ∧ 1 / 1000 ≤ x := by
  rcases findClosestHit_cases sqrt sort ray scene
    with ⟨h1, -⟩ | ⟨i, obj, -, hsolve, hres, -, -, x, hx, hge, -⟩
  · rw [h1] at hhit; cases hhit
  · exact ⟨x, by rw [hres]; exact hx, hge⟩

/-- Witness for C14: the downward ray hits the unit sphere at (0,0,-5), at t = 4. -/
theorem findClosestHit_epsilon_witness :
    (findClosestHit Real.sqrt insertionSortByT ⟨⟨0, 0, 0⟩, ⟨0, 0, -1⟩⟩
      (sceneOf [sphereObject (⟨0, 0, -5⟩ : Vec3 ℝ) 1])).hit = true ∧
    ∃ x : ℝ, (findClosestHit Real.sqrt insertionSortByT ⟨⟨0, 0, 0⟩, ⟨0, 0, -1⟩⟩
      (sceneOf [sphereObject (⟨0, 0, -5⟩ : Vec3 ℝ) 1])).t = Dbl.fin x ∧ 1 / 1000 ≤ x :=
  ⟨by rw [findClosestHit_unit_sphere Real.sqrt isSqrt_real insertionSortByT _ rfl],
    findClosestHit_epsilon Real.sqrt insertionSortByT ⟨⟨0, 0, 0⟩, ⟨0, 0, -1⟩⟩
      (sceneOf [sphereObject ⟨0, 0, -5⟩ 1])
      (by rw [findClosestHit_unit_sphere Real.sqrt isSqrt_real insertionSortByT _ rfl])⟩

/-- C20 fails as stated: Plane(0, 0, 0, 1) stores the zero normal, for which
a^2 + b^2 + c^2 = 0. -/
theorem plane_ctor_zero_normal :
    Plane.ctor Real.sqrt 0 0 0 1 = ⟨0, 0, 0, 1⟩ ∧
    (Plane.ctor Real.sqrt 0 0 0 1).a ^ 2 + (Plane.ctor Real.sqrt 0 0 0 1).b ^ 2 +
      (Plane.ctor Real.sqrt 0 0 0 1).c ^ 2 ≠ 1 := by
  have h0 : Real.sqrt 0 = 0 := isSqrt_real.sqrt_eq (by norm_num) (by norm_num)
  have h : Plane.ctor Real.sqrt 0 0 0 1 = ⟨0, 0, 0, 1⟩ := by
    simp [Plane.ctor, h0]
  refine ⟨h, ?_⟩
  rw [h]
  norm_num

/-- C20, as amended: for every input with (a, b, c) not all zero the constructor
Plane(a, b, c, d) stores the coefficients divided by the length of (a, b, c),
so that a^2 + b^2 + c^2 = 1; for a = b = c = 0 it stores the input unchanged. -/
theorem plane_ctor_unit (sqrt : K → K) (hs : IsSqrt sqrt) (a b c d : K) :
    (a * a + b * b + c * c ≠ 0 →
      (Plane.ctor sqrt a b c d).a ^ 2 + (Plane.ctor sqrt a b c d).b ^ 2 +
        (Plane.ctor sqrt a b c d).c ^ 2 = 1 ∧
      Plane.ctor sqrt a b c d =
        ⟨a / sqrt (a * a + b * b + c * c), b / sqrt (a * a + b * b + c * c),
          c / sqrt (a * a + b * b + c * c), d / sqrt (a * a + b * b + c * c)⟩) ∧
    (a * a + b * b + c * c = 0 → Plane.ctor sqrt a b c d = ⟨a, b, c, d⟩) := by
  have h0 : 0 ≤ a * a + b * b + c * c := by
    nlinarith [mul_self_nonneg a, mul_self_nonneg b, mul_self_nonneg c]
  have hsq := hs.mul_self h0
  have hnn := hs.nonneg h0
  constructor
  · intro hne
    have hpos : 0 < sqrt (a * a + b * b + c * c) := by
      rcases lt_or_eq_of_le hnn with h | h
      · exact h
      · exfalso; apply hne; rw [← hsq, ← h]; ring
    have hctor : Plane.ctor sqrt a b c d =
        ⟨a / sqrt (a * a + b * b + c * c), b / sqrt (a * a + b * b + c * c),
          c / sqrt (a * a + b * b + c * c), d / sqrt (a * a + b * b + c * c)⟩ := by
      simp only [Plane.ctor]
      rw [if_pos hpos]
    refine ⟨?_, hctor⟩
    rw [hctor]
    simp only
    have hne' := ne_of_gt hpos
    field_simp
    nlinarith [hsq]
  · intro hz
    have hzero : sqrt (a * a + b * b + c * c) = 0 := by
      have : sqrt (a * a + b * b + c * c) * sqrt (a * a + b * b + c * c) = 0 := by
        rw [hsq, hz]
      exact mul_self_eq_zero.mp this
    simp only [Plane.ctor]
    rw [if_neg (by rw [hzero]; exact lt_irrefl 0)]

/-- Witness for C20: Plane(3, 4, 0, 5) stores a unit normal. -/
theorem plane_ctor_unit_witness :
    IsSqrt Real.sqrt ∧ (3 : ℝ) * 3 + 4 * 4 + 0 * 0 ≠ 0 ∧
    (Plane.ctor Real.sqrt 3 4 0 5).a ^ 2 + (Plane.ctor Real.sqrt 3 4 0 5).b ^ 2 +
      (Plane.ctor Real.sqrt 3 4 0 5).c ^ 2 = 1 :=
  ⟨isSqrt_real, by norm_num,
    ((plane_ctor_unit Real.sqrt isSqrt_real 3 4 0 5).1 (by norm_num)).1⟩

/-! ### The recursion of traceRay and shade -/

theorem shade_eq_shadeWith [FloorRing K] (sqrt : K → K)
    (sort : List (CSGIntersection K) → List (CSGIntersection K)) (pow : K → K → K)
    (rand : Nat → K) (RAND_MAX : K) (hit : HitInfo K) (scene : Scene K) (ray : Ray K)
    (depth : Int) (st : Exec) :
    shade sqrt sort pow rand RAND_MAX hit scene ray depth st =
      shadeWith sqrt sort pow rand RAND_MAX hit scene ray depth st
        (fun r s => traceRay sqrt sort pow rand RAND_MAX r scene (depth + 1) s) := by
  rw [shade.eq_1]
  simp only [shadeWith, dite_eq_ite]

theorem traceRay_eq [FloorRing K] (sqrt : K → K)
    (sort : List (CSGIntersection K) → List (CSGIntersection K)) (pow : K → K → K)
    (rand : Nat → K) (RAND_MAX : K) (ray : Ray K) (scene : Scene K) (depth : Int)
    (st : Exec) :
    traceRay sqrt sort pow rand RAND_MAX ray scene depth st =
      if depth > MAX_DEPTH then
        some (⟨0, 0, 0⟩, { st with traceDepths := st.traceDepths ++ [depth] })
      else if (findClosestHit sqrt sort ray scene).hit = true then
        shadeWith sqrt sort pow rand RAND_MAX (findClosestHit sqrt sort ray scene) scene ray
          depth { st with traceDepths := st.traceDepths ++ [depth] }
          (fun r s => traceRay sqrt sort pow rand RAND_MAX r scene (depth + 1) s)
      else some (⟨0, 0, 0⟩, { st with traceDepths := st.traceDepths ++ [depth] }) := by
  rw [traceRay.eq_1]
  simp only [shade_eq_shadeWith]

/-- Induction over the recursion of traceRay: a property of the calls that holds
where traceRay returns black at once, and is carried by shade from the calls at
depth + 1 to the call at depth, holds of every call. -/
theorem traceRay_induction [FloorRing K] (sqrt : K → K)
    (sort : List (CSGIntersection K) → List (CSGIntersection K)) (pow : K → K → K)
    (rand : Nat → K) (RAND_MAX : K) (scene : Scene K)
    (P : Ray K → Int → Exec → Option (Vec3 K × Exec) → Prop)
    (hblack : ∀ (ray : Ray K) (depth : Int) (st : Exec),
      (depth > MAX_DEPTH ∨ (findClosestHit sqrt sort ray scene).hit = false) →
      P ray depth st (some (⟨0, 0, 0⟩, { st with traceDepths := st.traceDepths ++ [depth] })))
    (hshade : ∀ (ray : Ray K) (depth : Int) (st : Exec), depth ≤ MAX_DEPTH →
      (findClosestHit sqrt sort ray scene).hit = true →
      (∀ (r : Ray K) (s : Exec),
        P r (depth + 1) s (traceRay sqrt sort pow rand RAND_MAX r scene (depth + 1) s)) →
      P ray depth st
        (shadeWith sqrt sort pow rand RAND_MAX (findClosestHit sqrt sort ray scene) scene ray
          depth { st with traceDepths := st.traceDepths ++ [depth] }
          (fun r s => traceRay sqrt sort pow rand RAND_MAX r scene (depth + 1) s)))
    (ray : Ray K) (depth : Int) (st : Exec) :
    P ray depth st (traceRay sqrt sort pow rand RAND_MAX ray scene depth st) := by
  have key : ∀ (n : Nat) (depth : Int), (MAX_DEPTH + 1 - depth).toNat ≤ n →
      ∀ (ray : Ray K) (st : Exec),
        P ray depth st (traceRay sqrt sort pow rand RAND_MAX ray scene depth st) := by
    intro n
    induction n with
    | zero =>
      intro depth hn ray st
      have hd : depth > MAX_DEPTH := by simp only [MAX_DEPTH] at *; omega
      rw [traceRay_eq, if_pos hd]
      exact hblack ray depth st (Or.inl hd)
    | succ n ih =>
      intro depth hn ray st
      rw [traceRay_eq]
      by_cases hd : depth > MAX_DEPTH
      · rw [if_pos hd]
        exact hblack ray depth st (Or.inl hd)
      · rw [if_neg hd]
        by_cases hh : (findClosestHit sqrt sort ray scene).hit = true
        · rw [if_pos hh]
          refine hshade ray depth st (not_lt.mp hd) hh ?_
          intro r s
          exact ih (depth + 1) (by simp only [MAX_DEPTH] at *; omega) r s
        · rw [if_neg hh]
          exact hblack ray depth st (Or.inr (by simpa using hh))
  exact key _ depth (le_refl _) ray st

/-! ### The stages of shade -/

/-- What a successful run of shade consists of: the local part, then the
reflection stage, then the refraction stage, then the clamp. -/
theorem shadeWith_some [FloorRing K] (sqrt : K → K)
    (sort : List (CSGIntersection K) → List (CSGIntersection K)) (pow : K → K → K)
    (rand : Nat → K) (RAND_MAX : K) (hit : HitInfo K) (scene : Scene K) (ray : Ray K)
    (depth : Int) (st : Exec) (trace : Ray K → Exec → Option (Vec3 K × Exec))
    (c : Vec3 K) (st' : Exec)
    (h : shadeWith sqrt sort pow rand RAND_MAX hit scene ray depth st trace = some (c, st')) :
    ∃ (finish : Finish K) (color0 : Vec3 K) (st0 : Exec) (color1 : Vec3 K) (st1 : Exec)
      (color2 : Vec3 K),
      shadeLocal sqrt sort pow rand RAND_MAX hit scene ray st = some (finish, color0, st0) ∧
      ((finish.kr > 0 ∧ depth < MAX_DEPTH ∧ ∃ rc : Vec3 K,
          trace (reflectedRay sqrt rand RAND_MAX hit ray finish st0).1
            (reflectedRay sqrt rand RAND_MAX hit ray finish st0).2 = some (rc, st1) ∧
          color1 = color0.add (rc.scale finish.kr)) ∨
        (¬ (finish.kr > 0 ∧ depth < MAX_DEPTH) ∧ color1 = color0 ∧ st1 = st0)) ∧
      ((finish.kt > 0 ∧ depth < MAX_DEPTH ∧ ∃ (rr : Ray K) (s : Exec) (rc : Vec3 K),
          refractedRay sqrt rand RAND_MAX hit ray finish st1 = some (rr, s) ∧
          trace rr s = some (rc, st') ∧ color2 = color1.add (rc.scale finish.kt)) ∨
        ((¬ (finish.kt > 0 ∧ depth < MAX_DEPTH) ∨
            refractedRay sqrt rand RAND_MAX hit ray finish st1 = none) ∧
          color2 = color1 ∧ st' = st1)) ∧
      c = color2.clamp 0 1 := by
  unfold shadeWith at h
  rcases hloc : shadeLocal sqrt sort pow rand RAND_MAX hit scene ray st with _ | ⟨finish, color0, st0⟩
  · rw [hloc] at h; simp at h
  · rw [hloc] at h
    simp only at h
    by_cases hkr : finish.kr > 0 ∧ depth < MAX_DEPTH
    · rw [if_pos hkr] at h
      rcases htr : trace (reflectedRay sqrt rand RAND_MAX hit ray finish st0).1
          (reflectedRay sqrt rand RAND_MAX hit ray finish st0).2 with _ | ⟨rc, st1⟩
      · rw [htr] at h; simp at h
      · rw [htr] at h
        simp only at h
        by_cases hkt : finish.kt > 0 ∧ depth < MAX_DEPTH
        · rw [if_pos hkt] at h
          rcases hrf : refractedRay sqrt rand RAND_MAX hit ray finish st1 with _ | ⟨rr, s⟩
          · rw [hrf] at h
            simp only [Option.some.injEq, Prod.mk.injEq] at h
            exact ⟨finish, color0, st0, _, st1, _, rfl, Or.inl ⟨hkr.1, hkr.2, rc, htr, rfl⟩,
              Or.inr ⟨Or.inr hrf, rfl, h.2.symm⟩, h.1.symm⟩
          · rw [hrf] at h
            simp only at h
            rcases htr2 : trace rr s with _ | ⟨rc2, st2⟩
            · rw [htr2] at h; simp at h
            · rw [htr2] at h
              simp only [Option.some.injEq, Prod.mk.injEq] at h
              obtain ⟨h1, h2⟩ := h
              subst h2
              exact ⟨finish, color0, st0, _, st1, _, rfl, Or.inl ⟨hkr.1, hkr.2, rc, htr, rfl⟩,
                Or.inl ⟨hkt.1, hkt.2, rr, s, rc2, hrf, htr2, rfl⟩, h1.symm⟩
        · rw [if_neg hkt] at h
          simp only [Option.some.injEq, Prod.mk.injEq] at h
          exact ⟨finish, color0, st0, _, st1, _, rfl, Or.inl ⟨hkr.1, hkr.2, rc, htr, rfl⟩,
            Or.inr ⟨Or.inl hkt, rfl, h.2.symm⟩, h.1.symm⟩
    · rw [if_neg hkr] at h
      simp only at h
      by_cases hkt : finish.kt > 0 ∧ depth < MAX_DEPTH
      · rw [if_pos hkt] at h
        rcases hrf : refractedRay sqrt rand RAND_MAX hit ray finish st0 with _ | ⟨rr, s⟩
        · rw [hrf] at h
          simp only [Option.some.injEq, Prod.mk.injEq] at h
          exact ⟨finish, color0, st0, _, st0, _, rfl, Or.inr ⟨hkr, rfl, rfl⟩,
            Or.inr ⟨Or.inr hrf, rfl, h.2.symm⟩, h.1.symm⟩
        · rw [hrf] at h
          simp only at h
          rcases htr2 : trace rr s with _ | ⟨rc2, st2⟩
          · rw [htr2] at h; simp at h
          · rw [htr2] at h
            simp only [Option.some.injEq, Prod.mk.injEq] at h
            obtain ⟨h1, h2⟩ := h
            subst h2
            exact ⟨finish, color0, st0, _, st0, _, rfl, Or.inr ⟨hkr, rfl, rfl⟩,
              Or.inl ⟨hkt.1, hkt.2, rr, s, rc2, hrf, htr2, rfl⟩, h1.symm⟩
      · rw [if_neg hkt] at h
        simp only [Option.some.injEq, Prod.mk.injEq] at h
        exact ⟨finish, color0, st0, _, st0, _, rfl, Or.inr ⟨hkr, rfl, rfl⟩,
          Or.inr ⟨Or.inl hkt, rfl, h.2.symm⟩, h.1.symm⟩

/-- A run of shade succeeds when its local part does and the recursive calls do. -/
theorem shadeWith_isSome [FloorRing K] (sqrt : K → K)
    (sort : List (CSGIntersection K) → List (CSGIntersection K)) (pow : K → K → K)
    (rand : Nat → K) (RAND_MAX : K) (hit : HitInfo K) (scene : Scene K) (ray : Ray K)
    (depth : Int) (st : Exec) (trace : Ray K → Exec → Option (Vec3 K × Exec))
    (hloc : (shadeLocal sqrt sort pow rand RAND_MAX hit scene ray st).isSome = true)
    (htrace : ∀ (r : Ray K) (s : Exec), (trace r s).isSome = true) :
    (shadeWith sqrt sort pow rand RAND_MAX hit scene ray depth st trace).isSome = true := by
  have hsome : ∀ (r : Ray K) (s : Exec), ∃ rc s', trace r s = some (rc, s') := by
    intro r s
    have := htrace r s
    rcases htr : trace r s with _ | ⟨rc, s'⟩
    · rw [htr] at this; simp at this
    · exact ⟨rc, s', rfl⟩
  unfold shadeWith
  rcases hl : shadeLocal sqrt sort pow rand RAND_MAX hit scene ray st with _ | ⟨finish, color0, st0⟩
  · rw [hl] at hloc; simp at hloc
  · simp only
    by_cases hkr : finish.kr > 0 ∧ depth < MAX_DEPTH
    · rw [if_pos hkr]
      obtain ⟨rc, s1, htr⟩ := hsome (reflectedRay sqrt rand RAND_MAX hit ray finish st0).1
        (reflectedRay sqrt rand RAND_MAX hit ray finish st0).2
      rw [htr]
      simp only
      by_cases hkt : finish.kt > 0 ∧ depth < MAX_DEPTH
      · rw [if_pos hkt]
        rcases hrf : refractedRay sqrt rand RAND_MAX hit ray finish s1 with _ | ⟨rr, s⟩
        · rfl
        · simp only
          obtain ⟨rc2, s2, htr2⟩ := hsome rr s
          rw [htr2]
          rfl
      · rw [if_neg hkt]
        rfl
    · rw [if_neg hkr]
      simp only
      by_cases hkt : finish.kt > 0 ∧ depth < MAX_DEPTH
      · rw [if_pos hkt]
        rcases hrf : refractedRay sqrt rand RAND_MAX hit ray finish st0 with _ | ⟨rr, s⟩
        · rfl
        · simp only
          obtain ⟨rc2, s2, htr2⟩ := hsome rr s
          rw [htr2]
          rfl
      · rw [if_neg hkt]
        rfl

/-! ### The state and the tables -/

theorem randVec3_traceDepths (rand : Nat → K) (RAND_MAX : K) (st : Exec) :
    (randVec3 rand RAND_MAX st).2.traceDepths = st.traceDepths := rfl

theorem shadeLight_traceDepths [FloorRing K] (sqrt : K → K)
    (sort : List (CSGIntersection K) → List (CSGIntersection K)) (pow : K → K → K)
    (rand : Nat → K) (RAND_MAX : K) (hit : HitInfo K) (scene : Scene K) (ray : Ray K)
    (baseColor : Vec3 K) (finish : Finish K) (light : Light K) (color : Vec3 K) (st : Exec) :
    (shadeLight sqrt sort pow rand RAND_MAX hit scene ray baseColor finish light color
      st).2.traceDepths = st.traceDepths := by
  simp only [shadeLight]
  split_ifs <;> rfl

theorem shadeLights_traceDepths [FloorRing K] (sqrt : K → K)
    (sort : List (CSGIntersection K) → List (CSGIntersection K)) (pow : K → K → K)
    (rand : Nat → K) (RAND_MAX : K) (hit : HitInfo K) (scene : Scene K) (ray : Ray K)
    (baseColor : Vec3 K) (finish : Finish K) (lights : List (Light K)) (color : Vec3 K)
    (st : Exec) :
    (shadeLights sqrt sort pow rand RAND_MAX hit scene ray baseColor finish lights color
      st).2.traceDepths = st.traceDepths := by
  induction lights generalizing color st with
  | nil => rfl
  | cons l rest ih =>
    simp only [shadeLights]
    rw [ih, shadeLight_traceDepths]

theorem vectorAt_mem {α : Type} (v : List α) (i : Int) (a : α) (h : vectorAt v i = some a) :
    a ∈ v := by
  unfold vectorAt at h
  split_ifs at h
  exact List.getElem?_mem h

theorem vectorAt_isSome {α : Type} (v : List α) (i : Int) (h0 : 0 ≤ i)
    (h1 : i < (v.length : Int)) : ∃ a, vectorAt v i = some a := by
  unfold vectorAt
  rw [if_pos h0]
  have : i.toNat < v.length := by omega
  exact ⟨v[i.toNat], List.getElem?_eq_getElem this⟩

theorem vectorAt_natCast {α : Type} (v : List α) (i : Nat) : vectorAt v (i : Int) = v[i]? := by
  unfold vectorAt
  rw [if_pos (Int.natCast_nonneg i), Int.toNat_natCast]

/-- What the local part of shade returns: the finish of the object hit, a colour,
and a state with the same record of traceRay calls. -/
theorem shadeLocal_some [FloorRing K] (sqrt : K → K)
    (sort : List (CSGIntersection K) → List (CSGIntersection K)) (pow : K → K → K)
    (rand : Nat → K) (RAND_MAX : K) (hit : HitInfo K) (scene : Scene K) (ray : Ray K)
    (st : Exec) (finish : Finish K) (color : Vec3 K) (st0 : Exec)
    (h : shadeLocal sqrt sort pow rand RAND_MAX hit scene ray st = some (finish, color, st0)) :
    ∃ (obj : Object K) (pigment : Pigment K) (light0 : Light K),
      vectorAt scene.objects hit.objectIdx = some obj ∧
      vectorAt scene.pigments obj.pigmentIdx = some pigment ∧
      vectorAt scene.finishes obj.finishIdx = some finish ∧
      scene.lights[0]? = some light0 ∧
      (color, st0) = shadeLights sqrt sort pow rand RAND_MAX hit scene ray
        (getPigmentColor pigment hit.point) finish (scene.lights.drop 1)
        (((getPigmentColor pigment hit.point).mul light0.color).scale finish.ka) st ∧
      finish ∈ scene.finishes ∧ st0.traceDepths = st.traceDepths := by
  unfold shadeLocal at h
  rcases ho : vectorAt scene.objects hit.objectIdx with _ | obj
  · rw [ho] at h; simp at h
  · rw [ho] at h
    simp only at h
    rcases hp : vectorAt scene.pigments obj.pigmentIdx with _ | pigment
    · rw [hp] at h; simp at h
    · rw [hp] at h
      simp only at h
      rcases hf : vectorAt scene.finishes obj.finishIdx with _ | fin
      · rw [hf] at h; simp at h
      · rw [hf] at h
        simp only at h
        rcases hl : scene.lights[0]? with _ | light0
        · rw [hl] at h; simp at h
        · rw [hl] at h
          simp only [Option.some.injEq, Prod.mk.injEq] at h
          obtain ⟨h1, h2, h3⟩ := h
          subst h1
          refine ⟨obj, pigment, light0, rfl, hp, hf, rfl, ?_, vectorAt_mem _ _ _ hf, ?_⟩
          · rw [← h2, ← h3]
          · rw [← h3, shadeLights_traceDepths]

/-- The local part of shade reads no table out of range when the object index is
that of a top-level object of a scene that meets the invariants. -/
theorem shadeLocal_isSome [FloorRing K] (sqrt : K → K)
    (sort : List (CSGIntersection K) → List (CSGIntersection K)) (pow : K → K → K)
    (rand : Nat → K) (RAND_MAX : K) (hit : HitInfo K) (scene : Scene K) (ray : Ray K)
    (st : Exec) (hok : SceneOk scene) (obj : Object K)
    (hobj : vectorAt scene.objects hit.objectIdx = some obj) :
    (shadeLocal sqrt sort pow rand RAND_MAX hit scene ray st).isSome = true := by
  obtain ⟨hlights, hidx⟩ := hok
  obtain ⟨⟨hp0, hp1⟩, ⟨hf0, hf1⟩⟩ := hidx obj (vectorAt_mem _ _ _ hobj)
  obtain ⟨pigment, hp⟩ := vectorAt_isSome scene.pigments obj.pigmentIdx hp0 hp1
  obtain ⟨fin, hf⟩ := vectorAt_isSome scene.finishes obj.finishIdx hf0 hf1
  have hl : ∃ l0, scene.lights[0]? = some l0 := by
    rcases hls : scene.lights with _ | ⟨l0, rest⟩
    · exact absurd hls hlights
    · exact ⟨l0, List.getElem?_cons_zero⟩
  obtain ⟨l0, hl⟩ := hl
  unfold shadeLocal
  rw [hobj]
  simp only
  rw [hp]
  simp only
  rw [hf]
  simp only
  rw [hl]
  rfl

/-- The object index of a hit returned by findClosestHit is the index of a
top-level object. -/
theorem findClosestHit_objectIdx (sqrt : K → K)
    (sort : List (CSGIntersection K) → List (CSGIntersection K)) (ray : Ray K)
    (scene : Scene K) (h : (findClosestHit sqrt sort ray scene).hit = true) :
    ∃ obj, vectorAt scene.objects (findClosestHit sqrt sort ray scene).objectIdx = some obj := by
  rcases findClosestHit_cases sqrt sort ray scene
    with ⟨h1, -⟩ | ⟨i, obj, hi, -, hres, -, -⟩
  · rw [h1] at h; cases h
  · refine ⟨obj, ?_⟩
    rw [hres]
    simp only
    rw [vectorAt_natCast]
    exact hi

/-- Under the scene invariants traceRay returns a colour: no table is read out of
range. -/
theorem traceRay_isSome [FloorRing K] (sqrt : K → K)
    (sort : List (CSGIntersection K) → List (CSGIntersection K)) (pow : K → K → K)
    (rand : Nat → K) (RAND_MAX : K) (scene : Scene K) (hok : SceneOk scene)
    (ray : Ray K) (depth : Int) (st : Exec) :
    (traceRay sqrt sort pow rand RAND_MAX ray scene depth st).isSome = true := by
  refine traceRay_induction sqrt sort pow rand RAND_MAX scene
    (fun _ _ _ r => r.isSome = true) ?_ ?_ ray depth st
  · intro ray depth st _
    rfl
  · intro ray depth st _ hh ih
    obtain ⟨obj, hobj⟩ := findClosestHit_objectIdx sqrt sort ray scene hh
    exact shadeWith_isSome sqrt sort pow rand RAND_MAX _ scene ray depth _ _
      (shadeLocal_isSome sqrt sort pow rand RAND_MAX _ scene ray _ hok obj hobj) ih

/-! ### Colours in range -/

theorem clamp_inUnit (c : Vec3 K) : (c.clamp 0 1).InUnit := by
  simp only [Vec3.clamp, Vec3.InUnit]
  refine ⟨⟨le_max_left _ _, ?_⟩, ⟨le_max_left _ _, ?_⟩, ⟨le_max_left _ _, ?_⟩⟩ <;>
    exact max_le zero_le_one (min_le_left _ _)

theorem shade_inUnit [FloorRing K] (sqrt : K → K)
    (sort : List (CSGIntersection K) → List (CSGIntersection K)) (pow : K → K → K)
    (rand : Nat → K) (RAND_MAX : K) (hit : HitInfo K) (scene : Scene K) (ray : Ray K)
    (depth : Int) (st : Exec) (c : Vec3 K) (st' : Exec)
    (h : shade sqrt sort pow rand RAND_MAX hit scene ray depth st = some (c, st')) :
    c.InUnit := by
  rw [shade_eq_shadeWith] at h
  obtain ⟨_, _, _, _, _, color2, -, -, -, hc⟩ :=
    shadeWith_some sqrt sort pow rand RAND_MAX hit scene ray depth st _ c st' h
  rw [hc]
  exact clamp_inUnit color2

theorem zero_inUnit : (⟨0, 0, 0⟩ : Vec3 K).InUnit := by
  simp [Vec3.InUnit]

theorem traceRay_inUnit [FloorRing K] (sqrt : K → K)
    (sort : List (CSGIntersection K) → List (CSGIntersection K)) (pow : K → K → K)
    (rand : Nat → K) (RAND_MAX : K) (ray : Ray K) (scene : Scene K)
    (depth : Int) (st : Exec) (c : Vec3 K) (st' : Exec)
    (h : traceRay sqrt sort pow rand RAND_MAX ray scene depth st = some (c, st')) :
    c.InUnit := by
  rw [traceRay.eq_1] at h
  simp only at h
  split_ifs at h with h1 h2
  · simp only [Option.some.injEq, Prod.mk.injEq] at h
    rw [← h.1]; exact zero_inUnit
  · exact shade_inUnit sqrt sort pow rand RAND_MAX _ scene ray depth _ c st' h
  · simp only [Option.some.injEq, Prod.mk.injEq] at h
    rw [← h.1]; exact zero_inUnit

/-- The sum left by the sampling loop: each channel grows by at least 0 and at
most 1 per sample. -/
theorem sampleLoop_bounds [FloorRing K] (sqrt : K → K)
    (sort : List (CSGIntersection K) → List (CSGIntersection K)) (pow : K → K → K)
    (rand : Nat → K) (RAND_MAX : K) (cameraRay : Exec → Ray K × Exec) (scene : Scene K)
    (n : Nat) (p : Vec3 K) (st : Exec) (p' : Vec3 K) (st' : Exec)
    (h : sampleLoop sqrt sort pow rand RAND_MAX cameraRay scene n p st = some (p', st')) :
    (p.x ≤ p'.x ∧ p'.x ≤ p.x + n) ∧ (p.y ≤ p'.y ∧ p'.y ≤ p.y + n) ∧
      (p.z ≤ p'.z ∧ p'.z ≤ p.z + n) := by
  induction n generalizing p st with
  | zero =>
    simp only [sampleLoop, Option.some.injEq, Prod.mk.injEq] at h
    rw [← h.1]
    simp
  | succ n ih =>
    simp only [sampleLoop] at h
    rcases htr : traceRay sqrt sort pow rand RAND_MAX (cameraRay st).1 scene 0 (cameraRay st).2
      with _ | ⟨c, s⟩
    · rw [htr] at h; simp at h
    · rw [htr] at h
      simp only at h
      have hc := traceRay_inUnit sqrt sort pow rand RAND_MAX _ scene 0 _ c s htr
      have := ih (p.add c) s h
      simp only [Vec3.add, Vec3.InUnit] at this hc
      push_cast
      refine ⟨⟨?_, ?_⟩, ⟨?_, ?_⟩, ⟨?_, ?_⟩⟩ <;> linarith [this.1.1, this.1.2, this.2.1.1,
        this.2.1.2, this.2.2.1, this.2.2.2, hc.1.1, hc.1.2, hc.2.1.1, hc.2.1.2, hc.2.2.1,
        hc.2.2.2]

/-- The sampling loop returns a sum when traceRay always returns a colour. -/
theorem sampleLoop_isSome [FloorRing K] (sqrt : K → K)
    (sort : List (CSGIntersection K) → List (CSGIntersection K)) (pow : K → K → K)
    (rand : Nat → K) (RAND_MAX : K) (cameraRay : Exec → Ray K × Exec) (scene : Scene K)
    (hok : SceneOk scene) (n : Nat) (p : Vec3 K) (st : Exec) :
    (sampleLoop sqrt sort pow rand RAND_MAX cameraRay scene n p st).isSome = true := by
  induction n generalizing p st with
  | zero => rfl
  | succ n ih =>
    simp only [sampleLoop]
    have := traceRay_isSome sqrt sort pow rand RAND_MAX scene hok (cameraRay st).1 0
      (cameraRay st).2
    rcases htr : traceRay sqrt sort pow rand RAND_MAX (cameraRay st).1 scene 0 (cameraRay st).2
      with _ | ⟨c, s⟩
    · rw [htr] at this; simp at this
    · exact ih _ _

/-- Under the scene invariants shade returns a colour for every hit record that
names an object of the scene. -/
theorem shade_isSome [FloorRing K] (sqrt : K → K)
    (sort : List (CSGIntersection K) → List (CSGIntersection K)) (pow : K → K → K)
    (rand : Nat → K) (RAND_MAX : K) (scene : Scene K) (hok : SceneOk scene)
    (hit : HitInfo K) (ray : Ray K) (depth : Int) (st : Exec) (obj : Object K)
    (hobj : vectorAt scene.objects hit.objectIdx = some obj) :
    (shade sqrt sort pow rand RAND_MAX hit scene ray depth st).isSome = true := by
  rw [shade_eq_shadeWith]
  exact shadeWith_isSome sqrt sort pow rand RAND_MAX hit scene ray depth st _
    (shadeLocal_isSome sqrt sort pow rand RAND_MAX hit scene ray st hok obj hobj)
    (fun r s => traceRay_isSome sqrt sort pow rand RAND_MAX scene hok r (depth + 1) s)

/-- Under the scene invariants the pixel body returns its three bytes. -/
theorem renderPixel_isSome [FloorRing K] (sqrt : K → K)
    (sort : List (CSGIntersection K) → List (CSGIntersection K)) (pow : K → K → K)
    (rand : Nat → K) (RAND_MAX : K) (cameraRay : Exec → Ray K × Exec) (scene : Scene K)
    (hok : SceneOk scene) (st : Exec) :
    (renderPixel sqrt sort pow rand RAND_MAX cameraRay scene st).isSome = true := by
  have hsome := sampleLoop_isSome sqrt sort pow rand RAND_MAX cameraRay scene hok
    SAMPLES.toNat ⟨0, 0, 0⟩ st
  unfold renderPixel
  rcases hs : sampleLoop sqrt sort pow rand RAND_MAX cameraRay scene SAMPLES.toNat
    ⟨0, 0, 0⟩ st with _ | ⟨sum, s⟩
  · rw [hs] at hsome; simp at hsome
  · rfl

theorem castUChar_of_unit [FloorRing K] (c : K) (h0 : 0 ≤ c) (h1 : c ≤ 1) :
    castUChar (c * 255) = ⌊c * 255⌋ ∧ 0 ≤ castUChar (c * 255) ∧ castUChar (c * 255) ≤ 255 := by
  have hnn : 0 ≤ c * 255 := by positivity
  have hc : castUChar (c * 255) = ⌊c * 255⌋ := by
    simp only [castUChar, castInt]
    rw [if_pos hnn]
  refine ⟨hc, ?_, ?_⟩
  · rw [hc]; exact Int.floor_nonneg.mpr hnn
  · rw [hc]
    have hlt : c * 255 < ((256 : Int) : K) := by push_cast; linarith
    have := Int.floor_lt.mpr hlt
    omega

/-- C16: for every scene, ray, depth and random stream, each channel of a colour
returned by shade and by traceRay lies in [0,1]; hence the average of the
samples of a pixel lies in [0,1] and every byte stored for the pixel lies in
[0,255]; under the scene invariants shade, traceRay and the pixel body do
return. -/
theorem shading_colour_range [FloorRing K] (sqrt : K → K)
    (sort : List (CSGIntersection K) → List (CSGIntersection K)) (pow : K → K → K)
    (rand : Nat → K) (RAND_MAX : K) (scene : Scene K) :
    (∀ (hit : HitInfo K) (ray : Ray K) (depth : Int) (st : Exec) (c : Vec3 K) (st' : Exec),
      shade sqrt sort pow rand RAND_MAX hit scene ray depth st = some (c, st') → c.InUnit) ∧
    (∀ (ray : Ray K) (depth : Int) (st : Exec) (c : Vec3 K) (st' : Exec),
      traceRay sqrt sort pow rand RAND_MAX ray scene depth st = some (c, st') → c.InUnit) ∧
    (∀ (cameraRay : Exec → Ray K × Exec) (st : Exec) (sum : Vec3 K) (st' : Exec),
      sampleLoop sqrt sort pow rand RAND_MAX cameraRay scene SAMPLES.toNat ⟨0, 0, 0⟩ st =
        some (sum, st') → (sum.divide (SAMPLES : K)).InUnit) ∧
    (∀ (cameraRay : Exec → Ray K × Exec) (st : Exec) (bytes : Int × Int × Int) (st' : Exec),
      renderPixel sqrt sort pow rand RAND_MAX cameraRay scene st = some (bytes, st') →
      (0 ≤ bytes.1 ∧ bytes.1 ≤ 255) ∧ (0 ≤ bytes.2.1 ∧ bytes.2.1 ≤ 255) ∧
        (0 ≤ bytes.2.2 ∧ bytes.2.2 ≤ 255)) ∧
    (SceneOk scene →
      (∀ (hit : HitInfo K) (ray : Ray K) (depth : Int) (st : Exec) (obj : Object K),
        vectorAt scene.objects hit.objectIdx = some obj →
        (shade sqrt sort pow rand RAND_MAX hit scene ray depth st).isSome = true) ∧
      (∀ (ray : Ray K) (depth : Int) (st : Exec),
        (traceRay sqrt sort pow rand RAND_MAX ray scene depth st).isSome = true) ∧
      (∀ (cameraRay : Exec → Ray K × Exec) (st : Exec),
        (renderPixel sqrt sort pow rand RAND_MAX cameraRay scene st).isSome = true)) := by
  have htot : SceneOk scene →
      (∀ (hit : HitInfo K) (ray : Ray K) (depth : Int) (st : Exec) (obj : Object K),
        vectorAt scene.objects hit.objectIdx = some obj →
        (shade sqrt sort pow rand RAND_MAX hit scene ray depth st).isSome = true) ∧
      (∀ (ray : Ray K) (depth : Int) (st : Exec),
        (traceRay sqrt sort pow rand RAND_MAX ray scene depth st).isSome = true) ∧
      (∀ (cameraRay : Exec → Ray K × Exec) (st : Exec),
        (renderPixel sqrt sort pow rand RAND_MAX cameraRay scene st).isSome = true) :=
    fun hok => ⟨fun hit ray depth st obj hobj =>
        shade_isSome sqrt sort pow rand RAND_MAX scene hok hit ray depth st obj hobj,
      fun ray depth st => traceRay_isSome sqrt sort pow rand RAND_MAX scene hok ray depth st,
      fun cameraRay st => renderPixel_isSome sqrt sort pow rand RAND_MAX cameraRay scene hok st⟩
  have havg : ∀ (cameraRay : Exec → Ray K × Exec) (st : Exec) (sum : Vec3 K) (st' : Exec),
      sampleLoop sqrt sort pow rand RAND_MAX cameraRay scene SAMPLES.toNat ⟨0, 0, 0⟩ st =
        some (sum, st') → (sum.divide (SAMPLES : K)).InUnit := by
    intro cameraRay st sum st' h
    have hb := sampleLoop_bounds sqrt sort pow rand RAND_MAX cameraRay scene _ _ st sum st' h
    simp only [SAMPLES, Int.toNat_ofNat, Nat.cast_ofNat, zero_add] at hb
    simp only [Vec3.divide, Vec3.InUnit, SAMPLES, Int.cast_ofNat]
    refine ⟨⟨?_, ?_⟩, ⟨?_, ?_⟩, ⟨?_, ?_⟩⟩
    · exact div_nonneg hb.1.1 (by norm_num)
    · rw [div_le_one (by norm_num)]; exact hb.1.2
    · exact div_nonneg hb.2.1.1 (by norm_num)
    · rw [div_le_one (by norm_num)]; exact hb.2.1.2
    · exact div_nonneg hb.2.2.1 (by norm_num)
    · rw [div_le_one (by norm_num)]; exact hb.2.2.2
  refine ⟨fun hit ray depth st c st' h =>
      shade_inUnit sqrt sort pow rand RAND_MAX hit scene ray depth st c st' h,
    fun ray depth st c st' h =>
      traceRay_inUnit sqrt sort pow rand RAND_MAX ray scene depth st c st' h, havg, ?_, htot⟩
  intro cameraRay st bytes st' h
  unfold renderPixel at h
  rcases hs : sampleLoop sqrt sort pow rand RAND_MAX cameraRay scene SAMPLES.toNat ⟨0, 0, 0⟩ st
    with _ | ⟨sum, s⟩
  · rw [hs] at h; simp at h
  · rw [hs] at h
    simp only [Option.some.injEq, Prod.mk.injEq] at h
    have hu := havg cameraRay st sum s hs
    rw [← h.1]
    simp only [storePixel]
    exact ⟨(castUChar_of_unit _ hu.1.1 hu.1.2).2, (castUChar_of_unit _ hu.2.1.1 hu.2.1.2).2,
      (castUChar_of_unit _ hu.2.2.1 hu.2.2.2).2⟩

/-! ### A lit scene evaluated -/

/-- In ambientScene the ray down the axis from the origin hits the sphere and is
shaded with the ambient term alone: traceRay returns the pigment colour times
ka, clamped, having logged one call. -/
theorem traceRay_ambientScene [FloorRing K] (sqrt : K → K) (hs : IsSqrt sqrt)
    (sort : List (CSGIntersection K) → List (CSGIntersection K)) (pow : K → K → K)
    (rand : Nat → K) (RAND_MAX : K) (color : Vec3 K) (ka : K) (depth : Int)
    (hd : depth ≤ MAX_DEPTH) (st : Exec) :
    traceRay sqrt sort pow rand RAND_MAX ⟨⟨0, 0, 0⟩, ⟨0, 0, -1⟩⟩ (ambientScene color ka) depth st =
      some (((color.mul ⟨1, 1, 1⟩).scale ka).clamp 0 1,
        { st with traceDepths := st.traceDepths ++ [depth] }) := by
  have hhit := findClosestHit_unit_sphere sqrt hs sort (ambientScene color ka) rfl
  rw [traceRay_eq, if_neg (not_lt.mpr hd), hhit]
  simp [shadeWith, shadeLocal, vectorAt, ambientScene, sphereObject, Object.pigmentIdx,
    Object.finishIdx, getPigmentColor, Pigment.ctor, Finish.ctor, shadeLights]

/-- The sampling loop over a camera that draws nothing, when every sample is
traced to the same colour c: the sum grows by c per sample. -/
theorem sampleLoop_const [FloorRing K] (sqrt : K → K)
    (sort : List (CSGIntersection K) → List (CSGIntersection K)) (pow : K → K → K)
    (rand : Nat → K) (RAND_MAX : K) (scene : Scene K) (ray : Ray K) (c : Vec3 K)
    (htrace : ∀ st : Exec, traceRay sqrt sort pow rand RAND_MAX ray scene 0 st =
      some (c, { st with traceDepths := st.traceDepths ++ [0] }))
    (n : Nat) (p : Vec3 K) (st : Exec) :
    ∃ st' : Exec, sampleLoop sqrt sort pow rand RAND_MAX (fun s => (ray, s)) scene n p st =
      some (⟨p.x + n * c.x, p.y + n * c.y, p.z + n * c.z⟩, st') := by
  induction n generalizing p st with
  | zero => exact ⟨st, by simp [sampleLoop]⟩
  | succ n ih =>
    simp only [sampleLoop, htrace]
    obtain ⟨st', h⟩ := ih (p.add c) { st with traceDepths := st.traceDepths ++ [0] }
    refine ⟨st', ?_⟩
    rw [h]
    simp only [Vec3.add, Option.some.injEq, Prod.mk.injEq, and_true, Vec3.mk.injEq]
    push_cast
    refine ⟨by ring, by ring, by ring⟩

/-- C17 fails as stated: for the pixel whose 16 samples all see the sphere of
ambientScene with colour 1/2, the averaged channel is c = 1/2 and the bytes
stored are 127, while round(c * 255) = round(127.5) = 128. -/
theorem renderPixel_truncates_half :
    (∃ st' : Exec, renderPixel Real.sqrt insertionSortByT Real.rpow (fun _ => 0) 2147483647
      axisCamera (ambientScene (⟨1 / 2, 1 / 2, 1 / 2⟩ : Vec3 ℝ) 1) ⟨0, []⟩ =
        some ((127, 127, 127), st')) ∧
    roundNonneg ((1 / 2 : ℝ) * 255) = 128 := by
  constructor
  · obtain ⟨st', h⟩ := sampleLoop_const Real.sqrt insertionSortByT Real.rpow (fun _ => 0)
      2147483647 (ambientScene (⟨1 / 2, 1 / 2, 1 / 2⟩ : Vec3 ℝ) 1) ⟨⟨0, 0, 0⟩, ⟨0, 0, -1⟩⟩
      ⟨1 / 2, 1 / 2, 1 / 2⟩
      (fun st => by
        rw [traceRay_ambientScene Real.sqrt isSqrt_real _ _ _ _ _ _ 0 (by decide) st]
        simp [Vec3.mul, Vec3.scale, Vec3.clamp]
        norm_num)
      SAMPLES.toNat ⟨0, 0, 0⟩ ⟨0, []⟩
    refine ⟨st', ?_⟩
    unfold renderPixel
    have hcam : (axisCamera : Exec → Ray ℝ × Exec) = fun s => (⟨⟨0, 0, 0⟩, ⟨0, 0, -1⟩⟩, s) := rfl
    rw [hcam, h]
    have h127 : ⌊(255 / 2 : ℝ)⌋ = 127 := by
      rw [Int.floor_eq_iff]; constructor <;> norm_num
    have hS : Int.toNat 16 = 16 := rfl
    simp only [storePixel, castUChar, castInt, Vec3.divide, SAMPLES, hS]
    norm_num [h127]
  · simp only [roundNonneg]
    rw [Int.floor_eq_iff]; constructor <;> norm_num

/-- C17, as amended: for a pixel whose averaged channels c lie in [0,1], the byte
stored is floor(c * 255), the truncation made by the conversion to unsigned
char; it is round(c * 255) or one less, and equals round(c * 255) exactly when
the fractional part of c * 255 is below 1/2. -/
theorem storePixel_truncates [FloorRing K] (pixelColor : Vec3 K)
    (h : (pixelColor.divide (SAMPLES : K)).InUnit) :
    storePixel pixelColor =
      (⌊(pixelColor.divide (SAMPLES : K)).x * 255⌋, ⌊(pixelColor.divide (SAMPLES : K)).y * 255⌋,
        ⌊(pixelColor.divide (SAMPLES : K)).z * 255⌋) ∧
    (∀ c : K, 0 ≤ c → c ≤ 1 →
      ⌊c * 255⌋ ≤ roundNonneg (c * 255) ∧ roundNonneg (c * 255) ≤ ⌊c * 255⌋ + 1 ∧
      (⌊c * 255⌋ = roundNonneg (c * 255) ↔ Int.fract (c * 255) < 1 / 2)) := by
  constructor
  · simp only [storePixel]
    rw [(castUChar_of_unit _ h.1.1 h.1.2).1, (castUChar_of_unit _ h.2.1.1 h.2.1.2).1,
      (castUChar_of_unit _ h.2.2.1 h.2.2.2).1]
  · intro c _ _
    simp only [roundNonneg]
    have h1 : ⌊c * 255⌋ ≤ ⌊c * 255 + 1 / 2⌋ := Int.floor_mono (by linarith)
    have h2 : ⌊c * 255 + 1 / 2⌋ ≤ ⌊c * 255⌋ + 1 := by
      have : ⌊c * 255 + 1 / 2⌋ ≤ ⌊c * 255 + 1⌋ := Int.floor_mono (by linarith)
      rwa [Int.floor_add_one] at this
    refine ⟨h1, h2, ?_⟩
    constructor
    · intro heq
      have hlt : c * 255 + 1 / 2 < (⌊c * 255⌋ : K) + 1 := by
        have := Int.lt_floor_add_one (c * 255 + 1 / 2)
        rw [← heq] at this
        exact this
      have hf : Int.fract (c * 255) = c * 255 - ⌊c * 255⌋ := rfl
      rw [hf]; linarith
    · intro hfr
      have hf : Int.fract (c * 255) = c * 255 - ⌊c * 255⌋ := rfl
      rw [hf] at hfr
      apply le_antisymm h1
      have : ⌊c * 255 + 1 / 2⌋ < ⌊c * 255⌋ + 1 := by
        rw [Int.floor_lt]
        push_cast
        linarith
      omega

/-- Witness for C17: the pixel whose samples sum to (8, 8, 8). -/
theorem storePixel_truncates_witness :
    ((⟨8, 8, 8⟩ : Vec3 ℝ).divide (SAMPLES : ℝ)).InUnit ∧
    storePixel (⟨8, 8, 8⟩ : Vec3 ℝ) =
      (⌊((⟨8, 8, 8⟩ : Vec3 ℝ).divide (SAMPLES : ℝ)).x * 255⌋,
        ⌊((⟨8, 8, 8⟩ : Vec3 ℝ).divide (SAMPLES : ℝ)).y * 255⌋,
        ⌊((⟨8, 8, 8⟩ : Vec3 ℝ).divide (SAMPLES : ℝ)).z * 255⌋) := by
  have h : ((⟨8, 8, 8⟩ : Vec3 ℝ).divide (SAMPLES : ℝ)).InUnit := by
    simp only [Vec3.divide, Vec3.InUnit, SAMPLES]
    norm_num
  exact ⟨h, (storePixel_truncates ⟨8, 8, 8⟩ h).1⟩

/-! ### The number of traceRay calls -/

theorem reflectedRay_traceDepths (sqrt : K → K) (rand : Nat → K) (RAND_MAX : K)
    (hit : HitInfo K) (ray : Ray K) (finish : Finish K) (st : Exec) :
    (reflectedRay sqrt rand RAND_MAX hit ray finish st).2.traceDepths = st.traceDepths := rfl

theorem refractedRay_traceDepths (sqrt : K → K) (rand : Nat → K) (RAND_MAX : K)
    (hit : HitInfo K) (ray : Ray K) (finish : Finish K) (st : Exec) (rr : Ray K) (s : Exec)
    (h : refractedRay sqrt rand RAND_MAX hit ray finish st = some (rr, s)) :
    s.traceDepths = st.traceDepths := by
  unfold refractedRay at h
  simp only at h
  split_ifs at h <;>
  · simp only [Option.some.injEq, Prod.mk.injEq] at h
    rw [← h.2]
    rfl

/-- The calls logged by one call of traceRay at the given depth: they extend the
log, their depths lie between the depth of the call and MAX_DEPTH, there are
fewer than 2 ^ (MAX_DEPTH + 1 - depth) of them, and at most
MAX_DEPTH + 1 - depth when no finish transmits. -/
theorem traceRay_calls [FloorRing K] (sqrt : K → K)
    (sort : List (CSGIntersection K) → List (CSGIntersection K)) (pow : K → K → K)
    (rand : Nat → K) (RAND_MAX : K) (scene : Scene K) (ray : Ray K) (depth : Int)
    (st : Exec) (c : Vec3 K) (st' : Exec)
    (h : traceRay sqrt sort pow rand RAND_MAX ray scene depth st = some (c, st')) :
    ∃ calls : List Int, st'.traceDepths = st.traceDepths ++ calls ∧
      calls.length + 1 ≤ 2 ^ (max 1 (MAX_DEPTH + 1 - depth).toNat) ∧
      (∀ d ∈ calls, depth ≤ d ∧ d ≤ max depth MAX_DEPTH) ∧
      ((∀ f ∈ scene.finishes, f.kt = 0) →
        calls.length ≤ max 1 (MAX_DEPTH + 1 - depth).toNat) := by
  refine traceRay_induction sqrt sort pow rand RAND_MAX scene
    (fun _ depth st r => ∀ (c : Vec3 K) (st' : Exec), r = some (c, st') →
      ∃ calls : List Int, st'.traceDepths = st.traceDepths ++ calls ∧
        calls.length + 1 ≤ 2 ^ (max 1 (MAX_DEPTH + 1 - depth).toNat) ∧
        (∀ d ∈ calls, depth ≤ d ∧ d ≤ max depth MAX_DEPTH) ∧
        ((∀ f ∈ scene.finishes, f.kt = 0) →
          calls.length ≤ max 1 (MAX_DEPTH + 1 - depth).toNat))
    ?_ ?_ ray depth st c st' h
  · intro ray depth st _ c st' h
    simp only [Option.some.injEq, Prod.mk.injEq] at h
    refine ⟨[depth], by rw [← h.2], ?_, ?_, ?_⟩
    · have : 2 ^ 1 ≤ 2 ^ (max 1 (MAX_DEPTH + 1 - depth).toNat) :=
        Nat.pow_le_pow_right (by norm_num) (le_max_left _ _)
      simpa using this
    · intro d hd
      simp only [List.mem_singleton] at hd
      rw [hd]
      exact ⟨le_refl _, le_max_left _ _⟩
    · intro _
      simp
  · intro ray depth st hdepth _ ih c st' h
    obtain ⟨finish, color0, st0, color1, st1, color2, hloc, hrefl, hrefr, -⟩ :=
      shadeWith_some sqrt sort pow rand RAND_MAX _ scene ray depth _ _ c st' h
    obtain ⟨-, -, -, -, -, -, -, -, hfin, hst0⟩ :=
      shadeLocal_some sqrt sort pow rand RAND_MAX _ scene ray _ finish color0 st0 hloc
    simp only at hst0
    -- the calls of the reflection stage
    have h1 : ∃ calls1 : List Int, st1.traceDepths = st0.traceDepths ++ calls1 ∧
        (calls1 = [] ∨ (depth < MAX_DEPTH ∧
          calls1.length + 1 ≤ 2 ^ (max 1 (MAX_DEPTH + 1 - (depth + 1)).toNat) ∧
          ((∀ f ∈ scene.finishes, f.kt = 0) →
            calls1.length ≤ max 1 (MAX_DEPTH + 1 - (depth + 1)).toNat))) ∧
        (∀ d ∈ calls1, depth ≤ d ∧ d ≤ max depth MAX_DEPTH) := by
      rcases hrefl with ⟨-, hlt, rc, htr, -⟩ | ⟨-, -, hst⟩
      · obtain ⟨calls, hc1, hc2, hc3, hc4⟩ := ih _ _ rc st1 htr
        rw [reflectedRay_traceDepths] at hc1
        refine ⟨calls, hc1, Or.inr ⟨hlt, hc2, hc4⟩, ?_⟩
        intro d hd
        have := hc3 d hd
        simp only [MAX_DEPTH] at *
        omega
      · exact ⟨[], by rw [hst]; simp, Or.inl rfl, by simp⟩
    -- the calls of the refraction stage
    have h2 : ∃ calls2 : List Int, st'.traceDepths = st1.traceDepths ++ calls2 ∧
        (calls2 = [] ∨ (depth < MAX_DEPTH ∧ finish.kt > 0 ∧
          calls2.length + 1 ≤ 2 ^ (max 1 (MAX_DEPTH + 1 - (depth + 1)).toNat))) ∧
        (∀ d ∈ calls2, depth ≤ d ∧ d ≤ max depth MAX_DEPTH) := by
      rcases hrefr with ⟨hkt, hlt, rr, s, rc, hrf, htr, -⟩ | ⟨-, -, hst⟩
      · obtain ⟨calls, hc1, hc2, hc3, -⟩ := ih _ _ rc st' htr
        rw [refractedRay_traceDepths sqrt rand RAND_MAX _ ray finish st1 rr s hrf] at hc1
        refine ⟨calls, hc1, Or.inr ⟨hlt, hkt, hc2⟩, ?_⟩
        intro d hd
        have := hc3 d hd
        simp only [MAX_DEPTH] at *
        omega
      · exact ⟨[], by rw [hst]; simp, Or.inl rfl, by simp⟩
    obtain ⟨calls1, hl1, hb1, hd1⟩ := h1
    obtain ⟨calls2, hl2, hb2, hd2⟩ := h2
    refine ⟨depth :: (calls1 ++ calls2), ?_, ?_, ?_, ?_⟩
    · rw [hl2, hl1, hst0]
      simp
    · simp only [List.length_cons, List.length_append]
      have hone : 2 ^ 1 ≤ 2 ^ (max 1 (MAX_DEPTH + 1 - depth).toNat) :=
        Nat.pow_le_pow_right (by norm_num) (le_max_left _ _)
      have hstep : depth < MAX_DEPTH →
          2 * 2 ^ (max 1 (MAX_DEPTH + 1 - (depth + 1)).toNat) ≤
            2 ^ (max 1 (MAX_DEPTH + 1 - depth).toNat) := by
        intro hlt
        rw [← pow_succ']
        apply Nat.pow_le_pow_right (by norm_num)
        simp only [MAX_DEPTH] at *
        omega
      have hpos : 1 ≤ 2 ^ (max 1 (MAX_DEPTH + 1 - (depth + 1)).toNat) := Nat.one_le_two_pow
      rcases hb1 with hb1 | ⟨hlt1, hb1, -⟩ <;> rcases hb2 with hb2 | ⟨hlt2, -, hb2⟩
      · rw [hb1, hb2]; simpa using hone
      · rw [hb1]; have := hstep hlt2; simp only [List.length_nil]; omega
      · rw [hb2]; have := hstep hlt1; simp only [List.length_nil]; omega
      · have := hstep hlt1; omega
    · intro d hd
      rcases List.mem_cons.mp hd with rfl | hd
      · exact ⟨le_refl _, le_max_left _ _⟩
      · rcases List.mem_append.mp hd with hd | hd
        · exact hd1 d hd
        · exact hd2 d hd
    · intro hkt
      have hkt0 := hkt finish hfin
      have hc2 : calls2 = [] := by
        rcases hb2 with hb2 | ⟨-, hpos, -⟩
        · exact hb2
        · rw [hkt0] at hpos; exact absurd hpos (lt_irrefl 0)
      rw [hc2]
      simp only [List.append_nil, List.length_cons]
      rcases hb1 with hb1 | ⟨hlt1, -, hb1⟩
      · rw [hb1]; simp
      · have := hb1 hkt
        simp only [MAX_DEPTH] at *
        omega

/-- C15: a traceRay call started at depth 0 calls traceRay only with depths from 0
to MAX_DEPTH = 5, at most 63 times in all and at most 6 times when every finish
has kt = 0; under the scene invariants the call returns a colour.  (That
traceRay and shade terminate on every input is what their definitions by
well-founded recursion on MAX_DEPTH + 1 - depth establish.) -/
theorem traceRay_bounded [FloorRing K] (sqrt : K → K)
    (sort : List (CSGIntersection K) → List (CSGIntersection K)) (pow : K → K → K)
    (rand : Nat → K) (RAND_MAX : K) (scene : Scene K) (ray : Ray K) (st : Exec) :
    (∀ (c : Vec3 K) (st' : Exec),
      traceRay sqrt sort pow rand RAND_MAX ray scene 0 st = some (c, st') →
      ∃ calls : List Int, st'.traceDepths = st.traceDepths ++ calls ∧
        (∀ d ∈ calls, 0 ≤ d ∧ d ≤ MAX_DEPTH) ∧ calls.length ≤ 63 ∧
        ((∀ f ∈ scene.finishes, f.kt = 0) → calls.length ≤ 6)) ∧
    (SceneOk scene →
      ∃ (c : Vec3 K) (st' : Exec),
        traceRay sqrt sort pow rand RAND_MAX ray scene 0 st = some (c, st')) := by
  constructor
  · intro c st' h
    obtain ⟨calls, h1, h2, h3, h4⟩ :=
      traceRay_calls sqrt sort pow rand RAND_MAX scene ray 0 st c st' h
    have e : max 1 (MAX_DEPTH + 1 - 0).toNat = 6 := by decide
    rw [e] at h2 h4
    refine ⟨calls, h1, ?_, by omega, h4⟩
    intro d hd
    have := h3 d hd
    simp only [MAX_DEPTH] at *
    omega
  · intro hok
    have := traceRay_isSome sqrt sort pow rand RAND_MAX scene hok ray 0 st
    rcases htr : traceRay sqrt sort pow rand RAND_MAX ray scene 0 st with _ | ⟨c, s⟩
    · rw [htr] at this; simp at this
    · exact ⟨c, s, rfl⟩

/-! ### The black scene -/

theorem Vec3.scale_zero (v : Vec3 K) : v.scale 0 = ⟨0, 0, 0⟩ := by
  simp [Vec3.scale]

theorem Vec3.zero_scale (k : K) : (⟨0, 0, 0⟩ : Vec3 K).scale k = ⟨0, 0, 0⟩ := by
  simp [Vec3.scale]

theorem Vec3.zero_add_zero : (⟨0, 0, 0⟩ : Vec3 K).add ⟨0, 0, 0⟩ = ⟨0, 0, 0⟩ := by
  simp [Vec3.add]

theorem Vec3.clamp_zero : (⟨0, 0, 0⟩ : Vec3 K).clamp 0 1 = ⟨0, 0, 0⟩ := by
  simp [Vec3.clamp]

/-- With a single light and ka = 0 on every finish, every colour traceRay returns
is black. -/
theorem traceRay_black [FloorRing K] (sqrt : K → K)
    (sort : List (CSGIntersection K) → List (CSGIntersection K)) (pow : K → K → K)
    (rand : Nat → K) (RAND_MAX : K) (scene : Scene K) (l0 : Light K)
    (hl : scene.lights = [l0]) (hka : ∀ f ∈ scene.finishes, f.ka = 0)
    (ray : Ray K) (depth : Int) (st : Exec) (c : Vec3 K) (st' : Exec)
    (h : traceRay sqrt sort pow rand RAND_MAX ray scene depth st = some (c, st')) :
    c = ⟨0, 0, 0⟩ := by
  refine traceRay_induction sqrt sort pow rand RAND_MAX scene
    (fun _ _ _ r => ∀ (c : Vec3 K) (st' : Exec), r = some (c, st') → c = ⟨0, 0, 0⟩)
    ?_ ?_ ray depth st c st' h
  · intro ray depth st _ c st' h
    simp only [Option.some.injEq, Prod.mk.injEq] at h
    exact h.1.symm
  · intro ray depth st _ _ ih c st' h
    obtain ⟨finish, color0, st0, color1, st1, color2, hloc, hrefl, hrefr, hc⟩ :=
      shadeWith_some sqrt sort pow rand RAND_MAX _ scene ray depth _ _ c st' h
    obtain ⟨obj, pigment, light0, -, -, -, -, heq, hfin, -⟩ :=
      shadeLocal_some sqrt sort pow rand RAND_MAX _ scene ray _ finish color0 st0 hloc
    have h0 : color0 = ⟨0, 0, 0⟩ := by
      rw [hl, hka finish hfin] at heq
      simp only [List.drop_succ_cons, List.drop_zero, shadeLights, Prod.mk.injEq] at heq
      rw [heq.1, Vec3.scale_zero]
    have h1 : color1 = ⟨0, 0, 0⟩ := by
      rcases hrefl with ⟨-, -, rc, htr, hc1⟩ | ⟨-, hc1, -⟩
      · rw [hc1, h0, ih _ _ rc st1 htr, Vec3.zero_scale, Vec3.zero_add_zero]
      · rw [hc1, h0]
    have h2 : color2 = ⟨0, 0, 0⟩ := by
      rcases hrefr with ⟨-, -, rr, s, rc, -, htr, hc2⟩ | ⟨-, hc2, -⟩
      · rw [hc2, h1, ih _ _ rc st' htr, Vec3.zero_scale, Vec3.zero_add_zero]
      · rw [hc2, h1]
    rw [hc, h2, Vec3.clamp_zero]

/-- The sum of the sampling loop when every colour traced is black. -/
theorem sampleLoop_black [FloorRing K] (sqrt : K → K)
    (sort : List (CSGIntersection K) → List (CSGIntersection K)) (pow : K → K → K)
    (rand : Nat → K) (RAND_MAX : K) (cameraRay : Exec → Ray K × Exec) (scene : Scene K)
    (hblack : ∀ (ray : Ray K) (st : Exec) (c : Vec3 K) (st' : Exec),
      traceRay sqrt sort pow rand RAND_MAX ray scene 0 st = some (c, st') → c = ⟨0, 0, 0⟩)
    (n : Nat) (st : Exec) (p : Vec3 K) (st' : Exec)
    (h : sampleLoop sqrt sort pow rand RAND_MAX cameraRay scene n ⟨0, 0, 0⟩ st = some (p, st')) :
    p = ⟨0, 0, 0⟩ := by
  induction n generalizing st with
  | zero =>
    simp only [sampleLoop, Option.some.injEq, Prod.mk.injEq] at h
    exact h.1.symm
  | succ n ih =>
    simp only [sampleLoop] at h
    rcases htr : traceRay sqrt sort pow rand RAND_MAX (cameraRay st).1 scene 0 (cameraRay st).2
      with _ | ⟨c, s⟩
    · rw [htr] at h; simp at h
    · rw [htr] at h
      simp only at h
      rw [hblack _ _ c s htr, Vec3.zero_add_zero] at h
      exact ih s h

theorem storePixel_zero [FloorRing K] : storePixel (⟨0, 0, 0⟩ : Vec3 K) = (0, 0, 0) := by
  simp [storePixel, Vec3.divide, castUChar, castInt]

/-- C18: in a scene whose light list holds only the first light and whose
finishes all have ka = 0, every colour traceRay returns is (0,0,0), for every
ray, depth and random stream, whatever kr and kt; under the scene invariants
traceRay does return; and the three bytes stored for every pixel are 0. -/
theorem black_scene [FloorRing K] (sqrt : K → K)
    (sort : List (CSGIntersection K) → List (CSGIntersection K)) (pow : K → K → K)
    (rand : Nat → K) (RAND_MAX : K) (scene : Scene K) (l0 : Light K)
    (hl : scene.lights = [l0]) (hka : ∀ f ∈ scene.finishes, f.ka = 0) :
    (∀ (ray : Ray K) (depth : Int) (st : Exec) (c : Vec3 K) (st' : Exec),
      traceRay sqrt sort pow rand RAND_MAX ray scene depth st = some (c, st') →
      c = ⟨0, 0, 0⟩) ∧
    (SceneOk scene → ∀ (ray : Ray K) (depth : Int) (st : Exec), ∃ st' : Exec,
      traceRay sqrt sort pow rand RAND_MAX ray scene depth st = some (⟨0, 0, 0⟩, st')) ∧
    (∀ (cameraRay : Exec → Ray K × Exec) (st : Exec) (bytes : Int × Int × Int) (st' : Exec),
      renderPixel sqrt sort pow rand RAND_MAX cameraRay scene st = some (bytes, st') →
      bytes = (0, 0, 0)) ∧
    (SceneOk scene → ∀ (cameraRay : Exec → Ray K × Exec) (st : Exec), ∃ st' : Exec,
      renderPixel sqrt sort pow rand RAND_MAX cameraRay scene st = some ((0, 0, 0), st')) := by
  have hpix : ∀ (cameraRay : Exec → Ray K × Exec) (st : Exec) (bytes : Int × Int × Int)
      (st' : Exec), renderPixel sqrt sort pow rand RAND_MAX cameraRay scene st =
        some (bytes, st') → bytes = (0, 0, 0) := by
    intro cameraRay st bytes st' h
    unfold renderPixel at h
    rcases hs : sampleLoop sqrt sort pow rand RAND_MAX cameraRay scene SAMPLES.toNat ⟨0, 0, 0⟩ st
      with _ | ⟨sum, s⟩
    · rw [hs] at h; simp at h
    · rw [hs] at h
      simp only [Option.some.injEq, Prod.mk.injEq] at h
      have := sampleLoop_black sqrt sort pow rand RAND_MAX cameraRay scene
        (fun ray st c st' htr =>
          traceRay_black sqrt sort pow rand RAND_MAX scene l0 hl hka ray 0 st c st' htr)
        _ st sum s hs
      rw [← h.1, this, storePixel_zero]
  refine ⟨fun ray depth st c st' h =>
      traceRay_black sqrt sort pow rand RAND_MAX scene l0 hl hka ray depth st c st' h,
    ?_, hpix, ?_⟩
  · intro hok ray depth st
    have := traceRay_isSome sqrt sort pow rand RAND_MAX scene hok ray depth st
    rcases htr : traceRay sqrt sort pow rand RAND_MAX ray scene depth st with _ | ⟨c, s⟩
    · rw [htr] at this; simp at this
    · exact ⟨s, by rw [traceRay_black sqrt sort pow rand RAND_MAX scene l0 hl hka ray depth st
        c s htr]⟩
  · intro hok cameraRay st
    have hsome := sampleLoop_isSome sqrt sort pow rand RAND_MAX cameraRay scene hok
      SAMPLES.toNat ⟨0, 0, 0⟩ st
    rcases hr : renderPixel sqrt sort pow rand RAND_MAX cameraRay scene st with _ | ⟨bytes, s⟩
    · unfold renderPixel at hr
      rcases hs : sampleLoop sqrt sort pow rand RAND_MAX cameraRay scene SAMPLES.toNat
        ⟨0, 0, 0⟩ st with _ | ⟨sum, s⟩
      · rw [hs] at hsome; simp at hsome
      · rw [hs] at hr; simp at hr
    · exact ⟨s, by rw [hpix cameraRay st bytes s hr]⟩

/-! ### The first light -/

/-- The loop over the lights reads the scene only through its objects. -/
theorem shadeLights_congr [FloorRing K] (sqrt : K → K)
    (sort : List (CSGIntersection K) → List (CSGIntersection K)) (pow : K → K → K)
    (rand : Nat → K) (RAND_MAX : K) (hit : HitInfo K) (s1 s2 : Scene K)
    (hobj : s2.objects = s1.objects) (ray : Ray K)
    (baseColor : Vec3 K) (finish : Finish K) (lights : List (Light K)) (color : Vec3 K)
    (st : Exec) :
    shadeLights sqrt sort pow rand RAND_MAX hit s2 ray baseColor finish lights color st =
      shadeLights sqrt sort pow rand RAND_MAX hit s1 ray baseColor finish lights color st := by
  induction lights generalizing color st with
  | nil => rfl
  | cons l rest ih =>
    simp only [shadeLights]
    have : shadeLight sqrt sort pow rand RAND_MAX hit s2 ray baseColor finish l color st =
        shadeLight sqrt sort pow rand RAND_MAX hit s1 ray baseColor finish l color st := by
      simp only [shadeLight, findClosestHit, hobj]
    rw [this, ih]

/-- The local part of shade reads lights[0] only through its colour. -/
theorem shadeLocal_first_light [FloorRing K] (sqrt : K → K)
    (sort : List (CSGIntersection K) → List (CSGIntersection K)) (pow : K → K → K)
    (rand : Nat → K) (RAND_MAX : K) (hit : HitInfo K) (s1 : Scene K) (l0 : Light K)
    (rest : List (Light K)) (position attenuation : Vec3 K) (hl : s1.lights = l0 :: rest)
    (ray : Ray K) (st : Exec) :
    shadeLocal sqrt sort pow rand RAND_MAX hit
        { s1 with lights := { l0 with position := position, attenuation := attenuation } :: rest }
        ray st =
      shadeLocal sqrt sort pow rand RAND_MAX hit s1 ray st := by
  unfold shadeLocal
  simp only [hl, List.getElem?_cons_zero, List.drop_succ_cons, List.drop_zero]
  rcases vectorAt s1.objects hit.objectIdx with _ | obj
  · rfl
  · simp only
    rcases vectorAt s1.pigments obj.pigmentIdx with _ | pigment
    · rfl
    · simp only
      rcases vectorAt s1.finishes obj.finishIdx with _ | fin
      · rfl
      · simp only
        rw [shadeLights_congr sqrt sort pow rand RAND_MAX hit s1
          { s1 with lights := { l0 with position := position, attenuation := attenuation } :: rest }
          rfl]

/-- C19: two scenes that differ only in the position and the attenuation of
lights[0] give the same result of traceRay, colour and state, for every ray,
depth and random stream. -/
theorem first_light_ambient_only [FloorRing K] (sqrt : K → K)
    (sort : List (CSGIntersection K) → List (CSGIntersection K)) (pow : K → K → K)
    (rand : Nat → K) (RAND_MAX : K) (s1 : Scene K) (l0 : Light K)
    (rest : List (Light K)) (position attenuation : Vec3 K) (hl : s1.lights = l0 :: rest)
    (ray : Ray K) (depth : Int) (st : Exec) :
    traceRay sqrt sort pow rand RAND_MAX ray
        { s1 with lights := { l0 with position := position, attenuation := attenuation } :: rest }
        depth st =
      traceRay sqrt sort pow rand RAND_MAX ray s1 depth st := by
  refine traceRay_induction sqrt sort pow rand RAND_MAX s1
    (fun ray depth st r => traceRay sqrt sort pow rand RAND_MAX ray
      { s1 with lights := { l0 with position := position, attenuation := attenuation } :: rest }
      depth st = r) ?_ ?_ ray depth st
  · intro ray depth st h
    rw [traceRay_eq]
    rcases h with h | h
    · rw [if_pos h]
    · by_cases hd : depth > MAX_DEPTH
      · rw [if_pos hd]
      · rw [if_neg hd]
        have : (findClosestHit sqrt sort ray
            { s1 with lights := { l0 with position := position, attenuation := attenuation } :: rest }).hit
            = false := h
        rw [if_neg (by rw [this]; simp)]
  · intro ray depth st hd hh ih
    rw [traceRay_eq, if_neg (not_lt.mpr hd)]
    have hf : findClosestHit sqrt sort ray
        { s1 with lights := { l0 with position := position, attenuation := attenuation } :: rest }
        = findClosestHit sqrt sort ray s1 := rfl
    rw [hf, if_pos hh]
    have htr : (fun (r : Ray K) (s : Exec) => traceRay sqrt sort pow rand RAND_MAX r
        { s1 with lights := { l0 with position := position, attenuation := attenuation } :: rest }
        (depth + 1) s) =
        fun r s => traceRay sqrt sort pow rand RAND_MAX r s1 (depth + 1) s := by
      funext r s
      exact ih r s
    rw [htr]
    unfold shadeWith
    rw [shadeLocal_first_light sqrt sort pow rand RAND_MAX _ s1 l0 rest position attenuation hl]

/-! ### Witnesses for the claims above -/

/-- The scene ambientScene meets the scene invariants. -/
theorem sceneOk_ambientScene (color : Vec3 K) (ka : K) : SceneOk (ambientScene color ka) := by
  refine ⟨by simp [ambientScene], ?_⟩
  intro obj hobj
  simp only [ambientScene, List.mem_singleton] at hobj
  subst hobj
  simp [ambientScene, sphereObject, Object.pigmentIdx, Object.finishIdx]

/-- The crossings of the CSG node holding the unit sphere at (0,0,-5) as its only,
Union, child, for the downward ray from the origin: t = 4 and t = 6. -/
theorem getAllIntersections_one_sphere :
    getAllIntersections Real.sqrt insertionSortByT (⟨⟨0, 0, 0⟩, ⟨0, 0, -1⟩⟩ : Ray ℝ)
      (csgObject [sphereObject ⟨0, 0, -5⟩ 1] [.CSG_UNION]) =
      [⟨Dbl.fin 4, ⟨0, 0, 1⟩, 0⟩, ⟨Dbl.fin 6, ⟨0, 0, -1⟩, 0⟩] := by
  have h1 : Real.sqrt 1 = 1 := isSqrt_real.sqrt_eq (by norm_num) (by norm_num)
  have h4 : Real.sqrt 4 = 2 := isSqrt_real.sqrt_eq (by norm_num) (by norm_num)
  have hS : getAllIntersections Real.sqrt insertionSortByT (⟨⟨0, 0, 0⟩, ⟨0, 0, -1⟩⟩ : Ray ℝ)
      (sphereObject ⟨0, 0, -5⟩ 1) =
      [⟨Dbl.fin 4, ⟨0, 0, 1⟩, -1⟩, ⟨Dbl.fin 6, ⟨0, 0, -1⟩, -1⟩] := by
    rw [getAllIntersections_sphere Real.sqrt insertionSortByT _ (sphereObject ⟨0, 0, -5⟩ 1) rfl]
    simp only [sphereIntersections, sphereObject, Object.center, Object.radius, Vec3.sub,
      Vec3.dot, Ray.at_, Vec3.add, Vec3.scale, Vec3.normalize, Vec3.length, Dbl.div,
      crossingNormal]
    norm_num [h4, h1]
  have hsorted : insertionSortByT
      [(⟨Dbl.fin 4, ⟨0, 0, 1⟩, 0⟩ : CSGIntersection ℝ), ⟨Dbl.fin 6, ⟨0, 0, -1⟩, 0⟩] =
      [⟨Dbl.fin 4, ⟨0, 0, 1⟩, 0⟩, ⟨Dbl.fin 6, ⟨0, 0, -1⟩, 0⟩] := by
    simp [insertionSortByT, List.insertionSort, List.orderedInsert, Dbl.fin_le_fin]
    norm_num
  have hi1 : csgIsInside 1 [.CSG_UNION] [true] = true := by decide
  have hi2 : csgIsInside 1 [.CSG_UNION] [false] = false := by decide
  rw [getAllIntersections_csg Real.sqrt insertionSortByT _
    (csgObject [sphereObject ⟨0, 0, -5⟩ 1] [.CSG_UNION]) rfl]
  simp only [csgObject, Object.csgChildren, Object.csgOperations, getAllChildHits]
  rw [hS]
  simp only [List.map, List.append_nil, List.cons_append, List.nil_append, List.length_cons,
    List.length_nil, Nat.cast_zero, zero_add, CharP.cast_eq_zero]
  rw [hsorted]
  simp [csgSweep, csgToggle, hi1, hi2]

/-- Witness for C12: the node whose only child is the unit sphere at (0,0,-5) has
the crossings 4 and 6 for the downward ray, and intersectCSG reports t = 4. -/
theorem intersectCSG_spec_witness :
    (intersectCSG Real.sqrt insertionSortByT (⟨⟨0, 0, 0⟩, ⟨0, 0, -1⟩⟩ : Ray ℝ)
      (csgObject [sphereObject ⟨0, 0, -5⟩ 1] [.CSG_UNION]) HitInfo.ctor).1 = true ∧
    ∃ t : ℝ, 1 / 1000 < t ∧
      (intersectCSG Real.sqrt insertionSortByT (⟨⟨0, 0, 0⟩, ⟨0, 0, -1⟩⟩ : Ray ℝ)
        (csgObject [sphereObject ⟨0, 0, -5⟩ 1] [.CSG_UNION]) HitInfo.ctor).2.t = Dbl.fin t := by
  have hspec := intersectCSG_spec Real.sqrt insertionSortByT (⟨⟨0, 0, 0⟩, ⟨0, 0, -1⟩⟩ : Ray ℝ)
    (csgObject [sphereObject ⟨0, 0, -5⟩ 1] [.CSG_UNION]) HitInfo.ctor
  have hhit := hspec.1.mpr ⟨⟨Dbl.fin 4, ⟨0, 0, 1⟩, 0⟩,
    by rw [getAllIntersections_one_sphere]; simp, 4, rfl, by norm_num⟩
  obtain ⟨l1, h, l2, t, -, -, hgt, -, -, hres⟩ := hspec.2.1 hhit
  exact ⟨hhit, t, hgt, by rw [hres]⟩

/-- Witness for C15: the lit sphere of ambientScene, where one call is made. -/
theorem traceRay_bounded_witness :
    ∃ (c : Vec3 ℝ) (st' : Exec),
      traceRay Real.sqrt insertionSortByT Real.rpow (fun _ => 0) 2147483647
        ⟨⟨0, 0, 0⟩, ⟨0, 0, -1⟩⟩ (ambientScene ⟨1 / 2, 1 / 2, 1 / 2⟩ 1) 0 ⟨0, []⟩ =
        some (c, st') ∧
      ∃ calls : List Int, st'.traceDepths = [] ++ calls ∧
        (∀ d ∈ calls, 0 ≤ d ∧ d ≤ MAX_DEPTH) ∧ calls.length ≤ 63 := by
  have h := traceRay_ambientScene Real.sqrt isSqrt_real insertionSortByT Real.rpow (fun _ => 0)
    2147483647 ⟨1 / 2, 1 / 2, 1 / 2⟩ 1 0 (by decide) ⟨0, []⟩
  obtain ⟨calls, h1, h2, h3, -⟩ := (traceRay_bounded Real.sqrt insertionSortByT Real.rpow
    (fun _ => 0) 2147483647 (ambientScene ⟨1 / 2, 1 / 2, 1 / 2⟩ 1) ⟨⟨0, 0, 0⟩, ⟨0, 0, -1⟩⟩
    ⟨0, []⟩).1 _ _ h
  exact ⟨_, _, h, calls, h1, h2, h3⟩

/-- Witness for C16: the lit sphere of ambientScene returns a colour in range. -/
theorem shading_colour_range_witness :
    ∃ (c : Vec3 ℝ) (st' : Exec),
      traceRay Real.sqrt insertionSortByT Real.rpow (fun _ => 0) 2147483647
        ⟨⟨0, 0, 0⟩, ⟨0, 0, -1⟩⟩ (ambientScene ⟨1 / 2, 1 / 2, 1 / 2⟩ 1) 0 ⟨0, []⟩ =
        some (c, st') ∧ c.InUnit := by
  have h := traceRay_ambientScene Real.sqrt isSqrt_real insertionSortByT Real.rpow (fun _ => 0)
    2147483647 ⟨1 / 2, 1 / 2, 1 / 2⟩ 1 0 (by decide) ⟨0, []⟩
  exact ⟨_, _, h, (shading_colour_range Real.sqrt insertionSortByT Real.rpow (fun _ => 0)
    2147483647 (ambientScene ⟨1 / 2, 1 / 2, 1 / 2⟩ 1)).2.1 _ _ _ _ _ h⟩

/-- Witness for C18: the sphere of ambientScene with ka = 0. -/
theorem black_scene_witness :
    (ambientScene (⟨1, 1, 1⟩ : Vec3 ℝ) 0).lights = [⟨⟨0, 0, 0⟩, ⟨1, 1, 1⟩, ⟨1, 0, 0⟩⟩] ∧
    (∀ f ∈ (ambientScene (⟨1, 1, 1⟩ : Vec3 ℝ) 0).finishes, f.ka = 0) ∧
    SceneOk (ambientScene (⟨1, 1, 1⟩ : Vec3 ℝ) 0) ∧
    ∃ st' : Exec,
      traceRay Real.sqrt insertionSortByT Real.rpow (fun _ => 0) 2147483647
        ⟨⟨0, 0, 0⟩, ⟨0, 0, -1⟩⟩ (ambientScene ⟨1, 1, 1⟩ 0) 0 ⟨0, []⟩ =
        some (⟨0, 0, 0⟩, st') := by
  have hka : ∀ f ∈ (ambientScene (⟨1, 1, 1⟩ : Vec3 ℝ) 0).finishes, f.ka = 0 := by
    intro f hf
    simp only [ambientScene, List.mem_singleton] at hf
    rw [hf]
  exact ⟨rfl, hka, sceneOk_ambientScene _ _,
    (black_scene Real.sqrt insertionSortByT Real.rpow (fun _ => 0) 2147483647
      (ambientScene ⟨1, 1, 1⟩ 0) _ rfl hka).2.1 (sceneOk_ambientScene _ _) _ 0 ⟨0, []⟩⟩

/-- Witness for C19: the light of ambientScene moved to (7, 8, 9). -/
theorem first_light_ambient_only_witness :
    (ambientScene (⟨1, 1, 1⟩ : Vec3 ℝ) 1).lights = [⟨⟨0, 0, 0⟩, ⟨1, 1, 1⟩, ⟨1, 0, 0⟩⟩] ∧
    traceRay Real.sqrt insertionSortByT Real.rpow (fun _ => 0) 2147483647
      ⟨⟨0, 0, 0⟩, ⟨0, 0, -1⟩⟩
      { ambientScene (⟨1, 1, 1⟩ : Vec3 ℝ) 1 with
        lights := [{ (⟨⟨0, 0, 0⟩, ⟨1, 1, 1⟩, ⟨1, 0, 0⟩⟩ : Light ℝ) with
          position := ⟨7, 8, 9⟩, attenuation := ⟨0, 0, 1⟩ }] } 0 ⟨0, []⟩ =
    traceRay Real.sqrt insertionSortByT Real.rpow (fun _ => 0) 2147483647
      ⟨⟨0, 0, 0⟩, ⟨0, 0, -1⟩⟩ (ambientScene ⟨1, 1, 1⟩ 1) 0 ⟨0, []⟩ :=
  ⟨rfl, first_light_ambient_only Real.sqrt insertionSortByT Real.rpow (fun _ => 0) 2147483647
    (ambientScene ⟨1, 1, 1⟩ 1) ⟨⟨0, 0, 0⟩, ⟨1, 1, 1⟩, ⟨1, 0, 0⟩⟩ [] ⟨7, 8, 9⟩ ⟨0, 0, 1⟩ rfl
    ⟨⟨0, 0, 0⟩, ⟨0, 0, -1⟩⟩ 0 ⟨0, []⟩⟩

/-! ## Claims C21 to C28 -/

/-! ### Normalization and rays -/

theorem length_sq_nonneg (v : Vec3 K) : 0 ≤ v.x * v.x + v.y * v.y + v.z * v.z := by
  nlinarith [mul_self_nonneg v.x, mul_self_nonneg v.y, mul_self_nonneg v.z]

/-- The length of a non-zero vector is positive. -/
theorem length_pos (sqrt : K → K) (hs : IsSqrt sqrt) (v : Vec3 K) (hv : v ≠ ⟨0, 0, 0⟩) :
    0 < v.length sqrt := by
  have h0 := length_sq_nonneg v
  have hpos := dot_self_pos v hv
  simp only [Vec3.dot] at hpos
  simp only [Vec3.length]
  rcases lt_or_eq_of_le (hs.nonneg h0) with h | h
  · exact h
  · have := hs.mul_self h0
    rw [← h] at this
    linarith

/-- A non-zero vector is normalized to a vector of dot product 1 with itself. -/
theorem normalize_dot_self (sqrt : K → K) (hs : IsSqrt sqrt) (v : Vec3 K)
    (hv : v ≠ ⟨0, 0, 0⟩) : (v.normalize sqrt).dot (v.normalize sqrt) = 1 := by
  have hpos := length_pos sqrt hs v hv
  have hsq := hs.mul_self (length_sq_nonneg v)
  simp only [Vec3.normalize]
  rw [if_pos hpos]
  simp only [Vec3.length] at hpos ⊢
  simp only [Vec3.dot]
  have hne := ne_of_gt hpos
  field_simp
  linarith

/-- A vector of dot product 1 with itself is left unchanged by normalize. -/
theorem normalize_of_unit (sqrt : K → K) (hs : IsSqrt sqrt) (v : Vec3 K)
    (hv : v.dot v = 1) : v.normalize sqrt = v := by
  have h1 : sqrt (1 : K) = 1 := hs.sqrt_eq (by norm_num) (by norm_num)
  simp only [Vec3.dot] at hv
  simp only [Vec3.normalize, Vec3.length, hv, h1]
  simp

/-- C21: normalize maps the zero vector to the zero vector and a non-zero vector
v to v / |v|, of length 1; the direction stored by the Ray constructor has
length 1 for a non-zero input direction, and then the point at(t) lies at
distance |t| from the origin of the ray. -/
theorem normalize_spec (sqrt : K → K) (hs : IsSqrt sqrt) :
    (⟨0, 0, 0⟩ : Vec3 K).normalize sqrt = ⟨0, 0, 0⟩ ∧
    (∀ v : Vec3 K, v ≠ ⟨0, 0, 0⟩ →
      v.normalize sqrt = v.divide (v.length sqrt) ∧ (v.normalize sqrt).length sqrt = 1) ∧
    (∀ o d : Vec3 K, d ≠ ⟨0, 0, 0⟩ →
      (Ray.ctor sqrt o d).origin = o ∧
      (Ray.ctor sqrt o d).direction = d.divide (d.length sqrt) ∧
      (Ray.ctor sqrt o d).direction.length sqrt = 1 ∧
      ∀ t : K, (((Ray.ctor sqrt o d).at_ t).sub (Ray.ctor sqrt o d).origin).length sqrt = |t|) := by
  have h1 : sqrt (1 : K) = 1 := hs.sqrt_eq (by norm_num) (by norm_num)
  have h0 : sqrt (0 : K) = 0 := hs.sqrt_eq (by norm_num) (by norm_num)
  have hnorm : ∀ v : Vec3 K, v ≠ ⟨0, 0, 0⟩ →
      v.normalize sqrt = v.divide (v.length sqrt) ∧ (v.normalize sqrt).length sqrt = 1 := by
    intro v hv
    have hpos := length_pos sqrt hs v hv
    refine ⟨?_, ?_⟩
    · simp only [Vec3.normalize, Vec3.divide]
      rw [if_pos hpos]
    · have hd := normalize_dot_self sqrt hs v hv
      simp only [Vec3.dot] at hd
      simp only [Vec3.length] at hd ⊢
      rw [hd, h1]
  refine ⟨?_, hnorm, ?_⟩
  · simp [Vec3.normalize, Vec3.length, h0]
  · intro o d hd
    refine ⟨rfl, (hnorm d hd).1, (hnorm d hd).2, ?_⟩
    intro t
    have hdd := normalize_dot_self sqrt hs d hd
    simp only [Vec3.dot] at hdd
    simp only [Ray.ctor, Ray.at_, Vec3.add, Vec3.sub, Vec3.scale, Vec3.length]
    apply hs.sqrt_eq (abs_nonneg t)
    rw [abs_mul_abs_self]
    linear_combination (t * t) * hdd

/-- Witness for C21: the direction (3, 4, 0) is stored as (3/5, 4/5, 0). -/
theorem normalize_spec_witness :
    IsSqrt Real.sqrt ∧
    (Ray.ctor Real.sqrt ⟨0, 0, 0⟩ ⟨3, 4, 0⟩).direction.length Real.sqrt = 1 ∧
    (((Ray.ctor Real.sqrt ⟨0, 0, 0⟩ ⟨3, 4, 0⟩).at_ (-2)).sub
      (Ray.ctor Real.sqrt ⟨0, 0, 0⟩ ⟨3, 4, 0⟩).origin).length Real.sqrt = |(-2 : ℝ)| := by
  have h := (normalize_spec Real.sqrt isSqrt_real).2.2 ⟨0, 0, 0⟩ ⟨3, 4, 0⟩
    (by intro hc; injection hc with hx; norm_num at hx)
  exact ⟨isSqrt_real, h.2.2.1, h.2.2.2 (-2)⟩

/-! ### Textures that did not load -/

/-- A texture map without a usable texture is coloured color1. -/
theorem getPigmentColor_no_texture [FloorRing K] (pigment : Pigment K) (point : Vec3 K)
    (hty : pigment.type = .TEXMAP)
    (h : pigment.textureWidth = 0 ∨ pigment.textureHeight = 0 ∨ pigment.textureData = []) :
    getPigmentColor pigment point = pigment.color1 := by
  simp only [getPigmentColor, hty]
  rw [if_neg]
  rintro ⟨hw, hh, hd⟩
  rcases h with h | h | h
  · rw [h] at hw; exact absurd hw (lt_irrefl 0)
  · rw [h] at hh; exact absurd hh (lt_irrefl 0)
  · rw [h] at hd; exact absurd hd (by simp)

/-- When loadPPM returns false it has not written to the pigment. -/
theorem loadPPM_false (openFile : String → Option PPMFile) (filename : String)
    (pigment : Pigment K) (h : (loadPPM openFile filename pigment).1 = false) :
    (loadPPM openFile filename pigment).2 = pigment := by
  unfold loadPPM at h ⊢
  rcases hf : openFile filename with _ | file
  · rfl
  · simp only [hf] at h ⊢
    split_ifs at h ⊢ with hm
    rfl

/-- The pigment that the loader pushes for a texmap entry. -/
theorem loadPigment_texmap (openFile : String → Option PPMFile) (file rest : List (Token K))
    (pig : Pigment K) (h : loadPigment openFile file = some (pig, rest))
    (hty : pig.type = .TEXMAP) :
    ∃ (texturePath : String) (p0 p1 : Fin 4 → K),
      pig = (loadPPM openFile texturePath
        ⟨.TEXMAP, ⟨1, 1, 1⟩, ⟨0, 0, 0⟩, 1, texturePath, p0, p1, [], 0, 0⟩).2 := by
  unfold loadPigment at h
  rcases h1 : extractString file with _ | ⟨type, file1⟩
  · rw [h1] at h; simp at h
  · rw [h1] at h
    simp only at h
    split_ifs at h with hs hc ht
    · rcases h2 : extractVec3 file1 with _ | ⟨c1, f2⟩
      · rw [h2] at h; simp at h
      · rw [h2] at h
        simp only [Option.some.injEq, Prod.mk.injEq] at h
        rw [← h.1] at hty
        simp at hty
    · rcases h2 : extractVec3 file1 with _ | ⟨c1, f2⟩
      · rw [h2] at h; simp at h
      · rw [h2] at h
        simp only at h
        rcases h3 : extractVec3 f2 with _ | ⟨c2, f3⟩
        · rw [h3] at h; simp at h
        · rw [h3] at h
          simp only at h
          rcases h4 : extractDouble f3 with _ | ⟨sc, f4⟩
          · rw [h4] at h; simp at h
          · rw [h4] at h
            simp only [Option.some.injEq, Prod.mk.injEq] at h
            rw [← h.1] at hty
            simp at hty
    · rcases h2 : extractString file1 with _ | ⟨path, f2⟩
      · rw [h2] at h; simp at h
      · rw [h2] at h
        simp only at h
        rcases h3 : extractArray4 f2 with _ | ⟨p0, f3⟩
        · rw [h3] at h; simp at h
        · rw [h3] at h
          simp only at h
          rcases h4 : extractArray4 f3 with _ | ⟨p1, f4⟩
          · rw [h4] at h; simp at h
          · rw [h4] at h
            simp only [Option.some.injEq, Prod.mk.injEq] at h
            exact ⟨path, p0, p1, by rw [← h.1]; rfl⟩
    · simp only [Option.some.injEq, Prod.mk.injEq] at h
      rw [← h.1] at hty
      simp [Pigment.ctor] at hty

/-- C22: a texture-map pigment with textureWidth = 0, textureHeight = 0 or no
texture samples is coloured color1 at every point; loadPPM returns false only
before it writes to the pigment; so the pigment that loadScene pushes for a
texmap entry whose texture cannot be opened, or has the wrong magic word, has
no texture and is coloured color1 at every point. -/
theorem texmap_fallback [FloorRing K] (openFile : String → Option PPMFile) :
    (∀ (pigment : Pigment K) (point : Vec3 K), pigment.type = .TEXMAP →
      (pigment.textureWidth = 0 ∨ pigment.textureHeight = 0 ∨ pigment.textureData = []) →
      getPigmentColor pigment point = pigment.color1) ∧
    (∀ (filename : String) (pigment : Pigment K),
      (openFile filename = none ∨
        ∃ f, openFile filename = some f ∧ f.magic ≠ "P3" ∧ f.magic ≠ "P6") →
      loadPPM openFile filename pigment = (false, pigment)) ∧
    (∀ (filename : String) (pigment : Pigment K),
      (loadPPM openFile filename pigment).1 = false →
      (loadPPM openFile filename pigment).2 = pigment) ∧
    (∀ (file rest : List (Token K)) (pig : Pigment K),
      loadPigment openFile file = some (pig, rest) → pig.type = .TEXMAP →
      (openFile pig.texturePath = none ∨
        ∃ f, openFile pig.texturePath = some f ∧ f.magic ≠ "P3" ∧ f.magic ≠ "P6") →
      pig.textureWidth = 0 ∧ pig.textureHeight = 0 ∧ pig.textureData = [] ∧
      ∀ point : Vec3 K, getPigmentColor pig point = pig.color1) := by
  have hfail : ∀ (filename : String) (pigment : Pigment K),
      (openFile filename = none ∨
        ∃ f, openFile filename = some f ∧ f.magic ≠ "P3" ∧ f.magic ≠ "P6") →
      loadPPM openFile filename pigment = (false, pigment) := by
    intro filename pigment h
    unfold loadPPM
    rcases h with h | ⟨f, hf, hm⟩
    · rw [h]
    · rw [hf]
      simp only
      rw [if_pos hm]
  refine ⟨fun pigment point hty h => getPigmentColor_no_texture pigment point hty h, hfail,
    fun filename pigment h => loadPPM_false openFile filename pigment h, ?_⟩
  intro file rest pig h hty hopen
  obtain ⟨path, p0, p1, hpig⟩ := loadPigment_texmap openFile file rest pig h hty
  have hpath : pig.texturePath = path := by
    rw [hpig]
    unfold loadPPM
    rcases openFile path with _ | f
    · rfl
    · simp only
      split_ifs <;> rfl
  rw [hpath] at hopen
  rw [hfail path _ hopen] at hpig
  have hw : pig.textureWidth = 0 := by rw [hpig]
  refine ⟨hw, by rw [hpig], by rw [hpig], fun point => ?_⟩
  exact getPigmentColor_no_texture pig point hty (Or.inl hw)

/-- Witness for C22: the entry texmap missing.ppm 1 0 0 0 0 1 0 0 of a scene file,
where no texture file can be opened, gives a pigment coloured (1,1,1). -/
theorem texmap_fallback_witness :
    ∃ pig : Pigment ℝ,
      loadPigment (fun _ => none)
        [.word "texmap", .word "missing.ppm", .int 1, .int 0, .int 0, .int 0,
          .int 0, .int 1, .int 0, .int 0] = some (pig, []) ∧
      pig.type = .TEXMAP ∧
      ∀ point : Vec3 ℝ, getPigmentColor pig point = ⟨1, 1, 1⟩ := by
  have hl : loadPigment (fun _ => none)
      [(.word "texmap" : Token ℝ), .word "missing.ppm", .int 1, .int 0, .int 0, .int 0,
        .int 0, .int 1, .int 0, .int 0] =
      some (⟨.TEXMAP, ⟨1, 1, 1⟩, ⟨0, 0, 0⟩, 1, "missing.ppm", ![1, 0, 0, 0], ![0, 1, 0, 0],
        [], 0, 0⟩, []) := by
    simp [loadPigment, extractString, extractArray4, extractDouble, loadPPM, Pigment.ctor]
  refine ⟨_, hl, rfl, fun point => ?_⟩
  exact ((texmap_fallback (fun _ => none)).2.2.2 _ _ _ hl rfl (Or.inl rfl)).2.2.2 point

/-! ### The loader and the index ranges -/

/-- The downward ray from the origin meets a unit sphere at (0,0,-5) at t = 4,
whatever the other fields of the object. -/
theorem findClosestHit_one_sphere (sqrt : K → K) (hs : IsSqrt sqrt)
    (sort : List (CSGIntersection K) → List (CSGIntersection K))
    (scene : Scene K) (obj : Object K) (hty : obj.type = .SPHERE)
    (hc : obj.center = ⟨0, 0, -5⟩) (hr : obj.radius = 1) (hsc : scene.objects = [obj]) :
    findClosestHit sqrt sort ⟨⟨0, 0, 0⟩, ⟨0, 0, -1⟩⟩ scene =
      ⟨true, Dbl.fin 4, ⟨0, 0, -4⟩, ⟨0, 0, 1⟩, 0⟩ := by
  have h4 : sqrt (4 : K) = 2 := hs.sqrt_eq (by norm_num) (by norm_num)
  have h1 : sqrt (1 : K) = 1 := hs.sqrt_eq (by norm_num) (by norm_num)
  have hS : ∀ h : HitInfo K, intersectSphere sqrt (⟨⟨0, 0, 0⟩, ⟨0, 0, -1⟩⟩ : Ray K) obj h =
      (true, { h with hit := true, t := Dbl.fin 4, point := ⟨0, 0, -4⟩, normal := ⟨0, 0, 1⟩ }) := by
    intro h
    simp only [intersectSphere, hc, hr, Vec3.sub, Vec3.dot,
      Ray.at_, Vec3.add, Vec3.scale, Vec3.normalize, Vec3.length, Dbl.div]
    norm_num [h4, h1, Dbl.fin_lt_fin]
  simp only [findClosestHit, hsc, findClosestHitLoop, hty, hS]
  simp [HitInfo.ctor, Dbl.fin_lt_inf]

/-- The scene that loadScene delivers for badIndexFile. -/
theorem loadScene_badIndexFile (sqrt : K → K) (openFile : String → Option PPMFile) :
    loadScene sqrt openFile (some badIndexFile) Scene.ctor =
      some (true, ⟨⟨0, 0, 0⟩, ⟨0, 0, -1⟩, ⟨0, 1, 0⟩, 40,
        [⟨⟨0, 0, 0⟩, ⟨1, 1, 1⟩, ⟨1, 0, 0⟩⟩],
        [{ (Pigment.ctor : Pigment K) with color1 := ⟨1, 1, 1⟩ }],
        [⟨1, 0, 0, 1, 0, 0, 1⟩],
        [.mk .SPHERE 7 0 ⟨0, 0, -5⟩ 1 [] 0 0 0 0 0 0 0 0 0 0 [] []]⟩) := by
  simp [loadScene, badIndexFile, extractVec3, extractDouble, extractInt, extractString,
    loadLights, loadPigments, loadPigment, loadFinishes, loadObjects, parseObject, Scene.ctor,
    Pigment.ctor, Object.ctor, Object.setIndices, Object.setType, Object.setSphere]

/-- C23 fails on the code: loadScene returns true for badIndexFile, whose only
object names pigment 7 in a scene of one pigment; the scene delivered breaks
the scene invariants, and traceRay reads scene.pigments out of range for the
ray from the origin along (0,0,-1), which meets the object. -/
theorem loadScene_accepts_bad_index :
    ∃ scene : Scene ℝ,
      loadScene Real.sqrt (fun _ => none) (some badIndexFile) Scene.ctor = some (true, scene) ∧
      (∃ obj ∈ scene.objects, obj.pigmentIdx = 7) ∧ scene.pigments.length = 1 ∧
      ¬ SceneOk scene ∧
      traceRay Real.sqrt insertionSortByT Real.rpow (fun _ => 0) 2147483647
        ⟨⟨0, 0, 0⟩, ⟨0, 0, -1⟩⟩ scene 0 ⟨0, []⟩ = none := by
  refine ⟨_, loadScene_badIndexFile Real.sqrt _, ⟨_, List.mem_singleton_self _, rfl⟩, rfl, ?_, ?_⟩
  · rintro ⟨-, h⟩
    have := (h _ (List.mem_singleton_self _)).1.2
    simp [Object.pigmentIdx] at this
  · rw [traceRay_eq]
    rw [if_neg (by decide)]
    rw [findClosestHit_one_sphere Real.sqrt isSqrt_real insertionSortByT _
      (.mk .SPHERE 7 0 ⟨0, 0, -5⟩ 1 [] 0 0 0 0 0 0 0 0 0 0 [] []) rfl rfl rfl rfl]
    simp [shadeWith, shadeLocal, vectorAt, Object.pigmentIdx]

/-! ### The bound on the nesting in parseObject -/

theorem extractInt_length (file rest : List (Token K)) (n : Int)
    (h : extractInt file = some (n, rest)) : file.length = rest.length + 1 := by
  rcases file with _ | ⟨tok, tl⟩
  · simp [extractInt] at h
  · cases tok <;> simp [extractInt] at h
    rw [← h.2]; rfl

theorem extractDouble_length (file rest : List (Token K)) (x : K)
    (h : extractDouble file = some (x, rest)) : file.length = rest.length + 1 := by
  rcases file with _ | ⟨tok, tl⟩
  · simp [extractDouble] at h
  · cases tok <;> simp [extractDouble] at h
    · rw [← h.2]; rfl
    · rw [← h.2]; rfl

theorem extractString_length (file rest : List (Token K)) (s : String)
    (h : extractString file = some (s, rest)) : file.length = rest.length + 1 := by
  rcases file with _ | ⟨tok, tl⟩
  · simp [extractString] at h
  · cases tok <;> simp [extractString] at h
    rw [← h.2]; rfl

theorem extractVec3_length (file rest : List (Token K)) (v : Vec3 K)
    (h : extractVec3 file = some (v, rest)) : file.length = rest.length + 3 := by
  unfold extractVec3 at h
  rcases h1 : extractDouble file with _ | ⟨x, f1⟩
  · rw [h1] at h; simp at h
  · rw [h1] at h
    simp only at h
    rcases h2 : extractDouble f1 with _ | ⟨y, f2⟩
    · rw [h2] at h; simp at h
    · rw [h2] at h
      simp only at h
      rcases h3 : extractDouble f2 with _ | ⟨z, f3⟩
      · rw [h3] at h; simp at h
      · rw [h3] at h
        simp only [Option.some.injEq, Prod.mk.injEq] at h
        have e1 := extractDouble_length _ _ _ h1
        have e2 := extractDouble_length _ _ _ h2
        have e3 := extractDouble_length _ _ _ h3
        rw [← h.2]
        omega

theorem parseFaces_length (sqrt : K → K) (n : Nat) (file rest : List (Token K))
    (obj o : Object K) (h : parseFaces sqrt n file obj = some (o, rest)) :
    rest.length ≤ file.length := by
  induction n generalizing file obj with
  | zero =>
    simp only [parseFaces, Option.some.injEq, Prod.mk.injEq] at h
    rw [h.2]
  | succ n ih =>
    simp only [parseFaces] at h
    rcases h1 : extractDouble file with _ | ⟨a, f1⟩
    · rw [h1] at h; simp at h
    · rw [h1] at h
      simp only at h
      rcases h2 : extractDouble f1 with _ | ⟨b, f2⟩
      · rw [h2] at h; simp at h
      · rw [h2] at h
        simp only at h
        rcases h3 : extractDouble f2 with _ | ⟨c, f3⟩
        · rw [h3] at h; simp at h
        · rw [h3] at h
          simp only at h
          rcases h4 : extractDouble f3 with _ | ⟨d, f4⟩
          · rw [h4] at h; simp at h
          · rw [h4] at h
            simp only at h
            have e1 := extractDouble_length _ _ _ h1
            have e2 := extractDouble_length _ _ _ h2
            have e3 := extractDouble_length _ _ _ h3
            have e4 := extractDouble_length _ _ _ h4
            have := ih _ _ h
            omega

theorem parseQuadric_length (file rest : List (Token K)) (obj o : Object K)
    (h : parseQuadric file obj = some (o, rest)) : rest.length ≤ file.length := by
  unfold parseQuadric at h
  rcases h1 : extractVec3 file with _ | ⟨a, f1⟩
  · rw [h1] at h; simp at h
  · rw [h1] at h
    simp only at h
    rcases h2 : extractVec3 f1 with _ | ⟨b, f2⟩
    · rw [h2] at h; simp at h
    · rw [h2] at h
      simp only at h
      rcases h3 : extractVec3 f2 with _ | ⟨c, f3⟩
      · rw [h3] at h; simp at h
      · rw [h3] at h
        simp only at h
        rcases h4 : extractDouble f3 with _ | ⟨d, f4⟩
        · rw [h4] at h; simp at h
        · rw [h4] at h
          simp only [Option.some.injEq, Prod.mk.injEq] at h
          have e1 := extractVec3_length _ _ _ h1
          have e2 := extractVec3_length _ _ _ h2
          have e3 := extractVec3_length _ _ _ h3
          have e4 := extractDouble_length _ _ _ h4
          rw [← h.2]
          omega

theorem parseChildren_length
    (parseChild : List (Token K) → Object K → Option (Object K × List (Token K)))
    (hpc : ∀ f c c' r, parseChild f c = some (c', r) → r.length ≤ f.length)
    (n : Nat) (file rest : List (Token K)) (obj o : Object K)
    (h : parseChildren parseChild n file obj = some (o, rest)) :
    rest.length ≤ file.length := by
  induction n generalizing file obj with
  | zero =>
    simp only [parseChildren, Option.some.injEq, Prod.mk.injEq] at h
    rw [h.2]
  | succ n ih =>
    simp only [parseChildren] at h
    rcases h1 : extractString file with _ | ⟨opStr, f1⟩
    · rw [h1] at h; simp at h
    · rw [h1] at h
      simp only at h
      rcases h2 : parseChild f1 Object.ctor with _ | ⟨child, f2⟩
      · rw [h2] at h; simp at h
      · rw [h2] at h
        simp only at h
        have e1 := extractString_length _ _ _ h1
        have e2 := hpc _ _ _ _ h2
        have := ih _ _ h
        omega

/-- The loop over the children gives the same result for two parsers of a child
that agree on the streams it can reach. -/
theorem parseChildren_congr
    (pc1 pc2 : List (Token K) → Object K → Option (Object K × List (Token K)))
    (hpc : ∀ f c c' r, pc1 f c = some (c', r) → r.length ≤ f.length) (L : Nat)
    (heq : ∀ f c, f.length ≤ L → pc1 f c = pc2 f c)
    (n : Nat) (file : List (Token K)) (obj : Object K) (hL : file.length ≤ L) :
    parseChildren pc1 n file obj = parseChildren pc2 n file obj := by
  induction n generalizing file obj with
  | zero => simp only [parseChildren]
  | succ n ih =>
    simp only [parseChildren]
    rcases h1 : extractString file with _ | ⟨opStr, f1⟩
    · rfl
    · simp only
      have e1 := extractString_length _ _ _ h1
      rw [← heq f1 Object.ctor (by omega)]
      rcases h2 : pc1 f1 Object.ctor with _ | ⟨child, f2⟩
      · rfl
      · simp only
        have e2 := hpc _ _ _ _ h2
        exact ih _ _ (by omega)

theorem parseObject_length (sqrt : K → K) (fuel : Nat) (file rest : List (Token K))
    (obj o : Object K) (h : parseObject sqrt fuel file obj = some (o, rest)) :
    rest.length ≤ file.length := by
  induction fuel generalizing file rest obj o with
  | zero => simp [parseObject] at h
  | succ fuel ih =>
    simp only [parseObject] at h
    rcases h1 : extractInt file with _ | ⟨p, f1⟩
    · rw [h1] at h; simp at h
    · rw [h1] at h
      simp only at h
      rcases h2 : extractInt f1 with _ | ⟨q, f2⟩
      · rw [h2] at h; simp at h
      · rw [h2] at h
        simp only at h
        rcases h3 : extractString f2 with _ | ⟨ty, f3⟩
        · rw [h3] at h; simp at h
        · rw [h3] at h
          simp only at h
          have e1 := extractInt_length _ _ _ h1
          have e2 := extractInt_length _ _ _ h2
          have e3 := extractString_length _ _ _ h3
          split_ifs at h with c1 c2 c3 c4
          · rcases h4 : extractVec3 f3 with _ | ⟨c, f4⟩
            · rw [h4] at h; simp at h
            · rw [h4] at h
              simp only at h
              rcases h5 : extractDouble f4 with _ | ⟨r, f5⟩
              · rw [h5] at h; simp at h
              · rw [h5] at h
                simp only [Option.some.injEq, Prod.mk.injEq] at h
                have e4 := extractVec3_length _ _ _ h4
                have e5 := extractDouble_length _ _ _ h5
                rw [← h.2]
                omega
          · rcases h4 : extractInt f3 with _ | ⟨nf, f4⟩
            · rw [h4] at h; simp at h
            · rw [h4] at h
              simp only at h
              have e4 := extractInt_length _ _ _ h4
              have := parseFaces_length sqrt _ _ _ _ _ h
              omega
          · have := parseQuadric_length _ _ _ _ h
            omega
          · rcases h4 : extractInt f3 with _ | ⟨nc, f4⟩
            · rw [h4] at h; simp at h
            · rw [h4] at h
              simp only at h
              have e4 := extractInt_length _ _ _ h4
              have := parseChildren_length _ (fun f c c' r hh => ih f r c c' hh) _ _ _ _ _ h
              omega
          · simp only [Option.some.injEq, Prod.mk.injEq] at h
            rw [← h.2]
            omega

/-- The bound on the nesting is enough once it exceeds the number of tokens left:
every larger bound gives the same result. -/
theorem parseObject_fuel (sqrt : K → K) (fuel : Nat) :
    ∀ (file : List (Token K)) (obj : Object K), file.length < fuel →
      ∀ fuel', fuel ≤ fuel' → parseObject sqrt fuel' file obj = parseObject sqrt fuel file obj := by
  induction fuel with
  | zero => intro file obj h; exact absurd h (Nat.not_lt_zero _)
  | succ fuel ih =>
    intro file obj hlen fuel' hle
    obtain ⟨f', rfl⟩ : ∃ f', fuel' = f' + 1 := ⟨fuel' - 1, by omega⟩
    simp only [parseObject]
    rcases h1 : extractInt file with _ | ⟨p, f1⟩
    · rfl
    · simp only
      rcases h2 : extractInt f1 with _ | ⟨q, f2⟩
      · rfl
      · simp only
        rcases h3 : extractString f2 with _ | ⟨ty, f3⟩
        · rfl
        · simp only
          have e1 := extractInt_length _ _ _ h1
          have e2 := extractInt_length _ _ _ h2
          have e3 := extractString_length _ _ _ h3
          split_ifs with c1 c2 c3 c4
          · rfl
          · rfl
          · rfl
          · rcases h4 : extractInt f3 with _ | ⟨nc, f4⟩
            · rfl
            · simp only
              have e4 := extractInt_length _ _ _ h4
              apply parseChildren_congr _ _
                (fun f c c' r hh => parseObject_length sqrt f' f r c c' hh) f4.length
              · intro f c hf
                exact ih f c (by omega) f' (by omega)
              · exact le_refl _
          · rfl

/-! ### The crossings emitted by the CSG sweep -/

/-- Every crossing pushed by the sweep is the swept crossing at which the
composite membership flipped, with its normal negated when the child is a
Difference child. -/
theorem csgSweep_mem_flip (n : Nat) (ops : List CSGOperation) (evs : List (CSGIntersection K))
    (inside : List Bool) (wasInside : Bool) (hwas : wasInside = csgIsInside n ops inside) :
    ∀ h ∈ csgSweep n ops evs inside wasInside,
      ∃ (l1 : List (CSGIntersection K)) (e : CSGIntersection K) (l2 : List (CSGIntersection K)),
        evs = l1 ++ e :: l2 ∧
        csgIsInside n ops ((l1 ++ [e]).foldl csgToggle inside) ≠
          csgIsInside n ops (l1.foldl csgToggle inside) ∧
        h = (if ops[e.childIdx.toNat]? = some .CSG_DIFFERENCE then
          { e with normal := e.normal.scale (-1) } else e) := by
  induction evs generalizing inside wasInside with
  | nil => intro h hh; simp [csgSweep] at hh
  | cons e rest ih =>
    intro h hh
    rw [csgSweep_cons] at hh
    by_cases hflip : csgIsInside n ops (csgToggle inside e) = wasInside
    · rw [if_neg (by simpa using hflip)] at hh
      obtain ⟨l1, e', l2, hl, hf, hh'⟩ := ih (csgToggle inside e) wasInside
        (by rw [hflip]) h hh
      exact ⟨e :: l1, e', l2, by rw [hl]; rfl, by simpa using hf, hh'⟩
    · rw [if_pos (by simpa using hflip)] at hh
      rcases List.mem_cons.mp hh with rfl | hh
      · refine ⟨[], e, rest, rfl, ?_, rfl⟩
        simp only [List.nil_append, List.foldl_cons, List.foldl_nil]
        rw [← hwas]
        exact hflip
      · obtain ⟨l1, e', l2, hl, hf, hh'⟩ := ih (csgToggle inside e)
          (csgIsInside n ops (csgToggle inside e)) rfl h hh
        exact ⟨e :: l1, e', l2, by rw [hl]; rfl, by simpa using hf, hh'⟩

/-- Every tagged child crossing is a crossing of the child it is tagged with. -/
theorem getAllChildHits_mem (sqrt : K → K)
    (sort : List (CSGIntersection K) → List (CSGIntersection K)) (ray : Ray K)
    (children : List (Object K)) (k : Nat) :
    ∀ e ∈ getAllChildHits sqrt sort ray children k,
      ∃ (i : Nat) (child : Object K), children[i]? = some child ∧
        ∃ h' ∈ getAllIntersections sqrt sort ray child,
          e = { h' with childIdx := ((k + i : Nat) : Int) } := by
  induction children generalizing k with
  | nil => intro h hh; simp [getAllChildHits] at hh
  | cons c cs ih =>
    intro e he
    rw [getAllChildHits, List.mem_append] at he
    rcases he with he | he
    · obtain ⟨h', hh', rfl⟩ := List.mem_map.mp he
      exact ⟨0, c, List.getElem?_cons_zero, h', hh', rfl⟩
    · obtain ⟨i, child, hi, h', hh', he'⟩ := ih _ e he
      refine ⟨i + 1, child, by simpa using hi, h', hh', ?_⟩
      rw [he']
      have : k + 1 + i = k + (i + 1) := by omega
      rw [this]

/-- C24: every crossing a CSG node emits comes from one crossing e of the sorted
child crossings, at which the composite membership flips; it carries the t of
e, which is the t of a crossing h' of child number childIdx, and the normal of
h': negated when that child is a Difference child, unchanged when it is a
Union child. -/
theorem csg_emitted_crossing (sqrt : K → K)
    (sort : List (CSGIntersection K) → List (CSGIntersection K)) (hsort : IsStdSort sort)
    (ray : Ray K) (node : Object K) (hty : node.type = .CSG) (h : CSGIntersection K)
    (hh : h ∈ getAllIntersections sqrt sort ray node) :
    ∃ (l1 : List (CSGIntersection K)) (e : CSGIntersection K) (l2 : List (CSGIntersection K))
      (i : Nat) (child : Object K) (h' : CSGIntersection K),
      sort (getAllChildHits sqrt sort ray node.csgChildren 0) = l1 ++ e :: l2 ∧
      csgIsInside node.csgChildren.length node.csgOperations
          ((l1 ++ [e]).foldl csgToggle (List.replicate node.csgChildren.length false)) ≠
        csgIsInside node.csgChildren.length node.csgOperations
          (l1.foldl csgToggle (List.replicate node.csgChildren.length false)) ∧
      node.csgChildren[i]? = some child ∧ h' ∈ getAllIntersections sqrt sort ray child ∧
      e.childIdx = (i : Int) ∧ e.t = h'.t ∧ e.normal = h'.normal ∧
      h.childIdx = (i : Int) ∧ h.t = h'.t ∧
      (node.csgOperations[i]? = some .CSG_DIFFERENCE → h.normal = h'.normal.scale (-1)) ∧
      (node.csgOperations[i]? = some .CSG_UNION → h.normal = h'.normal) := by
  rw [getAllIntersections_csg sqrt sort ray node hty] at hh
  obtain ⟨l1, e, l2, hl, hflip, hhe⟩ := csgSweep_mem_flip _ _ _ _ _
    (csgIsInside_replicate _ _).symm h hh
  have he : e ∈ getAllChildHits sqrt sort ray node.csgChildren 0 := by
    apply (hsort _).1.mem_iff.mp
    rw [hl]
    simp
  obtain ⟨i, child, hi, h', hh', he'⟩ := getAllChildHits_mem sqrt sort ray _ 0 e he
  rw [Nat.zero_add] at he'
  have hidx : e.childIdx.toNat = i := by rw [he']; simp
  rw [hidx] at hhe
  refine ⟨l1, e, l2, i, child, h', hl, hflip, hi, hh', by rw [he'], by rw [he'], by rw [he'],
    ?_, ?_, ?_, ?_⟩
  · rw [hhe]; split_ifs <;> rw [he']
  · rw [hhe]; split_ifs <;> rw [he']
  · intro hop
    rw [hhe, if_pos hop, he']
  · intro hop
    rw [hhe, if_neg (by rw [hop]; simp), he']

/-- Witness for C24: the node whose only child is the unit sphere at (0,0,-5), a
Union child, emits the crossing at t = 4 with the normal (0,0,1) of the sphere. -/
theorem csg_emitted_crossing_witness :
    IsStdSort (insertionSortByT (K := ℝ)) ∧
    (csgObject [sphereObject (⟨0, 0, -5⟩ : Vec3 ℝ) 1] [.CSG_UNION]).type = .CSG ∧
    (⟨Dbl.fin 4, ⟨0, 0, 1⟩, 0⟩ : CSGIntersection ℝ) ∈
      getAllIntersections Real.sqrt insertionSortByT ⟨⟨0, 0, 0⟩, ⟨0, 0, -1⟩⟩
        (csgObject [sphereObject ⟨0, 0, -5⟩ 1] [.CSG_UNION]) ∧
    ∃ (i : Nat) (child : Object ℝ) (h' : CSGIntersection ℝ),
      (csgObject [sphereObject (⟨0, 0, -5⟩ : Vec3 ℝ) 1] [.CSG_UNION]).csgChildren[i]? =
        some child ∧
      h' ∈ getAllIntersections Real.sqrt insertionSortByT ⟨⟨0, 0, 0⟩, ⟨0, 0, -1⟩⟩ child ∧
      (Dbl.fin 4 : Dbl ℝ) = h'.t := by
  have hmem : (⟨Dbl.fin 4, ⟨0, 0, 1⟩, 0⟩ : CSGIntersection ℝ) ∈
      getAllIntersections Real.sqrt insertionSortByT ⟨⟨0, 0, 0⟩, ⟨0, 0, -1⟩⟩
        (csgObject [sphereObject ⟨0, 0, -5⟩ 1] [.CSG_UNION]) := by
    rw [getAllIntersections_one_sphere]; simp
  obtain ⟨l1, e, l2, i, child, h', -, -, hi, hh', -, -, -, -, ht, -, -⟩ :=
    csg_emitted_crossing Real.sqrt insertionSortByT isStdSort_insertionSortByT
      ⟨⟨0, 0, 0⟩, ⟨0, 0, -1⟩⟩ (csgObject [sphereObject ⟨0, 0, -5⟩ 1] [.CSG_UNION]) rfl _ hmem
  exact ⟨isStdSort_insertionSortByT, rfl, hmem, i, child, h', hi, hh', ht⟩

/-! ### Crossings come in pairs -/

/-- Parity of the crossings pushed by the sweep: odd exactly when the membership
reached after all toggles differs from the one the sweep started with. -/
theorem csgSweep_length_parity (n : Nat) (ops : List CSGOperation)
    (evs : List (CSGIntersection K)) (inside : List Bool) (wasInside : Bool)
    (hwas : wasInside = csgIsInside n ops inside) :
    Odd (csgSweep n ops evs inside wasInside).length ↔
      csgIsInside n ops (evs.foldl csgToggle inside) ≠ wasInside := by
  induction evs generalizing inside wasInside with
  | nil => simp [csgSweep, hwas]
  | cons e rest ih =>
    rw [List.foldl_cons, csgSweep_cons]
    by_cases hflip : csgIsInside n ops (csgToggle inside e) = wasInside
    · rw [if_neg (by simpa using hflip)]
      exact ih _ _ hflip.symm
    · rw [if_pos (by simpa using hflip)]
      rw [List.length_cons, Nat.odd_add_one, ih _ _ rfl, not_not]
      constructor
      · intro h; rw [h]; exact hflip
      · intro h
        revert h hflip
        cases csgIsInside n ops (List.foldl csgToggle (csgToggle inside e) rest) <;>
        cases csgIsInside n ops (csgToggle inside e) <;> cases wasInside <;> simp

/-- The number of tagged crossings that carry the index i is the number of
crossings of child i. -/
theorem getAllChildHits_count (sqrt : K → K)
    (sort : List (CSGIntersection K) → List (CSGIntersection K)) (ray : Ray K)
    (children : List (Object K)) (k i : Nat) :
    (getAllChildHits sqrt sort ray children k).countP
        (fun h => decide (h.childIdx.toNat = i)) =
      if k ≤ i then
        match children[i - k]? with
        | some child => (getAllIntersections sqrt sort ray child).length
        | none => 0
      else 0 := by
  induction children generalizing k with
  | nil => simp [getAllChildHits]
  | cons c cs ih =>
    rw [getAllChildHits, List.countP_append, List.countP_map, ih]
    by_cases hk : k = i
    · subst hk
      simp [Function.comp_def]
    · have h0 : List.countP ((fun (h : CSGIntersection K) =>
          decide (h.childIdx.toNat = i)) ∘
          fun h => { h with childIdx := (k : Int) }) (getAllIntersections sqrt sort ray c) = 0 := by
        rw [List.countP_eq_zero]
        intro a _
        simp [hk]
      rw [h0, zero_add]
      by_cases hle : k ≤ i
      · have hlt : k + 1 ≤ i := Nat.lt_of_le_of_ne hle hk
        rw [if_pos hle, if_pos hlt]
        have : i - k = (i - (k + 1)) + 1 := by omega
        rw [this, List.getElem?_cons_succ]
      · have hlt : ¬ k + 1 ≤ i := by omega
        rw [if_neg hle, if_neg hlt]

/-- When every child reports an even number of crossings, the sweep of a CSG node
ends with every child outside. -/
theorem csgSweep_ends_outside (sqrt : K → K)
    (sort : List (CSGIntersection K) → List (CSGIntersection K)) (hsort : IsStdSort sort)
    (ray : Ray K) (children : List (Object K))
    (heven : ∀ c ∈ children, Even (getAllIntersections sqrt sort ray c).length) :
    (sort (getAllChildHits sqrt sort ray children 0)).foldl csgToggle
      (List.replicate children.length false) = List.replicate children.length false := by
  have hlen : ∀ (evs : List (CSGIntersection K)) (inside : List Bool),
      (evs.foldl csgToggle inside).length = inside.length := by
    intro evs
    induction evs with
    | nil => intro inside; rfl
    | cons e rest ih => intro inside; rw [List.foldl_cons, ih, csgToggle_length]
  apply List.ext_getElem?
  intro i
  by_cases hi : i < children.length
  · have h1 := csgToggles_getD (sort (getAllChildHits sqrt sort ray children 0))
      (List.replicate children.length false) i (by simpa using hi)
    rw [((hsort _).1.countP_eq _), getAllChildHits_count] at h1
    have hc : Even (getAllIntersections sqrt sort ray children[i]).length :=
      heven _ (List.getElem_mem _)
    have hno : ¬ Odd (getAllIntersections sqrt sort ray children[i]).length :=
      Nat.not_odd_iff_even.mpr hc
    simp only [Nat.zero_le, if_true, Nat.sub_zero, List.getElem?_eq_getElem hi, hno,
      decide_False, List.getD_eq_getElem?_getD, List.getElem?_replicate, hi,
      Option.getD_some, bne_self_eq_false] at h1
    have hlt : i < ((sort (getAllChildHits sqrt sort ray children 0)).foldl csgToggle
        (List.replicate children.length false)).length := by
      rw [hlen]; simpa using hi
    rw [List.getElem?_eq_getElem hlt] at h1 ⊢
    simp only [Option.getD_some] at h1
    rw [h1]
    simp [List.getElem?_replicate, hi]
  · have hlt : ((sort (getAllChildHits sqrt sort ray children 0)).foldl csgToggle
        (List.replicate children.length false)).length ≤ i := by
      rw [hlen]; simpa using hi
    rw [List.getElem?_eq_none hlt, List.getElem?_eq_none (by simpa using hi)]

/-- A CSG node whose children report crossings in pairs reports crossings in pairs. -/
theorem getAllIntersections_csg_even (sqrt : K → K)
    (sort : List (CSGIntersection K) → List (CSGIntersection K)) (hsort : IsStdSort sort)
    (ray : Ray K) (node : Object K) (hty : node.type = .CSG)
    (heven : ∀ c ∈ node.csgChildren, Even (getAllIntersections sqrt sort ray c).length) :
    Even (getAllIntersections sqrt sort ray node).length := by
  rw [getAllIntersections_csg sqrt sort ray node hty, ← Nat.not_odd_iff_even,
    csgSweep_length_parity _ _ _ _ _ (csgIsInside_replicate _ _).symm,
    csgSweep_ends_outside sqrt sort hsort ray _ heven, csgIsInside_replicate]
  simp

/-- A sphere, a polyhedron and a quadric report no crossing or two. -/
theorem getAllIntersections_primitive (sqrt : K → K)
    (sort : List (CSGIntersection K) → List (CSGIntersection K))
    (ray : Ray K) (obj : Object K) (hty : obj.type ≠ .CSG) :
    (getAllIntersections sqrt sort ray obj).length = 0 ∨
      (getAllIntersections sqrt sort ray obj).length = 2 := by
  rcases obj with ⟨ty, pi, fi, c, r, fs, A, B, C, D, E, F, G, H, I, J, ch, ops⟩
  simp only [Object.type] at hty
  cases ty
  · simp only [getAllIntersections, sphereIntersections]
    split_ifs <;> simp
  · simp only [getAllIntersections, polyhedronIntersections]
    rcases polyhedronIntersectionsLoop ray fs ⟨.ninf, .inf, ⟨0, 0, 0⟩, ⟨0, 0, 0⟩⟩ with _ | s
    · simp
    · simp only
      split_ifs <;> simp
  · simp only [getAllIntersections, quadricIntersections]
    split_ifs <;> simp
  · exact absurd rfl hty

mutual
/-- Every object reports an even number of crossings. -/
theorem getAllIntersections_even (sqrt : K → K)
    (sort : List (CSGIntersection K) → List (CSGIntersection K)) (hsort : IsStdSort sort)
    (ray : Ray K) : ∀ obj : Object K, Even (getAllIntersections sqrt sort ray obj).length
  | .mk ty pi fi c r fs A B C D E F G H I J ch ops => by
    by_cases hty : ty = .CSG
    · exact getAllIntersections_csg_even sqrt sort hsort ray _ hty
        (getAllIntersections_even_children sqrt sort hsort ray ch)
    · rcases getAllIntersections_primitive sqrt sort ray
        (.mk ty pi fi c r fs A B C D E F G H I J ch ops) hty with h | h
      · rw [h]; exact even_zero
      · rw [h]; exact even_two
/-- Every object of a list reports an even number of crossings. -/
theorem getAllIntersections_even_children (sqrt : K → K)
    (sort : List (CSGIntersection K) → List (CSGIntersection K)) (hsort : IsStdSort sort)
    (ray : Ray K) : ∀ children : List (Object K),
      ∀ c ∈ children, Even (getAllIntersections sqrt sort ray c).length
  | [] => by simp
  | c :: cs => by
    intro c' hc'
    rcases List.mem_cons.mp hc' with h | h
    · rw [h]; exact getAllIntersections_even sqrt sort hsort ray c
    · exact getAllIntersections_even_children sqrt sort hsort ray cs c' h
end

/-- C27: for every object tree and ray, getAllIntersections appends an even number
of crossings: none or two for a sphere, a polyhedron and a quadric; for a CSG
node, whose children report crossings in pairs, the sweep ends with every
child outside and the composite outside. -/
theorem crossings_pair_up (sqrt : K → K)
    (sort : List (CSGIntersection K) → List (CSGIntersection K)) (hsort : IsStdSort sort)
    (ray : Ray K) (obj : Object K) :
    Even (getAllIntersections sqrt sort ray obj).length ∧
    (obj.type ≠ .CSG →
      (getAllIntersections sqrt sort ray obj).length = 0 ∨
        (getAllIntersections sqrt sort ray obj).length = 2) ∧
    (obj.type = .CSG →
      (∀ c ∈ obj.csgChildren, Even (getAllIntersections sqrt sort ray c).length) ∧
      (sort (getAllChildHits sqrt sort ray obj.csgChildren 0)).foldl csgToggle
        (List.replicate obj.csgChildren.length false) =
          List.replicate obj.csgChildren.length false ∧
      csgIsInside obj.csgChildren.length obj.csgOperations
        ((sort (getAllChildHits sqrt sort ray obj.csgChildren 0)).foldl csgToggle
          (List.replicate obj.csgChildren.length false)) = false) := by
  refine ⟨getAllIntersections_even sqrt sort hsort ray obj,
    fun hty => getAllIntersections_primitive sqrt sort ray obj hty, fun _ => ?_⟩
  have hch := getAllIntersections_even_children sqrt sort hsort ray obj.csgChildren
  have hend := csgSweep_ends_outside sqrt sort hsort ray obj.csgChildren hch
  refine ⟨hch, hend, ?_⟩
  rw [hend, csgIsInside_replicate]

/-- Witness for C27: a CSG node nested in a CSG node, around the unit sphere at
(0,0,-5). -/
theorem crossings_pair_up_witness :
    IsStdSort (insertionSortByT (K := ℝ)) ∧
    Even (getAllIntersections Real.sqrt insertionSortByT ⟨⟨0, 0, 0⟩, ⟨0, 0, -1⟩⟩
      (csgObject [csgObject [sphereObject (⟨0, 0, -5⟩ : Vec3 ℝ) 1] [.CSG_UNION]]
        [.CSG_UNION])).length :=
  ⟨isStdSort_insertionSortByT,
    (crossings_pair_up Real.sqrt insertionSortByT isStdSort_insertionSortByT
      ⟨⟨0, 0, 0⟩, ⟨0, 0, -1⟩⟩
      (csgObject [csgObject [sphereObject ⟨0, 0, -5⟩ 1] [.CSG_UNION]] [.CSG_UNION])).1⟩

/-! ### Index safety -/

/-- The tag of every swept crossing is the index of a child. -/
theorem getAllChildHits_childIdx (sqrt : K → K)
    (sort : List (CSGIntersection K) → List (CSGIntersection K)) (hsort : IsStdSort sort)
    (ray : Ray K) (children : List (Object K)) :
    ∀ h ∈ sort (getAllChildHits sqrt sort ray children 0),
      0 ≤ h.childIdx ∧ h.childIdx < (children.length : Int) := by
  intro h hh
  obtain ⟨i, child, hi, h', -, he⟩ :=
    getAllChildHits_mem sqrt sort ray children 0 h ((hsort _).1.mem_iff.mp hh)
  have hlt : i < children.length := by
    by_contra hcon
    rw [List.getElem?_eq_none (not_lt.mp hcon)] at hi
    exact absurd hi (by simp)
  rw [he]
  simp only [Nat.zero_add]
  omega

/-- The sweep reads in range when the tags are child indices, inside has one flag
per child and there is one operation per child. -/
theorem csgSweepInRange_of (n : Nat) (ops : List CSGOperation) (hops : ops.length = n)
    (evs : List (CSGIntersection K))
    (hevs : ∀ h ∈ evs, 0 ≤ h.childIdx ∧ h.childIdx < (n : Int))
    (inside : List Bool) (hin : inside.length = n) (wasInside : Bool) :
    csgSweepInRange n ops evs inside wasInside := by
  induction evs generalizing inside wasInside with
  | nil => trivial
  | cons e rest ih =>
    have he := hevs e (List.mem_cons_self _ _)
    have hlt : e.childIdx.toNat < n := by omega
    refine ⟨⟨he.1, by rw [hin]; exact hlt⟩, ?_, fun _ => by rw [hops]; exact hlt, ?_⟩
    · intro i hi
      exact ⟨by rw [csgToggle_length, hin]; exact hi, fun _ => by rw [hops]; exact hi⟩
    · exact ih (fun h hh => hevs h (List.mem_cons_of_mem _ hh)) _
        (by rw [csgToggle_length, hin]) _

mutual
/-- In a tree whose CSG nodes have as many operations as children,
getAllIntersections reads in range. -/
theorem getAllIntersectionsInRange_of (sqrt : K → K)
    (sort : List (CSGIntersection K) → List (CSGIntersection K)) (hsort : IsStdSort sort)
    (ray : Ray K) : ∀ obj : Object K, obj.opsMatch = true →
      getAllIntersectionsInRange sqrt sort ray obj
  | .mk ty pi fi c r fs A B C D E F G H I J ch ops => by
    intro h
    cases ty
    · simp only [getAllIntersectionsInRange]
    · simp only [getAllIntersectionsInRange]
    · simp only [getAllIntersectionsInRange]
    · simp only [Object.opsMatch, Bool.and_eq_true, decide_eq_true_eq] at h
      simp only [getAllIntersectionsInRange]
      exact ⟨getAllChildHitsInRange_of sqrt sort hsort ray ch h.2,
        csgSweepInRange_of _ _ h.1 _ (getAllChildHits_childIdx sqrt sort hsort ray ch) _
          (by simp) _⟩
/-- In a list of such trees getAllIntersections reads in range for each. -/
theorem getAllChildHitsInRange_of (sqrt : K → K)
    (sort : List (CSGIntersection K) → List (CSGIntersection K)) (hsort : IsStdSort sort)
    (ray : Ray K) : ∀ children : List (Object K), Object.opsMatchAll children = true →
      getAllChildHitsInRange sqrt sort ray children
  | [] => by intro _; simp only [getAllChildHitsInRange]
  | c :: cs => by
    intro h
    simp only [Object.opsMatchAll, Bool.and_eq_true] at h
    simp only [getAllChildHitsInRange]
    exact ⟨getAllIntersectionsInRange_of sqrt sort hsort ray c h.1,
      getAllChildHitsInRange_of sqrt sort hsort ray cs h.2⟩
end

/-- A hit reported by findClosestHit names a top-level object. -/
theorem findClosestHit_objectIdx_range (sqrt : K → K)
    (sort : List (CSGIntersection K) → List (CSGIntersection K)) (ray : Ray K)
    (scene : Scene K) (h : (findClosestHit sqrt sort ray scene).hit = true) :
    0 ≤ (findClosestHit sqrt sort ray scene).objectIdx ∧
      (findClosestHit sqrt sort ray scene).objectIdx < (scene.objects.length : Int) := by
  rcases findClosestHit_cases sqrt sort ray scene
    with ⟨h1, -⟩ | ⟨i, obj, hi, -, hres, -, -⟩
  · rw [h1] at h; cases h
  · have hlt : i < scene.objects.length := by
      by_contra hcon
      rw [List.getElem?_eq_none (not_lt.mp hcon)] at hi
      exact absurd hi (by simp)
    rw [hres]
    simp only
    omega

/-- C28: under the scene invariants (a first light, the pigment and finish index
of every top-level object in range, as many operations as children in every
CSG node) no index evaluated is out of range: getAllIntersections reads in
range for every top-level object and ray; the tags swept by a CSG node are child
indices; a hit of findClosestHit names a top-level object, for which the four
table reads of shade succeed; and shade and traceRay return a colour, the
result that stands for no read out of range. -/
theorem index_safety [FloorRing K] (sqrt : K → K)
    (sort : List (CSGIntersection K) → List (CSGIntersection K)) (hsort : IsStdSort sort)
    (pow : K → K → K) (rand : Nat → K) (RAND_MAX : K) (scene : Scene K)
    (hok : SceneOk scene) (hops : ∀ obj ∈ scene.objects, obj.opsMatch = true) :
    (∀ (ray : Ray K), ∀ obj ∈ scene.objects, getAllIntersectionsInRange sqrt sort ray obj) ∧
    (∀ (ray : Ray K) (node : Object K),
      ∀ h ∈ sort (getAllChildHits sqrt sort ray node.csgChildren 0),
        0 ≤ h.childIdx ∧ h.childIdx < (node.csgChildren.length : Int)) ∧
    (∀ (ray : Ray K), (findClosestHit sqrt sort ray scene).hit = true →
      (0 ≤ (findClosestHit sqrt sort ray scene).objectIdx ∧
        (findClosestHit sqrt sort ray scene).objectIdx < (scene.objects.length : Int)) ∧
      ∃ (obj : Object K) (pigment : Pigment K) (finish : Finish K) (light0 : Light K),
        vectorAt scene.objects (findClosestHit sqrt sort ray scene).objectIdx = some obj ∧
        vectorAt scene.pigments obj.pigmentIdx = some pigment ∧
        vectorAt scene.finishes obj.finishIdx = some finish ∧
        scene.lights[0]? = some light0) ∧
    (∀ (ray : Ray K) (depth : Int) (st : Exec),
      (findClosestHit sqrt sort ray scene).hit = true →
      (shade sqrt sort pow rand RAND_MAX (findClosestHit sqrt sort ray scene) scene ray depth
        st).isSome = true) ∧
    (∀ (ray : Ray K) (depth : Int) (st : Exec),
      (traceRay sqrt sort pow rand RAND_MAX ray scene depth st).isSome = true) := by
  refine ⟨fun ray obj hobj => getAllIntersectionsInRange_of sqrt sort hsort ray obj (hops obj hobj),
    fun ray node => getAllChildHits_childIdx sqrt sort hsort ray node.csgChildren, ?_, ?_,
    fun ray depth st => traceRay_isSome sqrt sort pow rand RAND_MAX scene hok ray depth st⟩
  · intro ray hhit
    refine ⟨findClosestHit_objectIdx_range sqrt sort ray scene hhit, ?_⟩
    obtain ⟨obj, hobj⟩ := findClosestHit_objectIdx sqrt sort ray scene hhit
    obtain ⟨hlights, hidx⟩ := hok
    obtain ⟨⟨hp0, hp1⟩, ⟨hf0, hf1⟩⟩ := hidx obj (vectorAt_mem _ _ _ hobj)
    obtain ⟨pigment, hp⟩ := vectorAt_isSome scene.pigments obj.pigmentIdx hp0 hp1
    obtain ⟨fin, hf⟩ := vectorAt_isSome scene.finishes obj.finishIdx hf0 hf1
    rcases hls : scene.lights with _ | ⟨l0, rest⟩
    · exact absurd hls hlights
    · exact ⟨obj, pigment, fin, l0, hobj, hp, hf, List.getElem?_cons_zero⟩
  · intro ray depth st hhit
    obtain ⟨obj, hobj⟩ := findClosestHit_objectIdx sqrt sort ray scene hhit
    exact shade_isSome sqrt sort pow rand RAND_MAX scene hok _ ray depth st obj hobj

/-- Witness for C28: the scene of one CSG node around the unit sphere at
(0,0,-5), with one light, one pigment and one finish. -/
theorem index_safety_witness :
    IsStdSort (insertionSortByT (K := ℝ)) ∧
    SceneOk ({ ambientScene (⟨1, 1, 1⟩ : Vec3 ℝ) 1 with
      objects := [csgObject [sphereObject ⟨0, 0, -5⟩ 1] [.CSG_UNION]] }) ∧
    (∀ obj ∈ ({ ambientScene (⟨1, 1, 1⟩ : Vec3 ℝ) 1 with
      objects := [csgObject [sphereObject ⟨0, 0, -5⟩ 1] [.CSG_UNION]] }).objects,
      obj.opsMatch = true) ∧
    getAllIntersectionsInRange Real.sqrt insertionSortByT ⟨⟨0, 0, 0⟩, ⟨0, 0, -1⟩⟩
      (csgObject [sphereObject (⟨0, 0, -5⟩ : Vec3 ℝ) 1] [.CSG_UNION]) ∧
    (traceRay Real.sqrt insertionSortByT Real.rpow (fun _ => 0) 2147483647
      ⟨⟨0, 0, 0⟩, ⟨0, 0, -1⟩⟩
      ({ ambientScene (⟨1, 1, 1⟩ : Vec3 ℝ) 1 with
        objects := [csgObject [sphereObject ⟨0, 0, -5⟩ 1] [.CSG_UNION]] }) 0 ⟨0, []⟩).isSome =
      true := by
  have hok : SceneOk ({ ambientScene (⟨1, 1, 1⟩ : Vec3 ℝ) 1 with
      objects := [csgObject [sphereObject ⟨0, 0, -5⟩ 1] [.CSG_UNION]] }) := by
    refine ⟨by simp [ambientScene], ?_⟩
    intro obj hobj
    simp only [List.mem_singleton] at hobj
    subst hobj
    simp [ambientScene, csgObject, Object.pigmentIdx, Object.finishIdx]
  have hops : ∀ obj ∈ ({ ambientScene (⟨1, 1, 1⟩ : Vec3 ℝ) 1 with
      objects := [csgObject [sphereObject ⟨0, 0, -5⟩ 1] [.CSG_UNION]] }).objects,
      obj.opsMatch = true := by
    intro obj hobj
    simp only [List.mem_singleton] at hobj
    subst hobj
    simp [csgObject, sphereObject, Object.opsMatch, Object.opsMatchAll]
  have h := index_safety Real.sqrt insertionSortByT isStdSort_insertionSortByT Real.rpow
    (fun _ => 0) 2147483647 _ hok hops
  exact ⟨isStdSort_insertionSortByT, hok, hops,
    h.1 ⟨⟨0, 0, 0⟩, ⟨0, 0, -1⟩⟩ _ (List.mem_singleton_self _),
    h.2.2.2.2 ⟨⟨0, 0, 0⟩, ⟨0, 0, -1⟩⟩ 0 ⟨0, []⟩⟩

/-! ### Slab clipping -/

theorem intersectPolyhedronLoop_cons (ray : Ray K) (plane : Plane K) (rest : List (Plane K))
    (s : Slab K) :
    intersectPolyhedronLoop ray (plane :: rest) s =
      if |plane.normal.dot ray.direction| < 1 / 10000000000 then
        if plane.distance ray.origin > 0 then none
        else intersectPolyhedronLoop ray rest s
      else
        if (slabUpdate ray plane s).tNear > (slabUpdate ray plane s).tFar then none
        else intersectPolyhedronLoop ray rest (slabUpdate ray plane s) := by
  simp only [intersectPolyhedronLoop, slabUpdate]

/-- The update for one face shrinks the interval and records the face. -/
theorem slabUpdate_spec (ray : Ray K) (plane : Plane K) (s : Slab K) :
    s.tNear ≤ (slabUpdate ray plane s).tNear ∧ (slabUpdate ray plane s).tFar ≤ s.tFar ∧
    (plane.normal.dot ray.direction < 0 →
      Dbl.fin (-plane.distance ray.origin / plane.normal.dot ray.direction) ≤
        (slabUpdate ray plane s).tNear) ∧
    (¬ plane.normal.dot ray.direction < 0 →
      (slabUpdate ray plane s).tFar ≤
        Dbl.fin (-plane.distance ray.origin / plane.normal.dot ray.direction)) ∧
    (((slabUpdate ray plane s).tNear = s.tNear ∧
        (slabUpdate ray plane s).nearNormal = s.nearNormal) ∨
      (plane.normal.dot ray.direction < 0 ∧
        (slabUpdate ray plane s).tNear =
          Dbl.fin (-plane.distance ray.origin / plane.normal.dot ray.direction) ∧
        (slabUpdate ray plane s).nearNormal = plane.normal)) ∧
    (((slabUpdate ray plane s).tFar = s.tFar ∧
        (slabUpdate ray plane s).farNormal = s.farNormal) ∨
      (¬ plane.normal.dot ray.direction < 0 ∧
        (slabUpdate ray plane s).tFar =
          Dbl.fin (-plane.distance ray.origin / plane.normal.dot ray.direction) ∧
        (slabUpdate ray plane s).farNormal = plane.normal.scale (-1))) := by
  simp only [slabUpdate]
  by_cases hneg : plane.normal.dot ray.direction < 0
  · rw [if_pos hneg]
    by_cases hup : Dbl.fin (-plane.distance ray.origin / plane.normal.dot ray.direction) > s.tNear
    · rw [if_pos hup]
      exact ⟨le_of_lt hup, le_refl _, fun _ => le_refl _, fun h => absurd hneg h,
        Or.inr ⟨hneg, rfl, rfl⟩, Or.inl ⟨rfl, rfl⟩⟩
    · rw [if_neg hup]
      exact ⟨le_refl _, le_refl _, fun _ => not_lt.mp hup, fun h => absurd hneg h,
        Or.inl ⟨rfl, rfl⟩, Or.inl ⟨rfl, rfl⟩⟩
  · rw [if_neg hneg]
    by_cases hup : Dbl.fin (-plane.distance ray.origin / plane.normal.dot ray.direction) < s.tFar
    · rw [if_pos hup]
      exact ⟨le_refl _, le_of_lt hup, fun h => absurd h hneg, fun _ => le_refl _,
        Or.inl ⟨rfl, rfl⟩, Or.inr ⟨hneg, rfl, rfl⟩⟩
    · rw [if_neg hup]
      exact ⟨le_refl _, le_refl _, fun h => absurd h hneg, fun _ => not_lt.mp hup,
        Or.inl ⟨rfl, rfl⟩, Or.inl ⟨rfl, rfl⟩⟩

/-- The loop of intersectPolyhedron, when it does not return false, leaves a
state described by SlabResult. -/
theorem intersectPolyhedronLoop_spec (ray : Ray K) (faces : List (Plane K)) (s s' : Slab K)
    (hs : s.tNear ≤ s.tFar) (h : intersectPolyhedronLoop ray faces s = some s') :
    SlabResult ray faces s s' := by
  induction faces generalizing s with
  | nil =>
    simp only [intersectPolyhedronLoop, Option.some.injEq] at h
    subst h
    exact ⟨hs, le_refl _, le_refl _, fun p hp => by simp at hp, Or.inl ⟨rfl, rfl⟩,
      Or.inl ⟨rfl, rfl⟩⟩
  | cons plane rest ih =>
    rw [intersectPolyhedronLoop_cons] at h
    by_cases hpar : |plane.normal.dot ray.direction| < 1 / 10000000000
    · rw [if_pos hpar] at h
      by_cases hout : plane.distance ray.origin > 0
      · rw [if_pos hout] at h; cases h
      · rw [if_neg hout] at h
        obtain ⟨h1, h2, h3, h4, h5, h6⟩ := ih s hs h
        refine ⟨h1, h2, h3, ?_, ?_, ?_⟩
        · intro p hp
          rcases List.mem_cons.mp hp with rfl | hp
          · exact ⟨fun _ => not_lt.mp hout, fun hc => absurd hpar hc, fun hc => absurd hpar hc⟩
          · exact h4 p hp
        · rcases h5 with h5 | ⟨p, hp, h5⟩
          · exact Or.inl h5
          · exact Or.inr ⟨p, List.mem_cons_of_mem _ hp, h5⟩
        · rcases h6 with h6 | ⟨p, hp, h6⟩
          · exact Or.inl h6
          · exact Or.inr ⟨p, List.mem_cons_of_mem _ hp, h6⟩
    · rw [if_neg hpar] at h
      by_cases hempty : (slabUpdate ray plane s).tNear > (slabUpdate ray plane s).tFar
      · rw [if_pos hempty] at h; cases h
      · rw [if_neg hempty] at h
        obtain ⟨u1, u2, u3, u4, u5, u6⟩ := slabUpdate_spec ray plane s
        obtain ⟨h1, h2, h3, h4, h5, h6⟩ := ih _ (not_lt.mp hempty) h
        refine ⟨h1, le_trans u1 h2, le_trans h3 u2, ?_, ?_, ?_⟩
        · intro p hp
          rcases List.mem_cons.mp hp with rfl | hp
          · exact ⟨fun hc => absurd hc hpar, fun _ hneg => le_trans (u3 hneg) h2,
              fun _ hneg => le_trans h3 (u4 hneg)⟩
          · exact h4 p hp
        · rcases h5 with ⟨h5, h5'⟩ | ⟨p, hp, h5⟩
          · rcases u5 with ⟨u5, u5'⟩ | ⟨hneg, u5, u5'⟩
            · exact Or.inl ⟨h5.trans u5, h5'.trans u5'⟩
            · exact Or.inr ⟨plane, List.mem_cons_self _ _, hpar, hneg, h5.trans u5,
                h5'.trans u5'⟩
          · exact Or.inr ⟨p, List.mem_cons_of_mem _ hp, h5⟩
        · rcases h6 with ⟨h6, h6'⟩ | ⟨p, hp, h6⟩
          · rcases u6 with ⟨u6, u6'⟩ | ⟨hneg, u6, u6'⟩
            · exact Or.inl ⟨h6.trans u6, h6'.trans u6'⟩
            · exact Or.inr ⟨plane, List.mem_cons_self _ _, hpar, hneg, h6.trans u6,
                h6'.trans u6'⟩
          · exact Or.inr ⟨p, List.mem_cons_of_mem _ hp, h6⟩

/-- The record that intersectPolyhedron fills in when it reports a hit: t is
tNear, or tFar when tNear is below 0.001, with the matching normal. -/
theorem intersectPolyhedron_result (sqrt : K → K) (ray : Ray K) (poly : Object K)
    (hit0 : HitInfo K) (h : (intersectPolyhedron sqrt ray poly hit0).1 = true) :
    ∃ (s : Slab K) (t : K) (n : Vec3 K),
      intersectPolyhedronLoop ray poly.faces ⟨.ninf, .inf, ⟨0, 0, 0⟩, ⟨0, 0, 0⟩⟩ = some s ∧
      ((¬ s.tNear < Dbl.fin (1 / 1000) ∧ s.tNear = Dbl.fin t ∧ n = s.nearNormal) ∨
        (s.tNear < Dbl.fin (1 / 1000) ∧ s.tFar = Dbl.fin t ∧ n = s.farNormal)) ∧
      1 / 1000 ≤ t ∧ t ≤ 10000000000 ∧
      (intersectPolyhedron sqrt ray poly hit0).2.t = Dbl.fin t ∧
      (intersectPolyhedron sqrt ray poly hit0).2.point = ray.at_ t ∧
      (intersectPolyhedron sqrt ray poly hit0).2.normal = n.normalize sqrt := by
  simp only [intersectPolyhedron] at h ⊢
  rcases hloop : intersectPolyhedronLoop ray poly.faces
      ⟨Dbl.ninf, Dbl.inf, ⟨0, 0, 0⟩, ⟨0, 0, 0⟩⟩ with _ | s
  · simp [hloop] at h
  · simp only [hloop] at h ⊢
    by_cases hlt : s.tNear < Dbl.fin (1 / 1000)
    · simp only [if_pos hlt] at h ⊢
      rcases hF : s.tFar with _ | x | _ | _
      · simp [hF] at h
      · simp only [hF] at h ⊢
        split_ifs at h ⊢ with h1
        rw [not_or] at h1
        exact ⟨s, x, s.farNormal, rfl, Or.inr ⟨hlt, hF, rfl⟩, not_lt.mp h1.1, not_lt.mp h1.2,
          rfl, rfl, rfl⟩
      · simp [hF] at h
      · simp [hF] at h
    · simp only [if_neg hlt] at h ⊢
      rcases hN : s.tNear with _ | x | _ | _
      · simp [hN] at h
      · simp only [hN] at h ⊢
        split_ifs at h ⊢ with h1
        rw [not_or] at h1
        exact ⟨s, x, s.nearNormal, rfl, Or.inl ⟨hlt, hN, rfl⟩,
          not_lt.mp h1.1, not_lt.mp h1.2, rfl, rfl, rfl⟩
      · simp [hN] at h
      · simp [hN] at h

theorem plane_distance_at (plane : Plane K) (ray : Ray K) (t : K) :
    plane.distance (ray.at_ t) =
      plane.distance ray.origin + t * plane.normal.dot ray.direction := by
  simp only [Plane.distance, Plane.normal, Ray.at_, Vec3.add, Vec3.scale, Vec3.dot]
  ring

/-- Normalizing a vector keeps the sign of a negative dot product. -/
theorem normalize_dot_neg (sqrt : K → K) (hs : IsSqrt sqrt) (v d : Vec3 K)
    (h : v.dot d < 0) : (v.normalize sqrt).dot d < 0 := by
  have hv : v ≠ ⟨0, 0, 0⟩ := by
    rintro rfl
    simp [Vec3.dot] at h
  have hpos := length_pos sqrt hs v hv
  simp only [Vec3.normalize]
  rw [if_pos hpos]
  simp only [Vec3.dot] at h ⊢
  have e : v.x / v.length sqrt * d.x + v.y / v.length sqrt * d.y + v.z / v.length sqrt * d.z =
      (v.x * d.x + v.y * d.y + v.z * d.z) / v.length sqrt := by
    field_simp
  rw [e]
  exact div_neg_of_neg_of_pos h hpos

/-- C26: for a polyhedron and a ray such that every face is exactly parallel to
the ray or has |normal . direction| >= 1e-10, a hit reported by
intersectPolyhedron has t in [0.001, 1e10] and point = ray.at(t); the point
lies in the half-space of every face and on the plane of the face whose
normal is reported (as it is, or negated when the ray leaves through it), and
the reported normal opposes the ray. -/
theorem slab_clipping_sound (sqrt : K → K) (hs : IsSqrt sqrt) (ray : Ray K) (poly : Object K)
    (hit0 : HitInfo K)
    (hpar : ∀ p ∈ poly.faces, p.normal.dot ray.direction = 0 ∨
      1 / 10000000000 ≤ |p.normal.dot ray.direction|)
    (hhit : (intersectPolyhedron sqrt ray poly hit0).1 = true) :
    ∃ t : K, (intersectPolyhedron sqrt ray poly hit0).2.t = Dbl.fin t ∧
      1 / 1000 ≤ t ∧ t ≤ 10000000000 ∧
      (intersectPolyhedron sqrt ray poly hit0).2.point = ray.at_ t ∧
      (∀ p ∈ poly.faces, p.distance (intersectPolyhedron sqrt ray poly hit0).2.point ≤ 0) ∧
      (∃ p ∈ poly.faces, p.distance (intersectPolyhedron sqrt ray poly hit0).2.point = 0 ∧
        ((intersectPolyhedron sqrt ray poly hit0).2.normal = p.normal.normalize sqrt ∨
          (intersectPolyhedron sqrt ray poly hit0).2.normal =
            (p.normal.scale (-1)).normalize sqrt)) ∧
      (intersectPolyhedron sqrt ray poly hit0).2.normal.dot ray.direction < 0 := by
  obtain ⟨s, t, n, hloop, hcase, ht1, ht2, hT, hP, hN⟩ :=
    intersectPolyhedron_result sqrt ray poly hit0 hhit
  obtain ⟨r1, -, -, r4, r5, r6⟩ := intersectPolyhedronLoop_spec ray poly.faces _ s
    (Dbl.ninf_le _) hloop
  have hlo : s.tNear ≤ Dbl.fin t := by
    rcases hcase with ⟨-, h, -⟩ | ⟨-, h, -⟩
    · rw [h]
    · rw [← h]; exact r1
  have hhi : Dbl.fin t ≤ s.tFar := by
    rcases hcase with ⟨-, h, -⟩ | ⟨-, h, -⟩
    · rw [← h]; exact r1
    · rw [h]
  have hon : ∀ p : Plane K, p.normal.dot ray.direction ≠ 0 →
      p.distance ray.origin +
        -p.distance ray.origin / p.normal.dot ray.direction * p.normal.dot ray.direction = 0 := by
    intro p hne
    rw [div_mul_cancel₀ _ hne]
    ring
  have hnz : ∀ p : Plane K, ¬ |p.normal.dot ray.direction| < 1 / 10000000000 →
      p.normal.dot ray.direction ≠ 0 := by
    intro p hp hz
    apply hp
    rw [hz, abs_zero]
    norm_num
  have hall : ∀ p ∈ poly.faces, p.distance (ray.at_ t) ≤ 0 := by
    intro p hp
    rw [plane_distance_at]
    obtain ⟨q1, q2, q3⟩ := r4 p hp
    by_cases hpp : |p.normal.dot ray.direction| < 1 / 10000000000
    · rcases hpar p hp with hz | hz
      · rw [hz, mul_zero, add_zero]
        exact q1 hpp
      · exact absurd hpp (not_lt.mpr hz)
    · have hne := hnz p hpp
      have h0 := hon p hne
      by_cases hneg : p.normal.dot ray.direction < 0
      · have hle := Dbl.fin_le_fin.mp (le_trans (q2 hpp hneg) hlo)
        have := mul_le_mul_of_nonpos_right hle (le_of_lt hneg)
        linarith
      · have hge : 0 ≤ p.normal.dot ray.direction := not_lt.mp hneg
        have hle := Dbl.fin_le_fin.mp (le_trans hhi (q3 hpp hneg))
        have := mul_le_mul_of_nonneg_right hle hge
        linarith
  refine ⟨t, hT, ht1, ht2, hP, ?_, ?_, ?_⟩
  · rw [hP]; exact hall
  · rcases hcase with ⟨-, hNear, hn⟩ | ⟨-, hFar, hn⟩
    · rcases r5 with ⟨h5, -⟩ | ⟨p, hp, hpp, hneg, h5, h5'⟩
      · rw [hNear] at h5; cases h5
      · rw [hNear] at h5
        injection h5 with h5
        refine ⟨p, hp, ?_, Or.inl ?_⟩
        · rw [hP, plane_distance_at, h5]
          exact hon p (hnz p hpp)
        · rw [hN, hn, h5']
    · rcases r6 with ⟨h6, -⟩ | ⟨p, hp, hpp, hneg, h6, h6'⟩
      · rw [hFar] at h6; cases h6
      · rw [hFar] at h6
        injection h6 with h6
        refine ⟨p, hp, ?_, Or.inr ?_⟩
        · rw [hP, plane_distance_at, h6]
          exact hon p (hnz p hpp)
        · rw [hN, hn, h6']
  · rw [hN]
    apply normalize_dot_neg sqrt hs
    rcases hcase with ⟨-, hNear, hn⟩ | ⟨-, hFar, hn⟩
    · rcases r5 with ⟨h5, -⟩ | ⟨p, hp, hpp, hneg, h5, h5'⟩
      · rw [hNear] at h5; cases h5
      · rw [hn, h5']; exact hneg
    · rcases r6 with ⟨h6, -⟩ | ⟨p, hp, hpp, hneg, h6, h6'⟩
      · rw [hFar] at h6; cases h6
      · rw [hn, h6']
        have hpos : 0 < p.normal.dot ray.direction :=
          lt_of_le_of_ne (not_lt.mp hneg) (Ne.symm (hnz p hpp))
        simp only [Vec3.scale, Vec3.dot] at hpos ⊢
        linarith

/-- The slab -6 <= z <= -4, x <= 1 is entered at t = 4 by the downward ray from
the origin. -/
theorem intersectPolyhedron_slab (hit0 : HitInfo ℝ) :
    (intersectPolyhedron Real.sqrt ⟨⟨0, 0, 0⟩, ⟨0, 0, -1⟩⟩
      (polyhedronObject [⟨0, 0, 1, 4⟩, ⟨0, 0, -1, -6⟩, ⟨1, 0, 0, -1⟩]) hit0).1 = true := by
  simp only [polyhedronObject, intersectPolyhedron, Object.faces, intersectPolyhedronLoop,
    Plane.normal, Plane.distance, Vec3.dot]
  have h1 : ¬ Dbl.inf < Dbl.fin (4 : ℝ) := Dbl.not_inf_lt_fin
  norm_num [Dbl.ninf_lt_fin, Dbl.fin_lt_inf, Dbl.fin_lt_fin, abs_of_pos, h1]

/-- Witness for C26: the slab -6 <= z <= -4, x <= 1 and the downward ray from the
origin, which is parallel to the third face. -/
theorem slab_clipping_sound_witness :
    IsSqrt Real.sqrt ∧
    (∀ p ∈ (polyhedronObject
        [(⟨0, 0, 1, 4⟩ : Plane ℝ), ⟨0, 0, -1, -6⟩, ⟨1, 0, 0, -1⟩]).faces,
      p.normal.dot (⟨0, 0, -1⟩ : Vec3 ℝ) = 0 ∨
        1 / 10000000000 ≤ |p.normal.dot (⟨0, 0, -1⟩ : Vec3 ℝ)|) ∧
    (intersectPolyhedron Real.sqrt ⟨⟨0, 0, 0⟩, ⟨0, 0, -1⟩⟩
      (polyhedronObject [⟨0, 0, 1, 4⟩, ⟨0, 0, -1, -6⟩, ⟨1, 0, 0, -1⟩]) HitInfo.ctor).1 = true ∧
    (intersectPolyhedron Real.sqrt ⟨⟨0, 0, 0⟩, ⟨0, 0, -1⟩⟩
      (polyhedronObject [⟨0, 0, 1, 4⟩, ⟨0, 0, -1, -6⟩, ⟨1, 0, 0, -1⟩])
      HitInfo.ctor).2.normal.dot (⟨0, 0, -1⟩ : Vec3 ℝ) < 0 := by
  have hpar : ∀ p ∈ (polyhedronObject
        [(⟨0, 0, 1, 4⟩ : Plane ℝ), ⟨0, 0, -1, -6⟩, ⟨1, 0, 0, -1⟩]).faces,
      p.normal.dot (⟨0, 0, -1⟩ : Vec3 ℝ) = 0 ∨
        1 / 10000000000 ≤ |p.normal.dot (⟨0, 0, -1⟩ : Vec3 ℝ)| := by
    intro p hp
    simp only [polyhedronObject, Object.faces, List.mem_cons, List.mem_singleton,
      List.not_mem_nil, or_false] at hp
    rcases hp with rfl | rfl | rfl <;> norm_num [Plane.normal, Vec3.dot]
  obtain ⟨t, -, -, -, -, -, -, h⟩ := slab_clipping_sound Real.sqrt isSqrt_real
    ⟨⟨0, 0, 0⟩, ⟨0, 0, -1⟩⟩
    (polyhedronObject [⟨0, 0, 1, 4⟩, ⟨0, 0, -1, -6⟩, ⟨1, 0, 0, -1⟩]) HitInfo.ctor hpar
    (intersectPolyhedron_slab _)
  exact ⟨isSqrt_real, hpar, intersectPolyhedron_slab _, h⟩

/-! ### Refraction -/

/-- The tail of refract for unit vectors I and n with I . n = -cosi: false exactly
when k < 0; otherwise the direction returned has unit length, n-component
-sqrt(k), and tangential component eta times that of I. -/
theorem refractWith_spec (sqrt : K → K) (hs : IsSqrt sqrt) (I n : Vec3 K) (cosi etai etat : K)
    (refracted : Vec3 K) (hI : I.dot I = 1) (hn : n.dot n = 1) (hIn : I.dot n = -cosi) :
    ((refractWith sqrt I cosi etai etat n refracted).1 = false ↔
      1 - etai / etat * (etai / etat) * (1 - cosi * cosi) < 0) ∧
    ((refractWith sqrt I cosi etai etat n refracted).1 = false →
      (refractWith sqrt I cosi etai etat n refracted).2 = refracted) ∧
    ((refractWith sqrt I cosi etai etat n refracted).1 = true →
      (refractWith sqrt I cosi etai etat n refracted).2.dot
        (refractWith sqrt I cosi etai etat n refracted).2 = 1 ∧
      (refractWith sqrt I cosi etai etat n refracted).2.dot n =
        -sqrt (1 - etai / etat * (etai / etat) * (1 - cosi * cosi)) ∧
      (refractWith sqrt I cosi etai etat n refracted).2.sub
          (n.scale ((refractWith sqrt I cosi etai etat n refracted).2.dot n)) =
        (I.sub (n.scale (I.dot n))).scale (etai / etat)) := by
  simp only [refractWith]
  by_cases hk : 1 - etai / etat * (etai / etat) * (1 - cosi * cosi) < 0
  · rw [if_pos hk]
    exact ⟨⟨fun _ => hk, fun _ => rfl⟩, fun _ => rfl, fun h => by simp at h⟩
  · rw [if_neg hk]
    have hk0 : 0 ≤ 1 - etai / etat * (etai / etat) * (1 - cosi * cosi) := not_lt.mp hk
    have hsq := hs.mul_self hk0
    generalize sqrt (1 - etai / etat * (etai / etat) * (1 - cosi * cosi)) = s at hsq
    generalize etai / etat = eta at hsq hk hk0
    simp only [Vec3.dot] at hI hn hIn
    have hunit : ((I.scale eta).add (n.scale (eta * cosi - s))).dot
        ((I.scale eta).add (n.scale (eta * cosi - s))) = 1 := by
      simp only [Vec3.dot, Vec3.add, Vec3.scale]
      linear_combination eta ^ 2 * hI + 2 * eta * (eta * cosi - s) * hIn +
        (eta * cosi - s) ^ 2 * hn + hsq
    rw [normalize_of_unit sqrt hs _ hunit]
    refine ⟨⟨fun h => by simp at h, fun h => absurd h hk⟩, fun h => by simp at h, fun _ => ?_⟩
    have hdot : ((I.scale eta).add (n.scale (eta * cosi - s))).dot n = -s := by
      simp only [Vec3.dot, Vec3.add, Vec3.scale]
      linear_combination eta * hIn + (eta * cosi - s) * hn
    refine ⟨hunit, hdot, ?_⟩
    rw [hdot]
    simp only [Vec3.dot, Vec3.add, Vec3.scale, Vec3.sub, Vec3.mk.injEq]
    refine ⟨?_, ?_, ?_⟩
    · linear_combination (eta * n.x) * hIn
    · linear_combination (eta * n.y) * hIn
    · linear_combination (eta * n.z) * hIn

/-- The result of refract in the terms of Snell's law, for unit vectors I and N. -/
theorem refract_unit (sqrt : K → K) (hs : IsSqrt sqrt) (ray : Ray K) (normal : Vec3 K)
    (ior : K) (refracted : Vec3 K)
    (hI : (ray.direction.normalize sqrt).dot (ray.direction.normalize sqrt) = 1)
    (hN : (normal.normalize sqrt).dot (normal.normalize sqrt) = 1) :
    ((refract sqrt ray normal ior refracted).1 = false ↔ snellK sqrt ray normal ior < 0) ∧
    ((refract sqrt ray normal ior refracted).1 = false →
      (refract sqrt ray normal ior refracted).2 = refracted) ∧
    ((refract sqrt ray normal ior refracted).1 = true →
      (refract sqrt ray normal ior refracted).2.dot
        (refract sqrt ray normal ior refracted).2 = 1 ∧
      ((ray.direction.normalize sqrt).dot (normal.normalize sqrt) < 0 →
        (refract sqrt ray normal ior refracted).2.dot (normal.normalize sqrt) =
          -sqrt (snellK sqrt ray normal ior)) ∧
      (0 ≤ (ray.direction.normalize sqrt).dot (normal.normalize sqrt) →
        (refract sqrt ray normal ior refracted).2.dot (normal.normalize sqrt) =
          sqrt (snellK sqrt ray normal ior)) ∧
      (refract sqrt ray normal ior refracted).2.sub ((normal.normalize sqrt).scale
          ((refract sqrt ray normal ior refracted).2.dot (normal.normalize sqrt))) =
        ((ray.direction.normalize sqrt).sub ((normal.normalize sqrt).scale
          ((ray.direction.normalize sqrt).dot (normal.normalize sqrt)))).scale
            (snellEta sqrt ray normal ior)) := by
  simp only [refract, snellK, snellEta]
  generalize ray.direction.normalize sqrt = I at hI
  generalize normal.normalize sqrt = N at hN
  by_cases hc : I.dot N < 0
  · simp only [if_pos hc]
    obtain ⟨h1, h2, h3⟩ := refractWith_spec sqrt hs I N (-(I.dot N)) 1 ior refracted hI hN
      (by ring)
    rw [neg_mul_neg] at h1 h3
    refine ⟨h1, h2, fun h => ?_⟩
    obtain ⟨q1, q2, q3⟩ := h3 h
    exact ⟨q1, fun _ => q2, fun h0 => absurd hc (not_lt.mpr h0), q3⟩
  · simp only [if_neg hc]
    have hn : (N.scale (-1)).dot (N.scale (-1)) = 1 := by
      simp only [Vec3.dot, Vec3.scale] at hN ⊢
      linear_combination hN
    have hIn : I.dot (N.scale (-1)) = -(I.dot N) := by
      simp only [Vec3.dot, Vec3.scale]
      ring
    obtain ⟨h1, h2, h3⟩ := refractWith_spec sqrt hs I (N.scale (-1)) (I.dot N) ior 1 refracted
      hI hn hIn
    rw [div_one] at h1 h3
    refine ⟨h1, h2, fun h => ?_⟩
    obtain ⟨q1, q2, q3⟩ := h3 h
    generalize (refractWith sqrt I (I.dot N) ior 1 (N.scale (-1)) refracted).2 = R at q1 q2 q3
    have hRN : R.dot N = sqrt (1 - ior * ior * (1 - I.dot N * I.dot N)) := by
      rw [← neg_inj, ← q2]
      simp only [Vec3.dot, Vec3.scale]
      ring
    refine ⟨q1, fun h0 => absurd h0 hc, fun _ => hRN, ?_⟩
    have e1 : (N.scale (-1)).scale (R.dot (N.scale (-1))) = N.scale (R.dot N) := by
      simp only [Vec3.dot, Vec3.scale, Vec3.mk.injEq]
      refine ⟨by ring, by ring, by ring⟩
    have e2 : (N.scale (-1)).scale (I.dot (N.scale (-1))) = N.scale (I.dot N) := by
      simp only [Vec3.dot, Vec3.scale, Vec3.mk.injEq]
      refine ⟨by ring, by ring, by ring⟩
    rw [e1, e2] at q3
    exact q3

/-- C25 fails as stated: for the unit incident direction (4/5, 0, 3/5), the normal
(0,0,1) and ior = 5/4 the ray is exiting (I . N = 3/5), k = 0, and refract
returns true with the direction R = (1,0,0): R . N = 0, so R lies in the
surface and R . N does not have the sign of I . N. -/
theorem refract_critical_angle :
    refract Real.sqrt ⟨⟨0, 0, 0⟩, ⟨4 / 5, 0, 3 / 5⟩⟩ ⟨0, 0, 1⟩ (5 / 4) ⟨0, 0, 0⟩ =
      (true, ⟨1, 0, 0⟩) ∧
    ((⟨4 / 5, 0, 3 / 5⟩ : Vec3 ℝ).normalize Real.sqrt).dot
      ((⟨0, 0, 1⟩ : Vec3 ℝ).normalize Real.sqrt) = 3 / 5 ∧
    (⟨1, 0, 0⟩ : Vec3 ℝ).dot ((⟨0, 0, 1⟩ : Vec3 ℝ).normalize Real.sqrt) = 0 := by
  have h1 : Real.sqrt 1 = 1 := isSqrt_real.sqrt_eq (by norm_num) (by norm_num)
  have h0 : Real.sqrt 0 = 0 := isSqrt_real.sqrt_eq (by norm_num) (by norm_num)
  have hI : (⟨4 / 5, 0, 3 / 5⟩ : Vec3 ℝ).normalize Real.sqrt = ⟨4 / 5, 0, 3 / 5⟩ :=
    normalize_of_unit Real.sqrt isSqrt_real _ (by simp only [Vec3.dot]; norm_num)
  have hN : (⟨0, 0, 1⟩ : Vec3 ℝ).normalize Real.sqrt = ⟨0, 0, 1⟩ :=
    normalize_of_unit Real.sqrt isSqrt_real _ (by simp only [Vec3.dot]; norm_num)
  have hR : (⟨1, 0, 0⟩ : Vec3 ℝ).normalize Real.sqrt = ⟨1, 0, 0⟩ :=
    normalize_of_unit Real.sqrt isSqrt_real _ (by simp only [Vec3.dot]; norm_num)
  refine ⟨?_, ?_, ?_⟩
  · simp only [refract, hI, hN]
    have hc : ¬ (⟨4 / 5, 0, 3 / 5⟩ : Vec3 ℝ).dot ⟨0, 0, 1⟩ < 0 := by
      simp only [Vec3.dot]; norm_num
    rw [if_neg hc]
    have hk : (1 : ℝ) - 5 / 4 / 1 * (5 / 4 / 1) *
        (1 - (⟨4 / 5, 0, 3 / 5⟩ : Vec3 ℝ).dot ⟨0, 0, 1⟩ *
          (⟨4 / 5, 0, 3 / 5⟩ : Vec3 ℝ).dot ⟨0, 0, 1⟩) = 0 := by
      simp only [Vec3.dot]; norm_num
    simp only [refractWith, hk, lt_irrefl, if_false, h0]
    have hv : ((⟨4 / 5, 0, 3 / 5⟩ : Vec3 ℝ).scale (5 / 4 / 1)).add
        (((⟨0, 0, 1⟩ : Vec3 ℝ).scale (-1)).scale
          (5 / 4 / 1 * (⟨4 / 5, 0, 3 / 5⟩ : Vec3 ℝ).dot ⟨0, 0, 1⟩ - 0)) = ⟨1, 0, 0⟩ := by
      simp only [Vec3.dot, Vec3.scale, Vec3.add, Vec3.mk.injEq]
      norm_num
    rw [hv, hR]
  · rw [hI, hN]
    simp only [Vec3.dot]; norm_num
  · rw [hN]
    simp only [Vec3.dot]; norm_num

/-- C25, as amended: for a non-zero incident direction and normal and ior > 0,
with I and N their normalizations, eta = 1/ior when I . N < 0 and ior
otherwise, and k = 1 - eta^2 (1 - (I . N)^2): refract returns false exactly
when k < 0, leaving the output untouched; otherwise the direction R returned
has length 1, R . N = -sqrt(k) when I . N < 0 and R . N = sqrt(k) otherwise (so
|R . N| = sqrt(k), and R . N never has the sign opposite to I . N), and
R - (R . N) N = eta (I - (I . N) N). -/
theorem refract_spec (sqrt : K → K) (hs : IsSqrt sqrt) (ray : Ray K) (normal : Vec3 K)
    (ior : K) (refracted : Vec3 K) (hd : ray.direction ≠ ⟨0, 0, 0⟩)
    (hn : normal ≠ ⟨0, 0, 0⟩) (hior : 0 < ior) :
    ((refract sqrt ray normal ior refracted).1 = false ↔ snellK sqrt ray normal ior < 0) ∧
    ((refract sqrt ray normal ior refracted).1 = false →
      (refract sqrt ray normal ior refracted).2 = refracted) ∧
    ((refract sqrt ray normal ior refracted).1 = true →
      0 ≤ snellK sqrt ray normal ior ∧ 0 < snellEta sqrt ray normal ior ∧
      (refract sqrt ray normal ior refracted).2.length sqrt = 1 ∧
      ((ray.direction.normalize sqrt).dot (normal.normalize sqrt) < 0 →
        (refract sqrt ray normal ior refracted).2.dot (normal.normalize sqrt) =
          -sqrt (snellK sqrt ray normal ior)) ∧
      (0 ≤ (ray.direction.normalize sqrt).dot (normal.normalize sqrt) →
        (refract sqrt ray normal ior refracted).2.dot (normal.normalize sqrt) =
          sqrt (snellK sqrt ray normal ior)) ∧
      |(refract sqrt ray normal ior refracted).2.dot (normal.normalize sqrt)| =
        sqrt (snellK sqrt ray normal ior) ∧
      0 ≤ (ray.direction.normalize sqrt).dot (normal.normalize sqrt) *
        (refract sqrt ray normal ior refracted).2.dot (normal.normalize sqrt) ∧
      (refract sqrt ray normal ior refracted).2.sub ((normal.normalize sqrt).scale
          ((refract sqrt ray normal ior refracted).2.dot (normal.normalize sqrt))) =
        ((ray.direction.normalize sqrt).sub ((normal.normalize sqrt).scale
          ((ray.direction.normalize sqrt).dot (normal.normalize sqrt)))).scale
            (snellEta sqrt ray normal ior)) := by
  obtain ⟨h1, h2, h3⟩ := refract_unit sqrt hs ray normal ior refracted
    (normalize_dot_self sqrt hs _ hd) (normalize_dot_self sqrt hs _ hn)
  refine ⟨h1, h2, fun h => ?_⟩
  obtain ⟨q1, q2, q3, q4⟩ := h3 h
  have hk : 0 ≤ snellK sqrt ray normal ior := by
    by_contra hcon
    have := h1.mpr (not_le.mp hcon)
    rw [h] at this
    cases this
  have hsk := hs.nonneg hk
  have h1' : sqrt (1 : K) = 1 := hs.sqrt_eq (by norm_num) (by norm_num)
  have heta : 0 < snellEta sqrt ray normal ior := by
    simp only [snellEta]
    split_ifs
    · exact one_div_pos.mpr hior
    · exact hior
  refine ⟨hk, heta, ?_, q2, q3, ?_, ?_, q4⟩
  · simp only [Vec3.dot] at q1
    simp only [Vec3.length]
    rw [q1, h1']
  · by_cases hc : (ray.direction.normalize sqrt).dot (normal.normalize sqrt) < 0
    · rw [q2 hc, abs_neg, abs_of_nonneg hsk]
    · rw [q3 (not_lt.mp hc), abs_of_nonneg hsk]
  · by_cases hc : (ray.direction.normalize sqrt).dot (normal.normalize sqrt) < 0
    · rw [q2 hc]
      nlinarith
    · rw [q3 (not_lt.mp hc)]
      exact mul_nonneg (not_lt.mp hc) hsk

/-- Witness for C25: the direction (0, 0, -1) entering glass of ior 3/2 through
the surface of normal (0, 0, 1) goes straight on. -/
theorem refract_spec_witness :
    IsSqrt Real.sqrt ∧ (⟨0, 0, -1⟩ : Vec3 ℝ) ≠ ⟨0, 0, 0⟩ ∧ (⟨0, 0, 1⟩ : Vec3 ℝ) ≠ ⟨0, 0, 0⟩ ∧
    (0 : ℝ) < 3 / 2 ∧
    ((refract Real.sqrt ⟨⟨0, 0, 0⟩, ⟨0, 0, -1⟩⟩ ⟨0, 0, 1⟩ (3 / 2) ⟨0, 0, 0⟩).1 = false ↔
      snellK Real.sqrt ⟨⟨0, 0, 0⟩, ⟨0, 0, -1⟩⟩ ⟨0, 0, 1⟩ (3 / 2) < 0) := by
  have hd : (⟨0, 0, -1⟩ : Vec3 ℝ) ≠ ⟨0, 0, 0⟩ := by
    intro hc; injection hc with _ _ hz; norm_num at hz
  have hn : (⟨0, 0, 1⟩ : Vec3 ℝ) ≠ ⟨0, 0, 0⟩ := by
    intro hc; injection hc with _ _ hz; norm_num at hz
  exact ⟨isSqrt_real, hd, hn, by norm_num,
    (refract_spec Real.sqrt isSqrt_real ⟨⟨0, 0, 0⟩, ⟨0, 0, -1⟩⟩ ⟨0, 0, 1⟩ (3 / 2) ⟨0, 0, 0⟩
      hd hn (by norm_num)).1⟩

end Intersect

end Raytracer
